import Mathlib

/-!
# Arithmetic expression interpreter (`letstry.cpp`, `hopefully.cpp`, `trig.cpp`)

A shallow embedding of the interpreter classes of the repository and the
properties of its specification.

Modelling conventions.

* `std::string` is `List Char`; `std::vector<std::string>` is a list of those.
* `double` is modelled by the rationals `ℚ` with exact arithmetic: `+ - * /`
  are the field operations and `std::fmod` is the truncated remainder.  NaN,
  infinities, signed zero, rounding and overflow are outside the model.
* `std::stack<T>` is a `List T` whose head is the top of the stack.
* `std::map<std::string, double>` is an association list read with
  `List.lookup` and written with `Env.assign`.
* A C++ computation ends in an `Outcome`: a value, a thrown `std::exception`
  carrying its `what()` text, or undefined behaviour (`top()`/`pop()` on an
  empty `std::stack`, `operator[]` past the end of a `std::vector`).
-/

namespace Letstry

/-- Outcome of a C++ computation. `error msg` is a thrown exception whose
`what()` is `msg`; `undefined` is undefined behaviour; `nofuel` is returned
only by fuel-bounded recursion when the fuel is exhausted. -/
inductive Outcome (α : Type) where
  | ok (a : α)
  | error (msg : List Char)
  | undefined
  | nofuel
  deriving DecidableEq, Repr

/-- Model of `double`. -/
abbrev Double := ℚ

/-- Model of `Context::variables`. -/
abbrev Env := List (List Char × Double)

/-- Model of `context->variables[var] = value`: replace the binding of `var`
when there is one, insert it otherwise. -/
def Env.assign : Env → List Char → Double → Env
  | [], var, value => [(var, value)]
  | (k, v) :: rest, var, value =>
    if k = var then (k, value) :: rest else (k, v) :: Env.assign rest var value

/-- Model of `std::isdigit` on ASCII. -/
def isdigit (c : Char) : Bool := c.isDigit

/-- Value of a run of decimal digits, most significant first. -/
def digitsValue (s : List Char) : Nat :=
  s.foldl (fun acc c => 10 * acc + (c.toNat - 48)) 0

/-- Conversion of an unsigned decimal prefix: digits with an optional
decimal point. What follows the prefix is ignored; `none` when the prefix
holds no digit. -/
def stodUnsigned (body : List Char) : Option Double :=
  let ip := body.takeWhile isdigit
  let fp := match body.dropWhile isdigit with
    | [] => []
    | c :: r => if c = '.' then r.takeWhile isdigit else []
  if ip.isEmpty && fp.isEmpty then none
  else some ((digitsValue ip : ℚ) + (digitsValue fp : ℚ) / (10 : ℚ) ^ fp.length)

/-- Model of `std::stod` on the strings that reach it (an optional sign, then
digits with an optional decimal point): the longest prefix of that shape is
converted, what follows it is ignored, and `none` stands for the
`std::invalid_argument` thrown when the prefix holds no digit.  Exponent and
hexadecimal forms and the `std::out_of_range` of an overflow are outside the
model. -/
def stod (s : List Char) : Option Double :=
  match s with
  | [] => none
  | c :: r =>
    if c = '-' then (stodUnsigned r).map (fun m => -m)
    else if c = '+' then stodUnsigned r
    else stodUnsigned (c :: r)

/-- Model of `std::fmod`: the remainder of `x / y` with the quotient truncated
towards zero. -/
def fmod (x y : Double) : Double :=
  let q := x / y
  x - y * (if 0 ≤ q then (Rat.floor q : ℚ) else (Rat.ceil q : ℚ))

/-- Model of `str.erase(0, str.find_first_not_of(" "))`. -/
def eraseLeadingSpaces (str : List Char) : List Char :=
  str.dropWhile (· = ' ')

/-- Model of `str.erase(str.find_last_not_of(" ") + 1)`. -/
def eraseTrailingSpaces (str : List Char) : List Char :=
  (str.reverse.dropWhile (· = ' ')).reverse

/-- Model of `Interpreter::trim`: strips the spaces at both ends. -/
def trim (str : List Char) : List Char :=
  eraseTrailingSpaces (eraseLeadingSpaces str)

/-- Model of `std::string::find(char)`: index of the first occurrence. -/
def find (c : Char) : List Char → Option Nat
  | [] => none
  | x :: xs => if x = c then some 0 else (find c xs).map (· + 1)

/-- Model of `input.find(p) == 0`: `p` occurs at the start of `input`. -/
def startsWith : List Char → List Char → Bool
  | [], _ => true
  | _ :: _, [] => false
  | p :: ps, x :: xs => p = x && startsWith ps xs

/-- Model of the `std::getline` loop of `Interpreter::split` before trimming:
the pieces between delimiters; a last piece that is empty is not produced
(the stream is at end of file with nothing extracted). -/
def splitRaw (delimiter : Char) : List Char → List (List Char)
  | [] => []
  | c :: cs =>
    if c = delimiter then [] :: splitRaw delimiter cs
    else match splitRaw delimiter cs with
      | [] => [[c]]
      | t :: ts => (c :: t) :: ts

/-- Model of `Interpreter::split`. -/
def split (str : List Char) (delimiter : Char) : List (List Char) :=
  (splitRaw delimiter str).map trim

/-- Loop of `Interpreter::tokenize` with its three locals. -/
def tokenizeLoop : List Char → List (List Char) → List Char → Bool → List (List Char)
  | [], tokens, token, _ => if token ≠ [] then tokens ++ [token] else tokens
  | c :: cs, tokens, token, lastWasOperator =>
    if isdigit c || c = '.' || (c = '-' && lastWasOperator) then
      tokenizeLoop cs tokens (token ++ [c]) false
    else
      let tokens1 := if token ≠ [] then tokens ++ [token] else tokens
      if c ≠ ' ' then tokenizeLoop cs (tokens1 ++ [[c]]) [] true
      else tokenizeLoop cs tokens1 [] lastWasOperator

/-- Model of `Interpreter::tokenize`. -/
def tokenize (input : List Char) : List (List Char) :=
  tokenizeLoop input [] [] true

/-- Model of the `precedence` map. -/
def precedence (c : Char) : Option Nat :=
  if c = '+' then some 1
  else if c = '-' then some 1
  else if c = '*' then some 2
  else if c = '/' then some 2
  else if c = '%' then some 2
  else none

/-- Model of `precedence[c]`, which is `0` for a key that is absent. -/
def precedenceAt (c : Char) : Nat := (precedence c).getD 0

/-- Model of `Interpreter::applyOperator` once `op` has been taken off the
operator stack (the stack is non-empty at each call, by the loop guards):
pops the right and the left operand and pushes the result; a character that
is no case of the `switch` pushes nothing. -/
def applyOperator (op : Char) (values : List Double) : Outcome (List Double) :=
  match values with
  | right :: left :: values =>
    if op = '+' then .ok ((left + right) :: values)
    else if op = '-' then .ok ((left - right) :: values)
    else if op = '*' then .ok ((left * right) :: values)
    else if op = '/' then
      if right = 0 then .error "Division by zero".toList else .ok ((left / right) :: values)
    else if op = '%' then
      if right = 0 then .error "Modulo by zero".toList else .ok ((fmod left right) :: values)
    else .ok values
  | _ => .undefined

/-- Model of the loops
`while (!operators.empty() && operators.top() != '(' && cond(operators.top())) applyOperator(...)`. -/
def reduceWhile (cond : Char → Bool) : List Double → List Char →
    Outcome (List Double × List Char)
  | values, [] => .ok (values, [])
  | values, op :: operators =>
    if op ≠ '(' ∧ cond op = true then
      match applyOperator op values with
      | .ok values1 => reduceWhile cond values1 operators
      | .error msg => .error msg
      | .undefined => .undefined
      | .nofuel => .nofuel
    else .ok (values, op :: operators)

/-- Model of the last loop, `while (!operators.empty()) applyOperator(...)`,
followed by `return values.top()`. -/
def finish : List Double → List Char → Outcome Double
  | [], [] => .undefined
  | v :: _, [] => .ok v
  | values, op :: operators =>
    match applyOperator op values with
    | .ok values1 => finish values1 operators
    | .error msg => .error msg
    | .undefined => .undefined
    | .nofuel => .nofuel

/-- Model of `token[0]`, which is the terminating `'\0'` for an empty string. -/
def firstChar (token : List Char) : Char := token.headD (Char.ofNat 0)

/-- Model of the test of the first branch of the loop of
`evaluateMathExpression`: the token is converted with `std::stod`. -/
def isNumberToken (token : List Char) : Bool :=
  isdigit (firstChar token) || token.contains '.' ||
    (firstChar token = '-' && decide (token.length > 1))

/-- Loop of `Interpreter::evaluateMathExpression` over the tokens, with the
two stacks. The `std::invalid_argument` of `std::stod` carries the text
`stod` (libstdc++); `operators.pop()` after the loop of the `)` branch is
undefined behaviour on an empty stack. -/
def evalTokens (env : Env) : List (List Char) → List Double → List Char → Outcome Double
  | [], values, operators => finish values operators
  | token :: rest, values, operators =>
    if isNumberToken token then
      match stod token with
      | some v => evalTokens env rest (v :: values) operators
      | none => .error "stod".toList
    else
      match env.lookup token with
      | some v => evalTokens env rest (v :: values) operators
      | none =>
        if token = ['('] then evalTokens env rest values ('(' :: operators)
        else if token = [')'] then
          match reduceWhile (fun _ => true) values operators with
          | .ok (values1, _ :: operators1) => evalTokens env rest values1 operators1
          | .ok (_, []) => .undefined
          | .error msg => .error msg
          | .undefined => .undefined
          | .nofuel => .nofuel
        else if (precedence (firstChar token)).isSome then
          match reduceWhile (fun o => decide (precedenceAt o ≥ precedenceAt (firstChar token)))
              values operators with
          | .ok (values1, operators1) =>
            evalTokens env rest values1 (firstChar token :: operators1)
          | .error msg => .error msg
          | .undefined => .undefined
          | .nofuel => .nofuel
        else .error ("Undefined variable or invalid input: ".toList ++ token)

/-- Model of `Interpreter::evaluateMathExpression`. -/
def evaluateMathExpression (env : Env) (tokens : List (List Char)) : Outcome Double :=
  evalTokens env tokens [] []

/-- Loop of `Interpreter::evaluateFunction` over `tokens[1..]`. -/
def foldArgs (evalArg : List Char → Outcome Double) (op : Char) :
    Double → List (List Char) → Outcome Double
  | result, [] => .ok result
  | result, t :: ts =>
    match evalArg t with
    | .ok value =>
      if op = '+' then foldArgs evalArg op (result + value) ts
      else if op = '-' then foldArgs evalArg op (result - value) ts
      else if op = '*' then foldArgs evalArg op (result * value) ts
      else if op = '/' then
        if value = 0 then .error "Division by zero".toList
        else foldArgs evalArg op (result / value) ts
      else if op = '%' then
        if value = 0 then .error "Modulo by zero".toList
        else foldArgs evalArg op (fmod result value) ts
      else foldArgs evalArg op result ts
    | .error msg => .error msg
    | .undefined => .undefined
    | .nofuel => .nofuel

/-- Model of `Interpreter::evaluateFunction`; `evalArg` is the recursive call
of `evaluateExpression` and `op` the one-character operator string. -/
def evaluateFunction (evalArg : List Char → Outcome Double) (input : List Char) (op : Char) :
    Outcome Double :=
  match find '(' input, find ')' input with
  | some start, some stop =>
    if start ≥ stop then .error "Invalid function syntax".toList
    else
      let args := (input.drop (start + 1)).take (stop - start - 1)
      match split args ',' with
      | [] => .undefined
      | t0 :: ts =>
        match evalArg t0 with
        | .ok result => foldArgs evalArg op result ts
        | .error msg => .error msg
        | .undefined => .undefined
        | .nofuel => .nofuel
  | _, _ => .error "Invalid function syntax".toList

/-- Model of `Interpreter::evaluateExpression`, with a bound on the depth of
the recursion through `evaluateFunction`. -/
def evaluateExpressionFuel (env : Env) : Nat → List Char → Outcome Double
  | 0, _ => .nofuel
  | fuel + 1, input =>
    match env.lookup input with
    | some v => .ok v
    | none =>
      if startsWith "add(".toList input then
        evaluateFunction (evaluateExpressionFuel env fuel) input '+'
      else if startsWith "sub(".toList input then
        evaluateFunction (evaluateExpressionFuel env fuel) input '-'
      else if startsWith "mul(".toList input then
        evaluateFunction (evaluateExpressionFuel env fuel) input '*'
      else if startsWith "div(".toList input then
        evaluateFunction (evaluateExpressionFuel env fuel) input '/'
      else if startsWith "mod(".toList input then
        evaluateFunction (evaluateExpressionFuel env fuel) input '%'
      else evaluateMathExpression env (tokenize input)

/-- Model of `Interpreter::evaluateExpression`: every recursive call is on a
proper substring of its input, so the length of the input bounds the depth. -/
def evaluateExpression (env : Env) (input : List Char) : Outcome Double :=
  evaluateExpressionFuel env (input.length + 1) input

/-- Round a non-negative rational to the nearest integer, ties to even. -/
def roundHalfEven (q : ℚ) : Nat :=
  let f := (Rat.floor q).toNat
  let r := q - (f : ℚ)
  if r < 1 / 2 then f
  else if 1 / 2 < r then f + 1
  else if f % 2 = 0 then f else f + 1

/-- Model of `stream << std::fixed << std::setprecision(2) << x`. -/
def fixed2 (x : Double) : List Char :=
  let n := roundHalfEven (|x| * 100)
  (if x < 0 then ['-'] else []) ++ (Nat.toDigits 10 (n / 100)) ++ ['.'] ++
    [Nat.digitChar (n / 10 % 10), Nat.digitChar (n % 10)]

/-- Model of `Interpreter::interpret` on the environment `env`: the returned
string and the environment afterwards.  The right operand of the assignment
`context->variables[var] = evaluateExpression(expr)` is evaluated before the
map is indexed, so an exception leaves the map as it was. -/
def interpret (env : Env) (input : List Char) : Outcome (List Char × Env) :=
  let input := trim input
  match find '=' input with
  | some eq_pos =>
    let var := trim (input.take eq_pos)
    let expr := trim (input.drop (eq_pos + 1))
    match evaluateExpression env expr with
    | .ok v => .ok ([], env.assign var v)
    | .error msg => .ok ("Error: ".toList ++ msg, env)
    | .undefined => .undefined
    | .nofuel => .nofuel
  | none =>
    match evaluateExpression env input with
    | .ok v => .ok (fixed2 v, env)
    | .error msg => .ok ("Error: ".toList ++ msg, env)
    | .undefined => .undefined
    | .nofuel => .nofuel


/-! ## Infix expressions of the conventional grammar -/

/-- Infix expression whose leaves are numeric literal tokens. -/
inductive Expr where
  | num (token : List Char)
  | bin (op : Char) (l r : Expr)
  | paren (e : Expr)
  deriving DecidableEq, Repr

/-- Binding strength of the outermost construct: the precedence of the
operator of a binary node, `3` for a literal or a parenthesised expression. -/
def Expr.level : Expr → Nat
  | .num _ => 3
  | .bin op _ _ => precedenceAt op
  | .paren _ => 3

/-- The expression is the reading of its own token sequence in the grammar in
which `* / %` bind tighter than `+ -` and operators of equal precedence
associate to the left: the left operand of an operator binds at least as
strongly as the operator and the right operand strictly more strongly. -/
def Expr.wellFormed : Expr → Bool
  | .num token => isNumberToken token
  | .bin op l r =>
    (precedence op).isSome && l.wellFormed && r.wellFormed &&
      decide (precedenceAt op ≤ l.level) && decide (precedenceAt op < r.level)
  | .paren e => e.wellFormed

/-- Token sequence of an expression. -/
def Expr.toTokens : Expr → List (List Char)
  | .num token => [token]
  | .bin op l r => l.toTokens ++ [op] :: r.toTokens
  | .paren e => ['('] :: e.toTokens ++ [[')']]

/-- Value of `left op right`; `none` for a division or a modulo by zero. -/
def binaryValue (op : Char) (left right : Double) : Option Double :=
  if op = '+' then some (left + right)
  else if op = '-' then some (left - right)
  else if op = '*' then some (left * right)
  else if op = '/' then (if right = 0 then none else some (left / right))
  else if op = '%' then (if right = 0 then none else some (fmod left right))
  else none

/-- Value of an expression; `none` when a literal is not a number or a
division or modulo has a zero right operand. -/
def Expr.value : Expr → Option Double
  | .num token => stod token
  | .bin op l r =>
    match l.value, r.value with
    | some a, some b => binaryValue op a b
    | _, _ => none
  | .paren e => e.value

/-- No operator or parenthesis character is the name of a variable. -/
def operatorsUnbound (env : Env) : Prop :=
  ∀ c ∈ ['(', ')', '+', '-', '*', '/', '%'], env.lookup [c] = none

instance (env : Env) : Decidable (operatorsUnbound env) := by
  unfold operatorsUnbound; infer_instance

/-- The top of the operator stack does not bind as strongly as level `k`. -/
def stackBelow (k : Nat) : List Char → Prop
  | [] => True
  | o :: _ => o = '(' ∨ precedenceAt o < k

/-- The input starts with one of the five function names and `(`. -/
def isCall (input : List Char) : Bool :=
  startsWith "add(".toList input || startsWith "sub(".toList input ||
    startsWith "mul(".toList input || startsWith "div(".toList input ||
    startsWith "mod(".toList input

/-- A non-empty string of digits and decimal points: the spelling of a
numeric literal without sign. -/
def isUnsignedLiteral (a : List Char) : Bool :=
  !a.isEmpty && a.all (fun c => isdigit c || c = '.')


/-- A numeric literal: an unsigned literal, possibly preceded by `-`. -/
def isLiteral : List Char → Bool
  | [] => false
  | c :: r => if c = '-' then isUnsignedLiteral r else isUnsignedLiteral (c :: r)

/-- Text of a call `name(a0,a1,...,an)`. -/
def callText (name a0 : List Char) (rest : List (List Char)) : List Char :=
  name ++ '(' :: (a0 ++ rest.flatMap (fun a => ',' :: a)) ++ [')']

/-- One step of the fold of a function call, `result op value`. -/
def foldStep (op : Char) (result value : Double) : Double :=
  if op = '+' then result + value
  else if op = '-' then result - value
  else if op = '*' then result * value
  else if op = '/' then result / value
  else fmod result value

/-- The loop of `Interpreter::evaluateMathExpression` over a sequence of
tokens, without the final reduction: the two stacks after the last token, or
the failure raised on the way. -/
def loopTokens (env : Env) :
    List (List Char) → List Double → List Char → Outcome (List Double × List Char)
  | [], values, operators => .ok (values, operators)
  | token :: rest, values, operators =>
    if isNumberToken token then
      match stod token with
      | some v => loopTokens env rest (v :: values) operators
      | none => .error "stod".toList
    else
      match env.lookup token with
      | some v => loopTokens env rest (v :: values) operators
      | none =>
        if token = ['('] then loopTokens env rest values ('(' :: operators)
        else if token = [')'] then
          match reduceWhile (fun _ => true) values operators with
          | .ok (values1, _ :: operators1) => loopTokens env rest values1 operators1
          | .ok (_, []) => .undefined
          | .error msg => .error msg
          | .undefined => .undefined
          | .nofuel => .nofuel
        else if (precedence (firstChar token)).isSome then
          match reduceWhile (fun o => decide (precedenceAt o ≥ precedenceAt (firstChar token)))
              values operators with
          | .ok (values1, operators1) =>
            loopTokens env rest values1 (firstChar token :: operators1)
          | .error msg => .error msg
          | .undefined => .undefined
          | .nofuel => .nofuel
        else .error ("Undefined variable or invalid input: ".toList ++ token)

end Letstry

/-! ## The tree-building interpreter of `hopefully.cpp` -/

namespace Hopefully

open Letstry (Outcome Double stod firstChar isdigit)

/-- Model of the `Expression` class hierarchy: one constructor per concrete
class, a binary node owning its `left` and `right` operand. -/
inductive Expression where
  | NumberExpression (number : Double)
  | VariableExpression (name : List Char)
  | AdditionExpression (left right : Expression)
  | SubtractionExpression (left right : Expression)
  | MultiplicationExpression (left right : Expression)
  | DivisionExpression (left right : Expression)
  deriving DecidableEq, Repr

/-- Model of `std::isalpha` on ASCII. -/
def isalpha (c : Char) : Bool := c.isAlpha

/-- Model of `std::isalnum` on ASCII. -/
def isalnum (c : Char) : Bool := c.isAlphanum

/-- Loop of `Interpreter::tokenize` of `hopefully.cpp` with its two locals. -/
def tokenizeLoop : List Char → List (List Char) → List Char → List (List Char)
  | [], tokens, number => if number ≠ [] then tokens ++ [number] else tokens
  | c :: cs, tokens, number =>
    if isalnum c || c = '.' then tokenizeLoop cs tokens (number ++ [c])
    else
      let tokens1 := if number ≠ [] then tokens ++ [number] else tokens
      if c = '+' ∨ c = '-' ∨ c = '*' ∨ c = '/' ∨ c = '(' ∨ c = ')' then
        tokenizeLoop cs (tokens1 ++ [[c]]) []
      else tokenizeLoop cs tokens1 []

/-- Model of `Interpreter::tokenize` of `hopefully.cpp`. -/
def tokenize (input : List Char) : List (List Char) :=
  tokenizeLoop input [] []

/-- Model of the `precedence` map of `hopefully.cpp`. -/
def precedence (c : Char) : Option Nat :=
  if c = '+' then some 1
  else if c = '-' then some 1
  else if c = '*' then some 2
  else if c = '/' then some 2
  else none

/-- Model of `precedence[c]`, which is `0` for a key that is absent. -/
def precedenceAt (c : Char) : Nat := (precedence c).getD 0

/-- Model of `Interpreter::applyOperator` of `hopefully.cpp` once `op` has
been taken off the operator stack: pops the right and the left operand and
pushes the node built from them; a character that is no case of the `switch`
pushes nothing. -/
def applyOperator (op : Char) (values : List Expression) : Outcome (List Expression) :=
  match values with
  | right :: left :: values =>
    if op = '+' then .ok (.AdditionExpression left right :: values)
    else if op = '-' then .ok (.SubtractionExpression left right :: values)
    else if op = '*' then .ok (.MultiplicationExpression left right :: values)
    else if op = '/' then .ok (.DivisionExpression left right :: values)
    else .ok values
  | _ => .undefined

/-- Model of the loops
`while (!operators.empty() && operators.top() != '(' && cond(operators.top())) applyOperator(...)`. -/
def reduceWhile (cond : Char → Bool) : List Expression → List Char →
    Outcome (List Expression × List Char)
  | values, [] => .ok (values, [])
  | values, op :: operators =>
    if op ≠ '(' ∧ cond op = true then
      match applyOperator op values with
      | .ok values1 => reduceWhile cond values1 operators
      | .error msg => .error msg
      | .undefined => .undefined
      | .nofuel => .nofuel
    else .ok (values, op :: operators)

/-- Model of the last loop, `while (!operators.empty()) applyOperator(...)`,
followed by `return values.top()`. -/
def finish : List Expression → List Char → Outcome Expression
  | [], [] => .undefined
  | v :: _, [] => .ok v
  | values, op :: operators =>
    match applyOperator op values with
    | .ok values1 => finish values1 operators
    | .error msg => .error msg
    | .undefined => .undefined
    | .nofuel => .nofuel

/-- Loop of `Interpreter::buildExpressionTree` over the tokens, with the two
stacks. A token that matches no branch is skipped. -/
def buildTokens : List (List Char) → List Expression → List Char → Outcome Expression
  | [], values, operators => finish values operators
  | token :: rest, values, operators =>
    if isdigit (firstChar token) || token.contains '.' then
      match stod token with
      | some v => buildTokens rest (.NumberExpression v :: values) operators
      | none => .error "stod".toList
    else if isalpha (firstChar token) then
      buildTokens rest (.VariableExpression token :: values) operators
    else if token = ['('] then buildTokens rest values ('(' :: operators)
    else if token = [')'] then
      match reduceWhile (fun _ => true) values operators with
      | .ok (values1, _ :: operators1) => buildTokens rest values1 operators1
      | .ok (_, []) => .undefined
      | .error msg => .error msg
      | .undefined => .undefined
      | .nofuel => .nofuel
    else if token = ['+'] ∨ token = ['-'] ∨ token = ['*'] ∨ token = ['/'] then
      match reduceWhile (fun o => decide (precedenceAt o ≥ precedenceAt (firstChar token)))
          values operators with
      | .ok (values1, operators1) => buildTokens rest values1 (firstChar token :: operators1)
      | .error msg => .error msg
      | .undefined => .undefined
      | .nofuel => .nofuel
    else buildTokens rest values operators

/-- Model of `Interpreter::buildExpressionTree` of `hopefully.cpp`. -/
def buildExpressionTree (tokens : List (List Char)) : Outcome Expression :=
  buildTokens tokens [] []

/-- Evaluation of the two operands of a `+`, `-` or `*` node and the
operation on their values. C++ leaves the order in which the two operands of
these operators are evaluated unspecified; `leftFirst` is the order chosen by
the compiler. The first operand that throws ends the evaluation. -/
def binaryOperands (leftFirst : Bool) (left right : Outcome Double)
    (f : Double → Double → Double) : Outcome Double :=
  if leftFirst then
    match left with
    | .ok a =>
      match right with
      | .ok b => .ok (f a b)
      | .error msg => .error msg
      | .undefined => .undefined
      | .nofuel => .nofuel
    | .error msg => .error msg
    | .undefined => .undefined
    | .nofuel => .nofuel
  else
    match right with
    | .ok b =>
      match left with
      | .ok a => .ok (f a b)
      | .error msg => .error msg
      | .undefined => .undefined
      | .nofuel => .nofuel
    | .error msg => .error msg
    | .undefined => .undefined
    | .nofuel => .nofuel

/-- Model of the virtual method `Expression::interpret` of `hopefully.cpp`.
`DivisionExpression::interpret` evaluates `right` into `denominator`, tests it
against zero, and only then evaluates `left`. -/
def Expression.interpret (leftFirst : Bool) (context : Letstry.Env) :
    Expression → Outcome Double
  | .NumberExpression number => .ok number
  | .VariableExpression name =>
    match context.lookup name with
    | some v => .ok v
    | none => .error ("Undefined variable: ".toList ++ name)
  | .AdditionExpression left right =>
    binaryOperands leftFirst (left.interpret leftFirst context)
      (right.interpret leftFirst context) (fun a b => a + b)
  | .SubtractionExpression left right =>
    binaryOperands leftFirst (left.interpret leftFirst context)
      (right.interpret leftFirst context) (fun a b => a - b)
  | .MultiplicationExpression left right =>
    binaryOperands leftFirst (left.interpret leftFirst context)
      (right.interpret leftFirst context) (fun a b => a * b)
  | .DivisionExpression left right =>
    match right.interpret leftFirst context with
    | .ok denominator =>
      if denominator = 0 then .error "Division by zero error".toList
      else
        match left.interpret leftFirst context with
        | .ok a => .ok (a / denominator)
        | .error msg => .error msg
        | .undefined => .undefined
        | .nofuel => .nofuel
    | .error msg => .error msg
    | .undefined => .undefined
    | .nofuel => .nofuel

/-- Loop of `Interpreter::interpret` of `hopefully.cpp` over the
comma-separated segments: the outcome of the call and `context.variables`
when the call ends (by `return` or by an exception). An assignment segment
stores its value and the loop goes on; the first segment without `=` returns
its value; `0` is returned when the segments are exhausted. -/
def interpretSegments (leftFirst : Bool) :
    Letstry.Env → List (List Char) → Outcome Double × Letstry.Env
  | context, [] => (.ok 0, context)
  | context, token :: rest =>
    match Letstry.find '=' token with
    | some eq_pos =>
      let var := Letstry.trim (token.take eq_pos)
      let expr := Letstry.trim (token.drop (eq_pos + 1))
      match buildExpressionTree (tokenize expr) with
      | .ok expressionTree =>
        match expressionTree.interpret leftFirst context with
        | .ok value => interpretSegments leftFirst (context.assign var value) rest
        | .error msg => (.error msg, context)
        | .undefined => (.undefined, context)
        | .nofuel => (.nofuel, context)
      | .error msg => (.error msg, context)
      | .undefined => (.undefined, context)
      | .nofuel => (.nofuel, context)
    | none =>
      match buildExpressionTree (tokenize token) with
      | .ok expressionTree => (expressionTree.interpret leftFirst context, context)
      | .error msg => (.error msg, context)
      | .undefined => (.undefined, context)
      | .nofuel => (.nofuel, context)

/-- Model of `Interpreter::interpret` of `hopefully.cpp`; the segments are
those of the `std::getline(iss, token, ',')` loop. -/
def interpret (leftFirst : Bool) (context : Letstry.Env) (input : List Char) :
    Outcome Double × Letstry.Env :=
  interpretSegments leftFirst context (Letstry.splitRaw ',' input)

/-! ## Infix expressions common to `letstry.cpp` and `hopefully.cpp` -/

/-- Infix expression over non-negative numeric literals, single-letter
variables, the operators `+ - * /` and parentheses. -/
inductive Infix where
  | lit (token : List Char)
  | var (name : Char)
  | bin (op : Char) (l r : Infix)
  | paren (e : Infix)
  deriving DecidableEq, Repr

/-- Binding strength of the outermost construct: the precedence of the
operator of a binary node, `3` for a literal, a variable or a parenthesised
expression. -/
def Infix.level : Infix → Nat
  | .lit _ => 3
  | .var _ => 3
  | .bin op _ _ => precedenceAt op
  | .paren _ => 3

/-- The expression is the reading of its own token sequence in the grammar in
which `* /` bind tighter than `+ -` and operators of equal precedence
associate to the left; its literals are unsigned numerals accepted by
`std::stod` and its variables are letters. -/
def Infix.wellFormed : Infix → Bool
  | .lit token => Letstry.isUnsignedLiteral token && (stod token).isSome
  | .var name => name.isAlpha
  | .bin op l r =>
    (precedence op).isSome && l.wellFormed && r.wellFormed &&
      decide (precedenceAt op ≤ l.level) && decide (precedenceAt op < r.level)
  | .paren e => e.wellFormed

/-- Token sequence of an expression. -/
def Infix.toTokens : Infix → List (List Char)
  | .lit token => [token]
  | .var name => [[name]]
  | .bin op l r => l.toTokens ++ [op] :: r.toTokens
  | .paren e => ['('] :: e.toTokens ++ [[')']]

/-- Every variable of the expression is bound in the environment. -/
def Infix.bound (env : Letstry.Env) : Infix → Bool
  | .lit _ => true
  | .var name => (env.lookup [name]).isSome
  | .bin _ l r => l.bound env && r.bound env
  | .paren e => e.bound env

/-- Value of an expression; `none` when a division has a zero right operand
(or a variable is unbound or a literal is not a number). -/
def Infix.value (env : Letstry.Env) : Infix → Option Double
  | .lit token => stod token
  | .var name => env.lookup [name]
  | .bin op l r =>
    match l.value env, r.value env with
    | some a, some b => Letstry.binaryValue op a b
    | _, _ => none
  | .paren e => e.value env

/-- The tree that the operators and parentheses of the expression denote. -/
def Infix.tree : Infix → Expression
  | .lit token => .NumberExpression ((stod token).getD 0)
  | .var name => .VariableExpression [name]
  | .bin op l r =>
    if op = '+' then .AdditionExpression l.tree r.tree
    else if op = '-' then .SubtractionExpression l.tree r.tree
    else if op = '*' then .MultiplicationExpression l.tree r.tree
    else .DivisionExpression l.tree r.tree
  | .paren e => e.tree

/-- The top of the operator stack of `buildExpressionTree` does not bind as
strongly as level `k`. -/
def stackBelow (k : Nat) : List Char → Prop
  | [] => True
  | o :: _ => o = '(' ∨ precedenceAt o < k

/-- None of the characters `( ) + - * /` is the name of a variable. -/
def infixUnbound (env : Letstry.Env) : Prop :=
  ∀ c ∈ ['(', ')', '+', '-', '*', '/'], env.lookup [c] = none

instance (env : Letstry.Env) : Decidable (infixUnbound env) := by
  unfold infixUnbound; infer_instance

end Hopefully

/-! ## The trigonometric functions of `trig.cpp` -/

namespace Trig

open Letstry (Outcome Double Env find trim fixed2)

/-- The parts of `<cmath>` that `trig.cpp` uses: `std::sin`, `std::cos`,
`std::tan` on `double`, and the constant `M_PI`. -/
structure Cmath where
  sin : Double → Double
  cos : Double → Double
  tan : Double → Double
  pi : Double

/-- Model of `Interpreter::evaluateTrigFunction`, for any number type with the
trigonometric functions and the constant `pi` passed in; `evalArg` is the
recursive call of `evaluateExpression` on the argument string. -/
def evaluateTrigFunction {α : Type} [DivisionRing α] (sin cos tan : α → α) (pi : α)
    (evalArg : List Char → Outcome α) (input func : List Char) : Outcome α :=
  match find '(' input, find ')' input with
  | some start, some stop =>
    if start ≥ stop then .error "Invalid function syntax".toList
    else
      let arg := (input.drop (start + 1)).take (stop - start - 1)
      match evalArg arg with
      | .ok value =>
        let radians := value * pi / 180
        if func = "sin".toList then .ok (sin radians)
        else if func = "cos".toList then .ok (cos radians)
        else if func = "tan".toList then .ok (tan radians)
        else .error ("Unknown function: ".toList ++ func)
      | .error msg => .error msg
      | .undefined => .undefined
      | .nofuel => .nofuel
  | _, _ => .error "Invalid function syntax".toList

/-- Model of `Interpreter::evaluateExpression` of `trig.cpp`, with a bound on
the depth of the recursion. `trig.cpp` calls `evaluateMathExpression` and
`tokenize` without defining them: `mathExpression env input` stands for
`evaluateMathExpression(tokenize(input))`. -/
def evaluateExpressionFuel (m : Cmath) (mathExpression : Env → List Char → Outcome Double)
    (env : Env) : Nat → List Char → Outcome Double
  | 0, _ => .nofuel
  | fuel + 1, input =>
    match env.lookup input with
    | some v => .ok v
    | none =>
      if Letstry.startsWith "add(".toList input then
        Letstry.evaluateFunction (evaluateExpressionFuel m mathExpression env fuel) input '+'
      else if Letstry.startsWith "sub(".toList input then
        Letstry.evaluateFunction (evaluateExpressionFuel m mathExpression env fuel) input '-'
      else if Letstry.startsWith "mul(".toList input then
        Letstry.evaluateFunction (evaluateExpressionFuel m mathExpression env fuel) input '*'
      else if Letstry.startsWith "div(".toList input then
        Letstry.evaluateFunction (evaluateExpressionFuel m mathExpression env fuel) input '/'
      else if Letstry.startsWith "mod(".toList input then
        Letstry.evaluateFunction (evaluateExpressionFuel m mathExpression env fuel) input '%'
      else if Letstry.startsWith "sin(".toList input then
        evaluateTrigFunction m.sin m.cos m.tan m.pi
          (evaluateExpressionFuel m mathExpression env fuel) input "sin".toList
      else if Letstry.startsWith "cos(".toList input then
        evaluateTrigFunction m.sin m.cos m.tan m.pi
          (evaluateExpressionFuel m mathExpression env fuel) input "cos".toList
      else if Letstry.startsWith "tan(".toList input then
        evaluateTrigFunction m.sin m.cos m.tan m.pi
          (evaluateExpressionFuel m mathExpression env fuel) input "tan".toList
      else mathExpression env input

/-- Model of `Interpreter::evaluateExpression` of `trig.cpp`: the recursive
calls are on proper substrings of the input. -/
def evaluateExpression (m : Cmath) (mathExpression : Env → List Char → Outcome Double)
    (env : Env) (input : List Char) : Outcome Double :=
  evaluateExpressionFuel m mathExpression env (input.length + 1) input

/-- Model of `Interpreter::interpret` of `trig.cpp`: the returned string and
the environment afterwards (the line appended to the log file is not
modelled). -/
def interpret (m : Cmath) (mathExpression : Env → List Char → Outcome Double)
    (env : Env) (input : List Char) : Outcome (List Char × Env) :=
  let input := trim input
  match find '=' input with
  | some eq_pos =>
    let var := trim (input.take eq_pos)
    let expr := trim (input.drop (eq_pos + 1))
    match evaluateExpression m mathExpression env expr with
    | .ok v => .ok ([], env.assign var v)
    | .error msg => .ok ("Error: ".toList ++ msg, env)
    | .undefined => .undefined
    | .nofuel => .nofuel
  | none =>
    match evaluateExpression m mathExpression env input with
    | .ok v => .ok (fixed2 v, env)
    | .error msg => .ok ("Error: ".toList ++ msg, env)
    | .undefined => .undefined
    | .nofuel => .nofuel

/-- A `<cmath>` given by a table that is exact at the arguments of the two
examples, `sin(90)` and `cos(0)`, with `M_PI` at its `double` value. -/
def tableCmath : Cmath where
  sin := fun x => if x = 90 * (884279719003555 / 281474976710656) / 180 then 1 else 0
  cos := fun x => if x = 0 then 1 else 0
  tan := fun _ => 0
  pi := 884279719003555 / 281474976710656

end Trig

namespace Letstry

/-! ## The two-stack loop on well-formed expressions -/

theorem applyOperator_of_binaryValue {op : Char} {a b v : Double} (vs : List Double)
    (h : binaryValue op a b = some v) : applyOperator op (b :: a :: vs) = .ok (v :: vs) := by
  unfold binaryValue at h
  unfold applyOperator
  split_ifs at h ⊢ <;> simp_all

theorem reduceWhile_stop {cond : Char → Bool} {k : Nat} (vs : List Double) (os : List Char)
    (hs : stackBelow k os) (hc : ∀ o, cond o = true → k ≤ precedenceAt o) :
    reduceWhile cond vs os = .ok (vs, os) := by
  cases os with
  | nil => rfl
  | cons o os =>
    rcases hs with h | h
    · simp [reduceWhile, h]
    · have : cond o ≠ true := fun hc' => absurd (hc o hc') (by omega)
      simp [reduceWhile, this]

theorem operator_token_facts {op : Char} (h : (precedence op).isSome = true) :
    isNumberToken [op] = false ∧ [op] ≠ ['('] ∧ [op] ≠ [')'] ∧
      op ∈ ['(', ')', '+', '-', '*', '/', '%'] ∧ op ≠ '(' ∧ 1 ≤ precedenceAt op ∧
      precedenceAt op ≤ 2 := by
  unfold precedence at h
  unfold precedenceAt precedence
  split_ifs at h <;> simp_all [isNumberToken, firstChar, isdigit]


theorem evalTokens_number (env : Env) {t : List Char} {v : Double} (rest : List (List Char))
    (vs : List Double) (os : List Char) (hn : isNumberToken t = true) (hv : stod t = some v) :
    evalTokens env (t :: rest) vs os = evalTokens env rest (v :: vs) os := by
  simp [evalTokens, hn, hv]

theorem evalTokens_lparen (env : Env) (henv : operatorsUnbound env) (rest : List (List Char))
    (vs : List Double) (os : List Char) :
    evalTokens env (['('] :: rest) vs os = evalTokens env rest vs ('(' :: os) := by
  have h1 : isNumberToken ['('] = false := by decide
  have h2 : env.lookup ['('] = none := henv '(' (by decide)
  simp [evalTokens, h1, h2]

theorem evalTokens_rparen (env : Env) (henv : operatorsUnbound env) (rest : List (List Char))
    (vs : List Double) (os : List Char) :
    evalTokens env ([')'] :: rest) vs os =
      match reduceWhile (fun _ => true) vs os with
      | .ok (values1, _ :: operators1) => evalTokens env rest values1 operators1
      | .ok (_, []) => .undefined
      | .error msg => .error msg
      | .undefined => .undefined
      | .nofuel => .nofuel := by
  have h1 : isNumberToken [')'] = false := by decide
  have h2 : env.lookup [')'] = none := henv ')' (by decide)
  have h3 : ([')'] : List Char) ≠ ['('] := by decide
  simp [evalTokens, h1, h2, h3]

theorem evalTokens_operator (env : Env) (henv : operatorsUnbound env) {op : Char}
    (hop : (precedence op).isSome = true) (rest : List (List Char))
    (vs : List Double) (os : List Char) :
    evalTokens env ([op] :: rest) vs os =
      match reduceWhile (fun o => decide (precedenceAt o ≥ precedenceAt op)) vs os with
      | .ok (values1, operators1) => evalTokens env rest values1 (op :: operators1)
      | .error msg => .error msg
      | .undefined => .undefined
      | .nofuel => .nofuel := by
  obtain ⟨h1, h2, h3, h4, -, -, -⟩ := operator_token_facts hop
  have h5 : env.lookup [op] = none := henv op h4
  have h6 : firstChar [op] = op := rfl
  simp only [evalTokens, h1, h5, h6, hop, if_true, if_neg h2, if_neg h3]
  simp

/-- Invariant of the two-stack loop: reading the tokens of a well-formed
expression leaves stacks from which every later reduction continues as from
the stacks with the value of the expression pushed. -/
theorem evalTokens_expr (env : Env) (henv : operatorsUnbound env) :
    ∀ (e : Expr) (v : Double), e.wellFormed = true → e.value = some v →
    ∀ (rest : List (List Char)) (vs : List Double) (os : List Char),
      stackBelow e.level os →
      ∃ vs1 os1,
        evalTokens env (e.toTokens ++ rest) vs os = evalTokens env rest vs1 os1 ∧
        (∀ cond : Char → Bool,
          (∀ o, (precedence o).isSome = true → e.level ≤ precedenceAt o → cond o = true) →
            reduceWhile cond vs1 os1 = reduceWhile cond (v :: vs) os) ∧
        finish vs1 os1 = finish (v :: vs) os := by
  intro e
  induction e with
  | num t =>
    intro v hwf hv rest vs os _
    refine ⟨v :: vs, os, ?_, fun _ _ => rfl, rfl⟩
    simp only [Expr.wellFormed] at hwf
    simp only [Expr.value] at hv
    simpa [Expr.toTokens] using evalTokens_number env rest vs os hwf hv
  | paren e ih =>
    intro v hwf hv rest vs os _
    simp only [Expr.wellFormed] at hwf
    simp only [Expr.value] at hv
    obtain ⟨vs1, os1, h1, h2, -⟩ := ih v hwf hv ([')'] :: rest) vs ('(' :: os) (Or.inl rfl)
    refine ⟨v :: vs, os, ?_, fun _ _ => rfl, rfl⟩
    have hred : reduceWhile (fun _ => true) vs1 os1 = .ok (v :: vs, '(' :: os) := by
      rw [h2 _ (fun _ _ _ => rfl)]
      simp [reduceWhile]
    have htok : (Expr.paren e).toTokens ++ rest = ['('] :: (e.toTokens ++ [')'] :: rest) := by
      simp [Expr.toTokens]
    rw [htok, evalTokens_lparen env henv, h1, evalTokens_rparen env henv, hred]
  | bin op l r ihl ihr =>
    intro v hwf hv rest vs os hbelow
    simp only [Expr.wellFormed, Bool.and_eq_true, decide_eq_true_eq] at hwf
    obtain ⟨⟨⟨⟨hop, hwl⟩, hwr⟩, hll⟩, hlr⟩ := hwf
    simp only [Expr.value] at hv
    cases hlv : l.value with
    | none => simp [hlv] at hv
    | some a =>
      cases hrv : r.value with
      | none => simp [hlv, hrv] at hv
      | some b =>
        simp only [hlv, hrv] at hv
        have hbl : stackBelow l.level os := by
          cases os with
          | nil => trivial
          | cons o os =>
            rcases hbelow with h | h
            · exact Or.inl h
            · exact Or.inr (by simp only [Expr.level] at h; omega)
        obtain ⟨vs1, os1, hl1, hl2, -⟩ := ihl a hwl hlv ([op] :: (r.toTokens ++ rest)) vs os hbl
        have hredl : reduceWhile (fun o => decide (precedenceAt o ≥ precedenceAt op)) vs1 os1
            = .ok (a :: vs, os) := by
          rw [hl2 _ (fun o _ ho => by simp; omega)]
          exact reduceWhile_stop (a :: vs) os hbelow (fun o ho => by simpa [Expr.level] using ho)
        obtain ⟨vs2, os2, hr1, hr2, hr3⟩ :=
          ihr b hwr hrv rest (a :: vs) (op :: os) (Or.inr hlr)
        have happ := applyOperator_of_binaryValue vs hv
        have hne : op ≠ '(' := (operator_token_facts hop).2.2.2.2.1
        refine ⟨vs2, os2, ?_, ?_, ?_⟩
        · have htok : (Expr.bin op l r).toTokens ++ rest
              = l.toTokens ++ [op] :: (r.toTokens ++ rest) := by
            simp [Expr.toTokens]
          rw [htok, hl1, evalTokens_operator env henv hop, hredl]
          exact hr1
        · intro cond hcond
          rw [hr2 cond (fun o ho hlev => hcond o ho (by simp only [Expr.level]; omega))]
          have hc : cond op = true := hcond op hop (by simp [Expr.level])
          simp [reduceWhile, hne, hc, happ]
        · rw [hr3]
          simp [finish, happ]

/-- Correctness of the two-stack evaluation on the conventional grammar. -/
theorem evaluateMathExpression_expr (env : Env) (henv : operatorsUnbound env) (e : Expr)
    (v : Double) (hwf : e.wellFormed = true) (hv : e.value = some v) :
    evaluateMathExpression env e.toTokens = .ok v := by
  obtain ⟨vs1, os1, h1, -, h3⟩ := evalTokens_expr env henv e v hwf hv [] [] [] trivial
  unfold evaluateMathExpression
  rw [List.append_nil] at h1
  rw [h1]
  simp only [evalTokens]
  rw [h3]
  rfl


/-! ## From `interpret` to the token loop -/

theorem evaluateExpressionFuel_math (env : Env) (fuel : Nat) (input : List Char)
    (hun : env.lookup input = none) (hcall : isCall input = false) :
    evaluateExpressionFuel env (fuel + 1) input = evaluateMathExpression env (tokenize input) := by
  simp only [isCall, Bool.or_eq_false_iff] at hcall
  obtain ⟨⟨⟨⟨h1, h2⟩, h3⟩, h4⟩, h5⟩ := hcall
  simp only [evaluateExpressionFuel, hun, h1, h2, h3, h4, h5, Bool.false_eq_true, if_false]

theorem evaluateExpression_math (env : Env) (input : List Char)
    (hun : env.lookup input = none) (hcall : isCall input = false) :
    evaluateExpression env input = evaluateMathExpression env (tokenize input) :=
  evaluateExpressionFuel_math env input.length input hun hcall

theorem interpret_expression (env : Env) (input : List Char) (v : Double)
    (heq : find '=' (trim input) = none) (hv : evaluateExpression env (trim input) = .ok v) :
    interpret env input = .ok (fixed2 v, env) := by
  simp [interpret, heq, hv]

theorem interpret_expression_error (env : Env) (input msg : List Char)
    (heq : find '=' (trim input) = none) (hv : evaluateExpression env (trim input) = .error msg) :
    interpret env input = .ok ("Error: ".toList ++ msg, env) := by
  simp [interpret, heq, hv]

/-- C1: for every well-formed infix token sequence (numeric literals, the
binary operators `+ - * / %`, balanced parentheses) in which no division or
modulo has a zero right operand, `evaluateMathExpression` returns the value
under the grammar in which `* / %` bind tighter than `+ -` and equal
precedence associates to the left, in an environment that binds no operator
or parenthesis character; `interpret("2+3*4")` is `"14.00"` and
`interpret("(2+3)*4")` is `"20.00"`. -/
theorem evaluateMathExpression_conventional :
    (∀ (env : Env) (e : Expr) (v : Double), operatorsUnbound env → e.wellFormed = true →
      e.value = some v → evaluateMathExpression env e.toTokens = .ok v) ∧
    (∀ env : Env, operatorsUnbound env → env.lookup "2+3*4".toList = none →
      interpret env "2+3*4".toList = .ok ("14.00".toList, env)) ∧
    (∀ env : Env, operatorsUnbound env → env.lookup "(2+3)*4".toList = none →
      interpret env "(2+3)*4".toList = .ok ("20.00".toList, env)) := by
  refine ⟨fun env e v henv hwf hv => evaluateMathExpression_expr env henv e v hwf hv, ?_, ?_⟩
  · intro env henv hun
    have h14 : fixed2 14 = "14.00".toList := by decide!
    rw [← h14]
    apply interpret_expression env _ _ (by decide)
    have ht : trim "2+3*4".toList = "2+3*4".toList := by decide
    rw [ht, evaluateExpression_math env _ hun (by decide)]
    exact evaluateMathExpression_expr env henv
      (.bin '+' (.num ['2']) (.bin '*' (.num ['3']) (.num ['4']))) 14 (by decide) (by decide!)
  · intro env henv hun
    have h20 : fixed2 20 = "20.00".toList := by decide!
    rw [← h20]
    apply interpret_expression env _ _ (by decide)
    have ht : trim "(2+3)*4".toList = "(2+3)*4".toList := by decide
    rw [ht, evaluateExpression_math env _ hun (by decide)]
    exact evaluateMathExpression_expr env henv
      (.bin '*' (.paren (.bin '+' (.num ['2']) (.num ['3']))) (.num ['4'])) 20
      (by decide) (by decide!)

/-- Witness for C1: `10-3-2` is read as `(10-3)-2` and evaluates to `5`. -/
theorem evaluateMathExpression_conventional_witness :
    operatorsUnbound [] ∧
    (Expr.bin '-' (.bin '-' (.num ['1', '0']) (.num ['3'])) (.num ['2'])).wellFormed = true ∧
    (Expr.bin '-' (.bin '-' (.num ['1', '0']) (.num ['3'])) (.num ['2'])).value = some 5 ∧
    evaluateMathExpression [] [['1', '0'], ['-'], ['3'], ['-'], ['2']] = .ok 5 :=
  ⟨by decide, by decide, by decide!,
    evaluateMathExpression_conventional.1 []
      (.bin '-' (.bin '-' (.num ['1', '0']) (.num ['3'])) (.num ['2'])) 5
      (by decide) (by decide) (by decide!)⟩


/-! ## The tokenizer on numeric literals -/

theorem numeric_char_facts {c : Char} (h : (isdigit c || decide (c = '.')) = true) :
    c ≠ ' ' ∧ c ≠ '=' ∧ c ≠ '-' ∧ c ≠ '+' ∧ c ≠ ',' ∧ c ≠ '(' ∧ c ≠ ')' ∧
      c ≠ 'a' ∧ c ≠ 's' ∧ c ≠ 'm' ∧ c ≠ 'd' := by
  refine ⟨?_, ?_, ?_, ?_, ?_, ?_, ?_, ?_, ?_, ?_, ?_⟩ <;>
    (rintro rfl; exact absurd h (by decide))

theorem unsignedLiteral_cons {a : List Char} (h : isUnsignedLiteral a = true) :
    ∃ c cs, a = c :: cs ∧ (isdigit c || decide (c = '.')) = true ∧
      ∀ x ∈ a, (isdigit x || decide (x = '.')) = true := by
  cases a with
  | nil => simp [isUnsignedLiteral] at h
  | cons c cs =>
    simp only [isUnsignedLiteral, List.isEmpty_cons, Bool.not_false, Bool.true_and,
      List.all_eq_true] at h
    exact ⟨c, cs, rfl, h c (List.mem_cons_self _ _), h⟩

theorem tokenizeLoop_numeric (a : List Char) (ha : ∀ x ∈ a, (isdigit x || decide (x = '.')) = true)
    (rest : List Char) (tokens : List (List Char)) (token : List Char) :
    ∀ c, (isdigit c || decide (c = '.')) = true → ∀ l,
      tokenizeLoop (c :: a ++ rest) tokens token l
        = tokenizeLoop rest tokens (token ++ c :: a) false := by
  induction a generalizing token with
  | nil =>
    intro c hc l
    have hc' : (isdigit c || decide (c = '.') || (decide (c = '-') && l)) = true := by simp [hc]
    simp [tokenizeLoop, hc']
  | cons d a ih =>
    intro c hc l
    have hc' : (isdigit c || decide (c = '.') || (decide (c = '-') && l)) = true := by simp [hc]
    have := ih (fun x hx => ha x (List.mem_cons_of_mem _ hx)) (token ++ [c]) d
      (ha d (List.mem_cons_self _ _)) false
    simp only [List.cons_append, tokenizeLoop, hc', if_true] at this ⊢
    simpa using this

theorem tokenizeLoop_literal {a : List Char} (h : isUnsignedLiteral a = true)
    (rest : List Char) (tokens : List (List Char)) (token : List Char) (l : Bool) :
    tokenizeLoop (a ++ rest) tokens token l = tokenizeLoop rest tokens (token ++ a) false := by
  obtain ⟨c, cs, rfl, hc, hall⟩ := unsignedLiteral_cons h
  exact tokenizeLoop_numeric cs (fun x hx => hall x (List.mem_cons_of_mem _ hx)) rest tokens
    token c hc l

theorem stod_minus {a : List Char} {x : Double} (h : isUnsignedLiteral a = true)
    (hx : stod a = some x) : stod ('-' :: a) = some (-x) := by
  obtain ⟨c, cs, rfl, hc, -⟩ := unsignedLiteral_cons h
  obtain ⟨-, -, h1, h2, -⟩ := numeric_char_facts hc
  simp only [stod, if_neg h1, if_neg h2] at hx
  simp [stod, hx]

theorem isNumberToken_literal {a : List Char} (h : isUnsignedLiteral a = true) :
    isNumberToken a = true := by
  obtain ⟨c, cs, rfl, hc, -⟩ := unsignedLiteral_cons h
  simp only [Bool.or_eq_true, decide_eq_true_eq] at hc
  rcases hc with hc | hc
  · simp [isNumberToken, firstChar, hc]
  · simp [isNumberToken, firstChar, hc]

theorem isNumberToken_minus {a : List Char} (h : isUnsignedLiteral a = true) :
    isNumberToken ('-' :: a) = true := by
  obtain ⟨c, cs, rfl, -, -⟩ := unsignedLiteral_cons h
  simp [isNumberToken, firstChar]

theorem tokenize_minus_plus {a b : List Char} (ha : isUnsignedLiteral a = true)
    (hb : isUnsignedLiteral b = true) :
    tokenize ('-' :: a ++ '+' :: b) = [('-' :: a), ['+'], b] := by
  have hb' := tokenizeLoop_literal hb [] [('-' :: a), ['+']] [] true
  rw [List.append_nil] at hb'
  have ha' := tokenizeLoop_literal ha ('+' :: b) [] ['-'] false
  unfold tokenize
  rw [List.cons_append, tokenizeLoop]
  simp only [show (isdigit '-' || decide ('-' = '.') || (decide ('-' = '-') && true)) = true
    by decide, if_true, List.nil_append]
  rw [ha', tokenizeLoop]
  simp only [show (isdigit '+' || decide ('+' = '.') || (decide ('+' = '-') && false)) = false
    by decide]
  have hbne : b ≠ [] := by
    obtain ⟨c, cs, rfl, -, -⟩ := unsignedLiteral_cons hb
    simp
  simpa [tokenizeLoop, hbne] using hb'

theorem tokenize_times_minus {a b : List Char} (ha : isUnsignedLiteral a = true)
    (hb : isUnsignedLiteral b = true) :
    tokenize (a ++ '*' :: '-' :: b) = [a, ['*'], ('-' :: b)] := by
  have hb' := tokenizeLoop_literal hb [] [a, ['*']] ['-'] false
  rw [List.append_nil] at hb'
  have ha' := tokenizeLoop_literal ha ('*' :: '-' :: b) [] [] true
  unfold tokenize
  rw [ha', tokenizeLoop]
  simp only [show (isdigit '*' || decide ('*' = '.') || (decide ('*' = '-') && false)) = false
    by decide]
  rw [List.nil_append]
  simp only [tokenizeLoop]
  simp only [show (isdigit '-' || decide ('-' = '.') || (decide ('-' = '-') && true)) = true
    by decide, if_true, List.nil_append]
  obtain ⟨c, cs, rfl, -, -⟩ := unsignedLiteral_cons ha
  simpa [tokenizeLoop] using hb'


/-! ## Strings without spaces, `=` or a function name at the start -/

theorem trim_eq_self (s : List Char) (hh : ∀ c, s.head? = some c → c ≠ ' ')
    (hl : ∀ c, s.getLast? = some c → c ≠ ' ') : trim s = s := by
  unfold trim eraseTrailingSpaces eraseLeadingSpaces
  have h1 : s.dropWhile (fun c => decide (c = ' ')) = s := by
    cases s with
    | nil => rfl
    | cons c cs =>
      have := hh c rfl
      simp [List.dropWhile, this]
  rw [h1]
  have h2 : s.reverse.dropWhile (fun c => decide (c = ' ')) = s.reverse := by
    cases hr : s.reverse with
    | nil => rfl
    | cons c cs =>
      have hlast : s.getLast? = some c := by
        rw [List.getLast?_eq_head?_reverse, hr]; rfl
      have := hl c hlast
      simp [List.dropWhile, this]
  rw [h2, List.reverse_reverse]

theorem find_eq_none (c : Char) (s : List Char) (h : ∀ x ∈ s, x ≠ c) : find c s = none := by
  induction s with
  | nil => rfl
  | cons x xs ih =>
    have hx : x ≠ c := h x (List.mem_cons_self _ _)
    simp [find, hx, ih (fun y hy => h y (List.mem_cons_of_mem _ hy))]

theorem isCall_eq_false (s : List Char)
    (h : ∀ c, s.head? = some c → c ≠ 'a' ∧ c ≠ 's' ∧ c ≠ 'm' ∧ c ≠ 'd') :
    isCall s = false := by
  cases s with
  | nil => decide
  | cons c cs =>
    obtain ⟨h1, h2, h3, h4⟩ := h c rfl
    simp [isCall, startsWith, Ne.symm h1, Ne.symm h2, Ne.symm h3, Ne.symm h4]


theorem getLast?_append_literal (p : List Char) {b : List Char}
    (hb : isUnsignedLiteral b = true) :
    ∀ c, (p ++ b).getLast? = some c → (isdigit c || decide (c = '.')) = true := by
  obtain ⟨d, ds, rfl, -, hall⟩ := unsignedLiteral_cons hb
  intro c hc
  rw [List.getLast?_append_of_ne_nil p (by simp)] at hc
  exact hall c (List.mem_of_getLast?_eq_some hc)

/-- C3: for all non-negative numeric literals `a` and `b`, `interpret` of
`-a+b` yields `b - a` and `interpret` of `a*-b` yields `-(a*b)`: a `-` at the
start of the input or directly after an operator is read as the sign of the
number that follows; `interpret("-5+3")` is `"-2.00"` and `interpret("3*-2")`
is `"-6.00"`. -/
theorem unary_minus_is_sign :
    (∀ (env : Env) (a b : List Char) (x y : Double), operatorsUnbound env →
      isUnsignedLiteral a = true → isUnsignedLiteral b = true →
      stod a = some x → stod b = some y →
      tokenize ('-' :: a ++ '+' :: b) = [('-' :: a), ['+'], b] ∧
      tokenize (a ++ '*' :: '-' :: b) = [a, ['*'], ('-' :: b)] ∧
      (env.lookup ('-' :: a ++ '+' :: b) = none →
        interpret env ('-' :: a ++ '+' :: b) = .ok (fixed2 (y - x), env)) ∧
      (env.lookup (a ++ '*' :: '-' :: b) = none →
        interpret env (a ++ '*' :: '-' :: b) = .ok (fixed2 (-(x * y)), env))) ∧
    interpret [] "-5+3".toList = .ok ("-2.00".toList, []) ∧
    interpret [] "3*-2".toList = .ok ("-6.00".toList, []) := by
  refine ⟨?_, by decide!, by decide!⟩
  intro env a b x y henv ha hb hx hy
  obtain ⟨ca, csa, hae, hca, halla⟩ := unsignedLiteral_cons ha
  obtain ⟨cb, csb, hbe, hcb, hallb⟩ := unsignedLiteral_cons hb
  refine ⟨tokenize_minus_plus ha hb, tokenize_times_minus ha hb, ?_, ?_⟩
  · intro hun
    have htrim : trim ('-' :: a ++ '+' :: b) = '-' :: a ++ '+' :: b := by
      apply trim_eq_self
      · intro c hc
        simp only [List.cons_append, List.head?_cons, Option.some.injEq] at hc
        subst hc; decide
      · intro c hc
        have := getLast?_append_literal ('-' :: a ++ ['+']) hb c (by simpa using hc)
        exact (numeric_char_facts this).1
    have hfind : find '=' (trim ('-' :: a ++ '+' :: b)) = none := by
      rw [htrim]
      apply find_eq_none
      intro c hc
      simp only [List.cons_append, List.mem_cons, List.mem_append] at hc
      rcases hc with rfl | hc | rfl | hc
      · decide
      · exact (numeric_char_facts (halla c hc)).2.1
      · decide
      · exact (numeric_char_facts (hallb c hc)).2.1
    have hcall : isCall ('-' :: a ++ '+' :: b) = false := by
      apply isCall_eq_false
      intro c hc
      simp only [List.cons_append, List.head?_cons, Option.some.injEq] at hc
      subst hc; decide
    have hval : evaluateExpression env (trim ('-' :: a ++ '+' :: b)) = .ok (y - x) := by
      rw [htrim, evaluateExpression_math env _ hun hcall, tokenize_minus_plus ha hb]
      have := evaluateMathExpression_expr env henv (.bin '+' (.num ('-' :: a)) (.num b))
        (y - x)
        (by simp [Expr.wellFormed, isNumberToken_minus ha, isNumberToken_literal hb,
              Expr.level, precedence, precedenceAt])
        (by simp [Expr.value, stod_minus ha hx, hy, binaryValue]; ring)
      simpa [Expr.toTokens] using this
    exact interpret_expression env _ _ hfind hval
  · intro hun
    have hhead : ∀ c, (a ++ '*' :: '-' :: b).head? = some c →
        (isdigit c || decide (c = '.')) = true := by
      intro c hc
      rw [hae] at hc
      simp only [List.cons_append, List.head?_cons, Option.some.injEq] at hc
      subst hc; exact hca
    have htrim : trim (a ++ '*' :: '-' :: b) = a ++ '*' :: '-' :: b := by
      apply trim_eq_self
      · intro c hc
        exact (numeric_char_facts (hhead c hc)).1
      · intro c hc
        have := getLast?_append_literal (a ++ ['*', '-']) hb c (by simpa using hc)
        exact (numeric_char_facts this).1
    have hfind : find '=' (trim (a ++ '*' :: '-' :: b)) = none := by
      rw [htrim]
      apply find_eq_none
      intro c hc
      simp only [List.mem_cons, List.mem_append] at hc
      rcases hc with hc | rfl | rfl | hc
      · exact (numeric_char_facts (halla c hc)).2.1
      · decide
      · decide
      · exact (numeric_char_facts (hallb c hc)).2.1
    have hcall : isCall (a ++ '*' :: '-' :: b) = false := by
      apply isCall_eq_false
      intro c hc
      exact (numeric_char_facts (hhead c hc)).2.2.2.2.2.2.2
    have hval : evaluateExpression env (trim (a ++ '*' :: '-' :: b)) = .ok (-(x * y)) := by
      rw [htrim, evaluateExpression_math env _ hun hcall, tokenize_times_minus ha hb]
      have := evaluateMathExpression_expr env henv (.bin '*' (.num a) (.num ('-' :: b)))
        (-(x * y))
        (by simp [Expr.wellFormed, isNumberToken_minus hb, isNumberToken_literal ha,
              Expr.level, precedence, precedenceAt])
        (by simp [Expr.value, stod_minus hb hy, hx, binaryValue])
      simpa [Expr.toTokens] using this
    exact interpret_expression env _ _ hfind hval

/-- Witness for C3 at the literals `5` and `3` in the initial environment. -/
theorem unary_minus_is_sign_witness :
    operatorsUnbound [] ∧ isUnsignedLiteral ['5'] = true ∧ isUnsignedLiteral ['3'] = true ∧
    stod ['5'] = some 5 ∧ stod ['3'] = some 3 ∧
    interpret [] ['-', '5', '+', '3'] = .ok (fixed2 (3 - 5), []) ∧
    interpret [] ['5', '*', '-', '3'] = .ok (fixed2 (-(5 * 3)), []) :=
  ⟨by decide, by decide, by decide, by decide!, by decide!,
    (unary_minus_is_sign.1 [] ['5'] ['3'] 5 3 (by decide) (by decide) (by decide)
      (by decide!) (by decide!)).2.2.1 (by decide),
    (unary_minus_is_sign.1 [] ['5'] ['3'] 5 3 (by decide) (by decide) (by decide)
      (by decide!) (by decide!)).2.2.2 (by decide)⟩


/-- C2: `tokenize` merges a `-` into the number that follows after every
single-character token, a right parenthesis and an identifier character
included, where the claim has a binary subtraction: `interpret("(2+3)-4")` is
`"-4.00"`, and with `x` assigned `10`, `interpret("x-2")` is `"-2.00"`. -/
theorem tokenize_minus_after_rparen_or_identifier :
    (∀ (cs : List Char) (tokens : List (List Char)) (token : List Char) (l : Bool),
      tokenizeLoop (')' :: '-' :: cs) tokens token l =
        tokenizeLoop cs ((if token ≠ [] then tokens ++ [token] else tokens) ++ [[')']])
          ['-'] false) ∧
    tokenize "(2+3)-4".toList = [['('], ['2'], ['+'], ['3'], [')'], ['-', '4']] ∧
    interpret [] "(2+3)-4".toList = .ok ("-4.00".toList, []) ∧
    interpret [] "x=10".toList = .ok ([], [("x".toList, 10)]) ∧
    tokenize "x-2".toList = [['x'], ['-', '2']] ∧
    interpret [("x".toList, 10)] "x-2".toList = .ok ("-2.00".toList, [("x".toList, 10)]) := by
  refine ⟨?_, by decide, by decide!, by decide!, by decide, by decide!⟩
  intro cs tokens token l
  cases l <;> simp [tokenizeLoop, isdigit]

/-! ## Division and modulo by zero -/

theorem foldArgs_zero_divisor (evalArg : List Char → Outcome Double) (op : Char)
    (msg : List Char)
    (hstep : ∀ (r : Double) (t : List Char) (ts : List (List Char)), evalArg t = .ok 0 →
      foldArgs evalArg op r (t :: ts) = .error msg)
    (hnext : ∀ (r v : Double) (t : List Char) (ts : List (List Char)), evalArg t = .ok v →
      v ≠ 0 → ∃ r1, foldArgs evalArg op r (t :: ts) = foldArgs evalArg op r1 ts)
    (pre : List (List Char)) (t : List Char) (post : List (List Char))
    (hpre : ∀ s ∈ pre, ∃ v, evalArg s = .ok v) (ht : evalArg t = .ok 0) (r : Double) :
    foldArgs evalArg op r (pre ++ t :: post) = .error msg := by
  induction pre generalizing r with
  | nil => exact hstep r t post ht
  | cons s pre ih =>
    obtain ⟨v, hv⟩ := hpre s (List.mem_cons_self _ _)
    by_cases h0 : v = 0
    · subst h0
      exact hstep r s _ hv
    · obtain ⟨r1, hr1⟩ := hnext r v s (pre ++ t :: post) hv h0
      rw [List.cons_append, hr1]
      exact ih (fun s' hs' => hpre s' (List.mem_cons_of_mem _ hs')) r1

theorem foldArgs_div_zero (evalArg : List Char → Outcome Double)
    (pre : List (List Char)) (t : List Char) (post : List (List Char))
    (hpre : ∀ s ∈ pre, ∃ v, evalArg s = .ok v) (ht : evalArg t = .ok 0) (r : Double) :
    foldArgs evalArg '/' r (pre ++ t :: post) = .error "Division by zero".toList := by
  apply foldArgs_zero_divisor evalArg '/' _ _ _ pre t post hpre ht
  · intro r t ts h
    simp [foldArgs, h]
  · intro r v t ts h hv
    exact ⟨r / v, by simp [foldArgs, h, hv]⟩

theorem foldArgs_mod_zero (evalArg : List Char → Outcome Double)
    (pre : List (List Char)) (t : List Char) (post : List (List Char))
    (hpre : ∀ s ∈ pre, ∃ v, evalArg s = .ok v) (ht : evalArg t = .ok 0) (r : Double) :
    foldArgs evalArg '%' r (pre ++ t :: post) = .error "Modulo by zero".toList := by
  apply foldArgs_zero_divisor evalArg '%' _ _ _ pre t post hpre ht
  · intro r t ts h
    simp [foldArgs, h]
  · intro r v t ts h hv
    exact ⟨fmod r v, by simp [foldArgs, h, hv]⟩

theorem foldArgs_zero_no_value (evalArg : List Char → Outcome Double) (op : Char)
    (hop : op = '/' ∨ op = '%') (ts : List (List Char))
    (h : ∃ t ∈ ts, evalArg t = .ok 0) (r v : Double) : foldArgs evalArg op r ts ≠ .ok v := by
  induction ts generalizing r with
  | nil => simp at h
  | cons s ts ih =>
    cases hs : evalArg s with
    | ok w =>
      by_cases hw : w = 0
      · rcases hop with rfl | rfl <;> simp [foldArgs, hs, hw]
      · have hrest : ∃ t ∈ ts, evalArg t = .ok 0 := by
          obtain ⟨t, ht, ht0⟩ := h
          rcases List.mem_cons.1 ht with rfl | ht'
          · rw [hs] at ht0
            exact absurd (Outcome.ok.inj ht0) hw
          · exact ⟨t, ht', ht0⟩
        rcases hop with rfl | rfl
        · simpa [foldArgs, hs, hw] using ih hrest (r / w)
        · simpa [foldArgs, hs, hw] using ih hrest (fmod r w)
    | error m => simp [foldArgs, hs]
    | undefined => simp [foldArgs, hs]
    | nofuel => simp [foldArgs, hs]


theorem evaluateFunction_args (evalArg : List Char → Outcome Double) (input : List Char)
    (op : Char) (start stop : Nat) (t0 : List Char) (ts : List (List Char))
    (hs : find '(' input = some start) (he : find ')' input = some stop) (hlt : start < stop)
    (hsplit : split ((input.drop (start + 1)).take (stop - start - 1)) ',' = t0 :: ts) :
    evaluateFunction evalArg input op =
      match evalArg t0 with
      | .ok result => foldArgs evalArg op result ts
      | .error msg => .error msg
      | .undefined => .undefined
      | .nofuel => .nofuel := by
  simp only [evaluateFunction, hs, he, ge_iff_le, if_neg (Nat.not_le.2 hlt), hsplit]

/-- C4: division and modulo by zero fail and never produce a value:
`applyOperator` with `/` (resp. `%`) and right operand `0` raises
"Division by zero" (resp. "Modulo by zero") for every left operand;
`evaluateFunction` raises the same errors when an argument after the first of
`div(...)` / `mod(...)` evaluates to `0` (the arguments before it having
evaluated), and in no case returns a value; `interpret("5/0")` is
`"Error: Division by zero"` and `interpret("5%0")` is `"Error: Modulo by zero"`. -/
theorem division_modulo_by_zero_fail :
    (∀ (a : Double) (values : List Double),
      applyOperator '/' (0 :: a :: values) = .error "Division by zero".toList ∧
      applyOperator '%' (0 :: a :: values) = .error "Modulo by zero".toList) ∧
    (∀ (evalArg : List Char → Outcome Double) (input : List Char) (start stop : Nat)
        (t0 : List Char) (pre : List (List Char)) (t : List Char) (post : List (List Char)),
      find '(' input = some start → find ')' input = some stop → start < stop →
      split ((input.drop (start + 1)).take (stop - start - 1)) ',' = t0 :: (pre ++ t :: post) →
      evalArg t = .ok 0 →
      ((∀ s ∈ t0 :: pre, ∃ v, evalArg s = .ok v) →
        evaluateFunction evalArg input '/' = .error "Division by zero".toList ∧
        evaluateFunction evalArg input '%' = .error "Modulo by zero".toList) ∧
      (∀ v, evaluateFunction evalArg input '/' ≠ .ok v ∧
        evaluateFunction evalArg input '%' ≠ .ok v)) ∧
    (∀ env : Env, operatorsUnbound env → env.lookup "5/0".toList = none →
      interpret env "5/0".toList = .ok ("Error: Division by zero".toList, env)) ∧
    (∀ env : Env, operatorsUnbound env → env.lookup "5%0".toList = none →
      interpret env "5%0".toList = .ok ("Error: Modulo by zero".toList, env)) := by
  refine ⟨fun a values => ⟨by simp [applyOperator], by simp [applyOperator]⟩, ?_, ?_, ?_⟩
  · intro evalArg input start stop t0 pre t post hs he hlt hsplit ht
    have hd := evaluateFunction_args evalArg input '/' start stop t0 _ hs he hlt hsplit
    have hm := evaluateFunction_args evalArg input '%' start stop t0 _ hs he hlt hsplit
    refine ⟨?_, ?_⟩
    · intro hpre
      obtain ⟨r, hr⟩ := hpre t0 (List.mem_cons_self _ _)
      have hpre' : ∀ s ∈ pre, ∃ v, evalArg s = .ok v :=
        fun s h => hpre s (List.mem_cons_of_mem _ h)
      rw [hd, hm, hr]
      exact ⟨foldArgs_div_zero evalArg pre t post hpre' ht r,
        foldArgs_mod_zero evalArg pre t post hpre' ht r⟩
    · intro v
      have hex : ∃ s ∈ pre ++ t :: post, evalArg s = .ok 0 := ⟨t, by simp, ht⟩
      rw [hd, hm]
      cases h0 : evalArg t0 with
      | ok r =>
        exact ⟨foldArgs_zero_no_value evalArg '/' (Or.inl rfl) _ hex r v,
          foldArgs_zero_no_value evalArg '%' (Or.inr rfl) _ hex r v⟩
      | error m => simp
      | undefined => simp
      | nofuel => simp
  · intro env henv hun
    apply interpret_expression_error env _ _ (by decide)
    have ht : trim "5/0".toList = "5/0".toList := by decide
    rw [ht, evaluateExpression_math env _ hun (by decide)]
    have htok : tokenize "5/0".toList = [['5'], ['/'], ['0']] := by decide
    rw [htok, evaluateMathExpression,
      evalTokens_number env _ _ _ (by decide) (by decide! : stod ['5'] = some 5),
      evalTokens_operator env henv (by decide)]
    simp only [reduceWhile]
    rw [evalTokens_number env _ _ _ (by decide) (by decide! : stod ['0'] = some 0)]
    simp [evalTokens, finish, applyOperator]
  · intro env henv hun
    apply interpret_expression_error env _ _ (by decide)
    have ht : trim "5%0".toList = "5%0".toList := by decide
    rw [ht, evaluateExpression_math env _ hun (by decide)]
    have htok : tokenize "5%0".toList = [['5'], ['%'], ['0']] := by decide
    rw [htok, evaluateMathExpression,
      evalTokens_number env _ _ _ (by decide) (by decide! : stod ['5'] = some 5),
      evalTokens_operator env henv (by decide)]
    simp only [reduceWhile]
    rw [evalTokens_number env _ _ _ (by decide) (by decide! : stod ['0'] = some 0)]
    simp [evalTokens, finish, applyOperator]

/-- Witness for C4: `div(8,2,0)` and `mod(8,2,0)` in the initial environment. -/
theorem division_modulo_by_zero_fail_witness :
    find '(' "div(8,2,0)".toList = some 3 ∧ find ')' "div(8,2,0)".toList = some 9 ∧
    split (("div(8,2,0)".toList.drop (3 + 1)).take (9 - 3 - 1)) ',' = ['8'] :: ([['2']] ++ ['0'] :: []) ∧
    evaluateExpression [] ['0'] = .ok 0 ∧
    evaluateFunction (evaluateExpression []) "div(8,2,0)".toList '/'
      = .error "Division by zero".toList ∧
    evaluateFunction (evaluateExpression []) "div(8,2,0)".toList '%'
      = .error "Modulo by zero".toList :=
  ⟨by decide, by decide, by decide, by decide!,
    ((division_modulo_by_zero_fail.2.1 (evaluateExpression []) "div(8,2,0)".toList 3 9
      ['8'] [['2']] ['0'] [] (by decide) (by decide) (by decide) (by decide) (by decide!)).1
      (by
        intro s hs
        simp only [List.mem_cons, List.mem_singleton, List.not_mem_nil, or_false] at hs
        rcases hs with rfl | rfl
        · exact ⟨8, by decide!⟩
        · exact ⟨2, by decide!⟩)).1,
    ((division_modulo_by_zero_fail.2.1 (evaluateExpression []) "div(8,2,0)".toList 3 9
      ['8'] [['2']] ['0'] [] (by decide) (by decide) (by decide) (by decide) (by decide!)).1
      (by
        intro s hs
        simp only [List.mem_cons, List.mem_singleton, List.not_mem_nil, or_false] at hs
        rcases hs with rfl | rfl
        · exact ⟨8, by decide!⟩
        · exact ⟨2, by decide!⟩)).2⟩


/-! ## Trimming and assignment inputs -/

theorem eraseTrailingSpaces_cons (c : Char) (s : List Char) :
    eraseTrailingSpaces (c :: s) =
      if c = ' ' ∧ eraseTrailingSpaces s = [] then [] else c :: eraseTrailingSpaces s := by
  unfold eraseTrailingSpaces
  rw [List.reverse_cons, List.dropWhile_append]
  by_cases h : (List.dropWhile (fun x => decide (x = ' ')) s.reverse) = []
  · by_cases hc : c = ' '
    · simp [h, hc]
    · simp [h, hc]
  · have h' : (List.dropWhile (fun x => decide (x = ' ')) s.reverse).isEmpty = false := by
      simpa [List.isEmpty_iff] using h
    simp [h, h']

theorem eraseTrailingSpaces_eq_nil {s : List Char} (h : eraseTrailingSpaces s = []) :
    eraseLeadingSpaces s = [] := by
  unfold eraseTrailingSpaces at h
  unfold eraseLeadingSpaces
  rw [List.reverse_eq_nil_iff, List.dropWhile_eq_nil_iff] at h
  rw [List.dropWhile_eq_nil_iff]
  intro x hx
  exact h x (List.mem_reverse.2 hx)

theorem eraseLeading_eraseTrailing (s : List Char) :
    eraseLeadingSpaces (eraseTrailingSpaces s) = eraseTrailingSpaces (eraseLeadingSpaces s) := by
  induction s with
  | nil => rfl
  | cons c s ih =>
    rw [eraseTrailingSpaces_cons]
    by_cases hc : c = ' '
    · subst hc
      by_cases hs : eraseTrailingSpaces s = []
      · have h1 : eraseLeadingSpaces (' ' :: s) = [] := by
          have := eraseTrailingSpaces_eq_nil hs
          simpa [eraseLeadingSpaces] using this
        simp only [hs, and_self, if_true, h1]
        rfl
      · have h1 : eraseLeadingSpaces (' ' :: s) = eraseLeadingSpaces s := by
          simp [eraseLeadingSpaces]
        have h2 : eraseLeadingSpaces (' ' :: eraseTrailingSpaces s)
            = eraseLeadingSpaces (eraseTrailingSpaces s) := by
          simp [eraseLeadingSpaces]
        simp only [hs, and_false, if_false, h1, h2, ih]
    · have h1 : ∀ t, eraseLeadingSpaces (c :: t) = c :: t := by
        intro t
        simp [eraseLeadingSpaces, hc]
      simp only [hc, false_and, if_false, h1]
      rw [eraseTrailingSpaces_cons]
      simp [hc]

theorem eraseTrailingSpaces_idem (s : List Char) :
    eraseTrailingSpaces (eraseTrailingSpaces s) = eraseTrailingSpaces s := by
  unfold eraseTrailingSpaces
  rw [List.reverse_reverse, List.dropWhile_idempotent]

theorem trim_eraseTrailingSpaces (s : List Char) : trim (eraseTrailingSpaces s) = trim s := by
  unfold trim
  rw [eraseLeading_eraseTrailing, eraseTrailingSpaces_idem]

theorem trim_assignment (v e : List Char) (hv : ∀ c ∈ v, c ≠ ' ') :
    trim (v ++ '=' :: e) = v ++ '=' :: eraseTrailingSpaces e := by
  have h1 : eraseLeadingSpaces (v ++ '=' :: e) = v ++ '=' :: e := by
    cases v with
    | nil => simp [eraseLeadingSpaces]
    | cons c v =>
      have := hv c (List.mem_cons_self _ _)
      simp [eraseLeadingSpaces, this]
  unfold trim
  rw [h1]
  induction v with
  | nil =>
    rw [List.nil_append, eraseTrailingSpaces_cons]
    simp
  | cons c v ih =>
    have hc := hv c (List.mem_cons_self _ _)
    rw [List.cons_append, eraseTrailingSpaces_cons, ih (fun x hx => hv x (List.mem_cons_of_mem _ hx))]
    · simp [hc]
    · cases v with
      | nil => simp [eraseLeadingSpaces]
      | cons d v =>
        have := hv d (List.mem_cons_of_mem _ (List.mem_cons_self _ _))
        simp [eraseLeadingSpaces, this]

theorem find_append_self (c : Char) (v rest : List Char) (hv : ∀ x ∈ v, x ≠ c) :
    find c (v ++ c :: rest) = some v.length := by
  induction v with
  | nil => simp [find]
  | cons x v ih =>
    have hx : x ≠ c := hv x (List.mem_cons_self _ _)
    simp [find, hx, ih (fun y hy => hv y (List.mem_cons_of_mem _ hy))]

theorem trim_no_spaces (v : List Char) (hv : ∀ c ∈ v, c ≠ ' ') : trim v = v := by
  apply trim_eq_self
  · intro c hc
    exact hv c (List.mem_of_mem_head? hc)
  · intro c hc
    exact hv c (List.mem_of_getLast?_eq_some hc)

theorem drop_length_succ_append (v x : List Char) (c : Char) :
    List.drop (v.length + 1) (v ++ c :: x) = x := by
  induction v with
  | nil => rfl
  | cons d v ih => simp [ih]

/-- Shape of `interpret` on an assignment `v=e`: the name is `v` and the
expression evaluated is `trim e`. -/
theorem interpret_assignment (env : Env) (v e : List Char)
    (hv : ∀ c ∈ v, c ≠ ' ' ∧ c ≠ '=') :
    interpret env (v ++ '=' :: e) =
      match evaluateExpression env (trim e) with
      | .ok r => .ok ([], env.assign v r)
      | .error msg => .ok ("Error: ".toList ++ msg, env)
      | .undefined => .undefined
      | .nofuel => .nofuel := by
  have h1 := trim_assignment v e (fun c hc => (hv c hc).1)
  have h2 := find_append_self '=' v (eraseTrailingSpaces e) (fun c hc => (hv c hc).2)
  have h3 := trim_no_spaces v (fun c hc => (hv c hc).1)
  have h4 := drop_length_succ_append v (eraseTrailingSpaces e) '='
  simp only [interpret, h1, h2, List.take_left', h4, trim_eraseTrailingSpaces, h3]

/-! ## The variable environment -/

theorem lookup_assign_self (env : Env) (v : List Char) (r : Double) :
    (env.assign v r).lookup v = some r := by
  induction env with
  | nil => simp [Env.assign, List.lookup]
  | cons p env ih =>
    obtain ⟨k, x⟩ := p
    by_cases hk : k = v
    · simp [Env.assign, hk, List.lookup]
    · have : (v == k) = false := by simpa using Ne.symm hk
      simp [Env.assign, hk, List.lookup, this, ih]

theorem lookup_assign_other (env : Env) (v w : List Char) (r : Double) (hw : w ≠ v) :
    (env.assign v r).lookup w = env.lookup w := by
  induction env with
  | nil =>
    have : (w == v) = false := by simpa using hw
    simp [Env.assign, List.lookup, this]
  | cons p env ih =>
    obtain ⟨k, x⟩ := p
    by_cases hk : k = v
    · subst hk
      have : (w == k) = false := by simpa using hw
      simp [Env.assign, List.lookup, this]
    · by_cases hwk : w = k
      · simp [Env.assign, hk, List.lookup, hwk]
      · have : (w == k) = false := by simpa using hwk
        simp [Env.assign, hk, List.lookup, this, ih]

theorem assign_assign (env : Env) (v : List Char) (r1 r2 : Double) :
    (env.assign v r1).assign v r2 = env.assign v r2 := by
  induction env with
  | nil => simp [Env.assign]
  | cons p env ih =>
    obtain ⟨k, x⟩ := p
    by_cases hk : k = v
    · simp [Env.assign, hk]
    · simp [Env.assign, hk, ih]

theorem operatorsUnbound_assign (env : Env) (v : List Char) (r : Double)
    (henv : operatorsUnbound env)
    (hv : ∀ c ∈ ['(', ')', '+', '-', '*', '/', '%'], v ≠ [c]) :
    operatorsUnbound (env.assign v r) := by
  intro c hc
  rw [lookup_assign_other env v [c] r (Ne.symm (hv c hc))]
  exact henv c hc


theorem evalTokens_variable (env : Env) {t : List Char} {v : Double} (rest : List (List Char))
    (vs : List Double) (os : List Char) (hn : isNumberToken t = false)
    (hv : env.lookup t = some v) :
    evalTokens env (t :: rest) vs os = evalTokens env rest (v :: vs) os := by
  simp [evalTokens, hn, hv]

/-- C5: for every environment, variable name `v` (no space, no `=`) and
expression `e` that evaluates to `r`, `interpret("v=e")` returns the empty
string and leaves an environment that maps `v` to `r` and every other name to
its previous value; a second assignment to `v` replaces the stored value;
`interpret("x=10")` followed by `interpret("x*2")` returns `"20.00"`. -/
theorem assignment_stores_value :
    (∀ (env : Env) (v e : List Char) (r : Double), (∀ c ∈ v, c ≠ ' ' ∧ c ≠ '=') →
      evaluateExpression env (trim e) = .ok r →
      interpret env (v ++ '=' :: e) = .ok ([], env.assign v r) ∧
      (env.assign v r).lookup v = some r ∧
      (∀ w, w ≠ v → (env.assign v r).lookup w = env.lookup w)) ∧
    (∀ (env : Env) (v e1 e2 : List Char) (r1 r2 : Double), (∀ c ∈ v, c ≠ ' ' ∧ c ≠ '=') →
      evaluateExpression env (trim e1) = .ok r1 →
      evaluateExpression (env.assign v r1) (trim e2) = .ok r2 →
      interpret env (v ++ '=' :: e1) = .ok ([], env.assign v r1) ∧
      interpret (env.assign v r1) (v ++ '=' :: e2) = .ok ([], env.assign v r2) ∧
      (env.assign v r2).lookup v = some r2) ∧
    (∀ env : Env, operatorsUnbound env → env.lookup "10".toList = none →
      env.lookup "x*2".toList = none →
      interpret env "x=10".toList = .ok ([], env.assign "x".toList 10) ∧
      interpret (env.assign "x".toList 10) "x*2".toList
        = .ok ("20.00".toList, env.assign "x".toList 10)) := by
  refine ⟨?_, ?_, ?_⟩
  · intro env v e r hv he
    refine ⟨?_, lookup_assign_self env v r, fun w hw => lookup_assign_other env v w r hw⟩
    rw [interpret_assignment env v e hv, he]
  · intro env v e1 e2 r1 r2 hv h1 h2
    refine ⟨?_, ?_, lookup_assign_self env v r2⟩
    · rw [interpret_assignment env v e1 hv, h1]
    · rw [interpret_assignment (env.assign v r1) v e2 hv, h2]
      simp only [assign_assign]
  · intro env henv h10 hx2
    constructor
    · have h := interpret_assignment env ['x'] ['1', '0'] (by decide)
      have ht : trim ['1', '0'] = ['1', '0'] := by decide
      have hval : evaluateExpression env ['1', '0'] = .ok 10 := by
        have h10' : env.lookup ['1', '0'] = none := h10
        rw [evaluateExpression_math env _ h10' (by decide)]
        have htok : tokenize ['1', '0'] = [['1', '0']] := by decide
        rw [htok, evaluateMathExpression,
          evalTokens_number env _ _ _ (by decide) (by decide! : stod ['1', '0'] = some 10)]
        rfl
      rw [ht, hval] at h
      exact h
    · have h20 : fixed2 20 = "20.00".toList := by decide!
      rw [← h20]
      apply interpret_expression _ _ _ (by decide)
      have ht : trim "x*2".toList = "x*2".toList := by decide
      have hun : (env.assign "x".toList 10).lookup "x*2".toList = none := by
        rw [lookup_assign_other env _ _ _ (by decide)]
        exact hx2
      have henv1 : operatorsUnbound (env.assign "x".toList 10) :=
        operatorsUnbound_assign env _ _ henv (by decide)
      rw [ht, evaluateExpression_math _ _ hun (by decide)]
      have htok : tokenize "x*2".toList = [['x'], ['*'], ['2']] := by decide
      have hx : (env.assign "x".toList 10).lookup ['x'] = some 10 :=
        lookup_assign_self env "x".toList 10
      rw [htok, evaluateMathExpression,
        evalTokens_variable _ _ _ _ (by decide) hx,
        evalTokens_operator _ henv1 (by decide)]
      simp only [reduceWhile]
      rw [evalTokens_number _ _ _ _ (by decide) (by decide! : stod ['2'] = some 2)]
      simp [evalTokens, finish, applyOperator]
      norm_num

/-- Witness for C5: `y = 7` in an environment that binds `x`, then `y = 8`. -/
theorem assignment_stores_value_witness :
    evaluateExpression [("x".toList, 1)] (trim " 7".toList) = .ok 7 ∧
    interpret [("x".toList, 1)] "y= 7".toList
      = .ok ([], [("x".toList, 1), ("y".toList, 7)]) ∧
    interpret [("x".toList, 1), ("y".toList, 7)] "y=x+7".toList
      = .ok ([], [("x".toList, 1), ("y".toList, 8)]) ∧
    interpret [] "x=10".toList = .ok ([], [("x".toList, 10)]) ∧
    interpret [("x".toList, 10)] "x*2".toList = .ok ("20.00".toList, [("x".toList, 10)]) :=
  ⟨by decide!,
    (assignment_stores_value.1 [("x".toList, 1)] "y".toList " 7".toList 7 (by decide)
      (by decide!)).1,
    (assignment_stores_value.2.1 [("x".toList, 1)] "y".toList " 7".toList "x+7".toList 7 8
      (by decide) (by decide!) (by decide!)).2.1,
    (assignment_stores_value.2.2 [] (by decide) (by decide) (by decide)).1,
    (assignment_stores_value.2.2 [] (by decide) (by decide) (by decide)).2⟩

/-- C8: a failing assignment does not mutate the variable environment: when
the evaluation of the right-hand side raises an error, `interpret` returns
`"Error: "` followed by the message and the environment is unchanged. -/
theorem failing_assignment_keeps_environment :
    (∀ (env : Env) (v e msg : List Char), (∀ c ∈ v, c ≠ ' ' ∧ c ≠ '=') →
      evaluateExpression env (trim e) = .error msg →
      interpret env (v ++ '=' :: e) = .ok ("Error: ".toList ++ msg, env)) ∧
    (∀ (env : Env) (input msg : List Char) (eq_pos : Nat),
      find '=' (trim input) = some eq_pos →
      evaluateExpression env (trim ((trim input).drop (eq_pos + 1))) = .error msg →
      interpret env input = .ok ("Error: ".toList ++ msg, env)) := by
  constructor
  · intro env v e msg hv he
    rw [interpret_assignment env v e hv, he]
  · intro env input msg eq_pos hf he
    simp [interpret, hf, he]

/-- Witness for C8: `x=5/0` and `z=y+1` in an environment that binds `x`. -/
theorem failing_assignment_keeps_environment_witness :
    evaluateExpression [("x".toList, 1)] (trim "5/0".toList)
      = .error "Division by zero".toList ∧
    interpret [("x".toList, 1)] "x=5/0".toList
      = .ok ("Error: Division by zero".toList, [("x".toList, 1)]) ∧
    interpret [("x".toList, 1)] " z = y+1".toList
      = .ok ("Error: Undefined variable or invalid input: y".toList, [("x".toList, 1)]) :=
  ⟨by decide!,
    failing_assignment_keeps_environment.1 [("x".toList, 1)] "x".toList "5/0".toList
      "Division by zero".toList (by decide) (by decide!),
    failing_assignment_keeps_environment.2 [("x".toList, 1)] " z = y+1".toList
      "Undefined variable or invalid input: y".toList 2 (by decide) (by decide!)⟩


/-! ## Function calls on literal arguments -/

theorem literal_cases {a : List Char} (h : isLiteral a = true) :
    isUnsignedLiteral a = true ∨ ∃ r, a = '-' :: r ∧ isUnsignedLiteral r = true := by
  cases a with
  | nil => simp [isLiteral] at h
  | cons c r =>
    by_cases hc : c = '-'
    · subst hc
      right
      exact ⟨r, rfl, by simpa [isLiteral] using h⟩
    · left
      simpa [isLiteral, hc] using h

theorem literal_chars {a : List Char} (h : isLiteral a = true) :
    a ≠ [] ∧ ∀ c ∈ a, c ≠ ' ' ∧ c ≠ '=' ∧ c ≠ ',' ∧ c ≠ '(' ∧ c ≠ ')' ∧
      c ≠ 'a' ∧ c ≠ 's' ∧ c ≠ 'm' ∧ c ≠ 'd' := by
  have key : ∀ c, (isdigit c || decide (c = '.')) = true → c ≠ ' ' ∧ c ≠ '=' ∧ c ≠ ',' ∧
      c ≠ '(' ∧ c ≠ ')' ∧ c ≠ 'a' ∧ c ≠ 's' ∧ c ≠ 'm' ∧ c ≠ 'd' := by
    intro c hc
    obtain ⟨h1, h2, -, -, h5, h6, h7, h8, h9, h10, h11⟩ := numeric_char_facts hc
    exact ⟨h1, h2, h5, h6, h7, h8, h9, h10, h11⟩
  rcases literal_cases h with hu | ⟨r, rfl, hu⟩
  · obtain ⟨c, cs, rfl, -, hall⟩ := unsignedLiteral_cons hu
    exact ⟨by simp, fun x hx => key x (hall x hx)⟩
  · obtain ⟨c, cs, rfl, -, hall⟩ := unsignedLiteral_cons hu
    refine ⟨by simp, fun x hx => ?_⟩
    rcases List.mem_cons.1 hx with rfl | hx
    · decide
    · exact key x (hall x hx)

theorem tokenize_literal {a : List Char} (h : isLiteral a = true) : tokenize a = [a] := by
  rcases literal_cases h with hu | ⟨r, rfl, hu⟩
  · have := tokenizeLoop_literal hu [] [] [] true
    rw [List.append_nil] at this
    obtain ⟨c, cs, rfl, -, -⟩ := unsignedLiteral_cons hu
    unfold tokenize
    rw [this]
    simp [tokenizeLoop]
  · have := tokenizeLoop_literal hu [] [] ['-'] false
    rw [List.append_nil] at this
    unfold tokenize
    rw [tokenizeLoop]
    simp only [show (isdigit '-' || decide ('-' = '.') || (decide ('-' = '-') && true)) = true
      by decide, if_true, List.nil_append]
    rw [this]
    simp [tokenizeLoop]

theorem isNumberToken_of_literal {a : List Char} (h : isLiteral a = true) :
    isNumberToken a = true := by
  rcases literal_cases h with hu | ⟨r, rfl, hu⟩
  · exact isNumberToken_literal hu
  · exact isNumberToken_minus hu

theorem evaluateExpressionFuel_literal (env : Env) {a : List Char} {v : Double}
    (h : isLiteral a = true) (hv : stod a = some v) (hun : env.lookup a = none) (fuel : Nat) :
    evaluateExpressionFuel env (fuel + 1) a = .ok v := by
  obtain ⟨-, hch⟩ := literal_chars h
  have hcall : isCall a = false := by
    apply isCall_eq_false
    intro c hc
    obtain ⟨-, -, -, -, -, h6, h7, h8, h9⟩ := hch c (List.mem_of_mem_head? hc)
    exact ⟨h6, h7, h8, h9⟩
  rw [evaluateExpressionFuel_math env fuel a hun hcall, tokenize_literal h,
    evaluateMathExpression, evalTokens_number env _ _ _ (isNumberToken_of_literal h) hv]
  rfl

theorem splitRaw_append_delimiter (d : Char) (a rest : List Char) (ha : ∀ c ∈ a, c ≠ d) :
    splitRaw d (a ++ d :: rest) = a :: splitRaw d rest := by
  induction a with
  | nil => simp [splitRaw]
  | cons c a ih =>
    have hc : c ≠ d := ha c (List.mem_cons_self _ _)
    simp [splitRaw, hc, ih (fun x hx => ha x (List.mem_cons_of_mem _ hx))]

theorem splitRaw_single (d : Char) (a : List Char) (ha : ∀ c ∈ a, c ≠ d) (hne : a ≠ []) :
    splitRaw d a = [a] := by
  induction a with
  | nil => exact absurd rfl hne
  | cons c a ih =>
    have hc : c ≠ d := ha c (List.mem_cons_self _ _)
    cases a with
    | nil => simp [splitRaw, hc]
    | cons x a =>
      have := ih (fun y hy => ha y (List.mem_cons_of_mem _ hy)) (by simp)
      rw [splitRaw, if_neg hc, this]

theorem split_literals (a0 : List Char) (rest : List (List Char))
    (h0 : isLiteral a0 = true) (hrest : ∀ a ∈ rest, isLiteral a = true) :
    split (a0 ++ rest.flatMap (fun a => ',' :: a)) ',' = a0 :: rest := by
  induction rest generalizing a0 with
  | nil =>
    obtain ⟨hne, hch⟩ := literal_chars h0
    simp only [List.flatMap_nil, List.append_nil, split]
    rw [splitRaw_single ',' a0 (fun c hc => (hch c hc).2.2.1) hne]
    simp [trim_no_spaces a0 (fun c hc => (hch c hc).1)]
  | cons b rest ih =>
    obtain ⟨-, hch⟩ := literal_chars h0
    have hb := ih b (hrest b (List.mem_cons_self _ _))
      (fun a ha => hrest a (List.mem_cons_of_mem _ ha))
    simp only [split] at hb ⊢
    simp only [List.flatMap_cons, List.cons_append]
    rw [splitRaw_append_delimiter ',' a0 _ (fun c hc => (hch c hc).2.2.1), List.map_cons, hb,
      trim_no_spaces a0 (fun c hc => (hch c hc).1)]

theorem foldArgs_values (evalArg : List Char → Outcome Double) (op : Char)
    (hop : op ∈ ['+', '-', '*', '/', '%']) (rest : List (List Char × Double))
    (hev : ∀ p ∈ rest, evalArg p.1 = .ok p.2)
    (hz : op = '/' ∨ op = '%' → ∀ p ∈ rest, p.2 ≠ 0) (r : Double) :
    foldArgs evalArg op r (rest.map Prod.fst)
      = .ok (List.foldl (foldStep op) r (rest.map Prod.snd)) := by
  induction rest generalizing r with
  | nil => rfl
  | cons p rest ih =>
    have hp := hev p (List.mem_cons_self _ _)
    have ih' := fun r' => ih (fun q hq => hev q (List.mem_cons_of_mem _ hq))
      (fun h q hq => hz h q (List.mem_cons_of_mem _ hq)) r'
    simp only [List.map_cons, List.foldl_cons, foldArgs, hp]
    simp only [List.mem_cons, List.mem_singleton, List.not_mem_nil, or_false] at hop
    rcases hop with rfl | rfl | rfl | rfl | rfl
    · simpa [foldStep] using ih' _
    · simpa [foldStep] using ih' _
    · simpa [foldStep] using ih' _
    · have hnz : p.2 ≠ 0 := hz (Or.inl rfl) p (List.mem_cons_self _ _)
      simpa [foldStep, hnz] using ih' _
    · have hnz : p.2 ≠ 0 := hz (Or.inr rfl) p (List.mem_cons_self _ _)
      simpa [foldStep, hnz] using ih' _


theorem evaluateFunction_callText (evalArg : List Char → Outcome Double) (name : List Char)
    (op : Char) (a0 : List Char) (v0 : Double) (rest : List (List Char × Double))
    (hname : ∀ c ∈ name, c ≠ '(' ∧ c ≠ ')')
    (hop : op ∈ ['+', '-', '*', '/', '%'])
    (h0 : isLiteral a0 = true) (hrest : ∀ p ∈ rest, isLiteral p.1 = true)
    (hev0 : evalArg a0 = .ok v0) (hev : ∀ p ∈ rest, evalArg p.1 = .ok p.2)
    (hz : op = '/' ∨ op = '%' → ∀ p ∈ rest, p.2 ≠ 0) :
    evaluateFunction evalArg (callText name a0 (rest.map Prod.fst)) op
      = .ok (List.foldl (foldStep op) v0 (rest.map Prod.snd)) := by
  have hlit : ∀ a ∈ rest.map Prod.fst, isLiteral a = true := by
    intro a ha
    obtain ⟨p, hp, rfl⟩ := List.mem_map.1 ha
    exact hrest p hp
  set args := a0 ++ (rest.map Prod.fst).flatMap (fun a => ',' :: a) with hargs
  have hargs_chars : ∀ c ∈ args, c ≠ ')' := by
    intro c hc
    rcases List.mem_append.1 hc with hc | hc
    · exact ((literal_chars h0).2 c hc).2.2.2.2.1
    · obtain ⟨a, ha, hca⟩ := List.mem_flatMap.1 hc
      rcases List.mem_cons.1 hca with rfl | hca
      · decide
      · exact ((literal_chars (hlit a ha)).2 c hca).2.2.2.2.1
  have hinput : callText name a0 (rest.map Prod.fst) = name ++ '(' :: (args ++ [')']) := by
    simp [callText, hargs]
  have hinput' : callText name a0 (rest.map Prod.fst) = (name ++ '(' :: args) ++ [')'] := by
    simp [callText, hargs]
  have hs : find '(' (callText name a0 (rest.map Prod.fst)) = some name.length := by
    rw [hinput]
    exact find_append_self '(' name _ (fun c hc => (hname c hc).1)
  have he : find ')' (callText name a0 (rest.map Prod.fst))
      = some (name ++ '(' :: args).length := by
    rw [hinput']
    apply find_append_self
    intro c hc
    rcases List.mem_append.1 hc with hc | hc
    · exact (hname c hc).2
    · rcases List.mem_cons.1 hc with rfl | hc
      · decide
      · exact hargs_chars c hc
  have hsplit : split (((callText name a0 (rest.map Prod.fst)).drop (name.length + 1)).take
      ((name ++ '(' :: args).length - name.length - 1)) ',' = a0 :: rest.map Prod.fst := by
    rw [hinput, drop_length_succ_append]
    have hlen : (name ++ '(' :: args).length - name.length - 1 = args.length := by
      simp only [List.length_append, List.length_cons]
      omega
    rw [hlen, List.take_left']
    exact split_literals a0 _ h0 hlit
    rfl
  rw [evaluateFunction_args evalArg _ op _ _ a0 _ hs he (by simp) hsplit, hev0]
  exact foldArgs_values evalArg op hop rest hev hz v0

/-- C7: for every function name among `add sub mul div mod` and every
non-empty list of numeric-literal arguments `a0,...,an` (no zero among
`a1..an` for `div` and `mod`), the call evaluates to the left fold
`((a0 op a1) op a2) ... op an` seeded by `a0`, which is `a0` itself for a
single argument; `interpret("sub(10,3,2)")` is `"5.00"`. -/
theorem function_call_left_fold :
    (∀ (env : Env) (name : List Char) (op : Char) (a0 : List Char) (v0 : Double)
        (rest : List (List Char × Double)),
      (name, op) ∈ [("add".toList, '+'), ("sub".toList, '-'), ("mul".toList, '*'),
        ("div".toList, '/'), ("mod".toList, '%')] →
      isLiteral a0 = true → stod a0 = some v0 → env.lookup a0 = none →
      (∀ p ∈ rest, isLiteral p.1 = true ∧ stod p.1 = some p.2 ∧ env.lookup p.1 = none) →
      (op = '/' ∨ op = '%' → ∀ p ∈ rest, p.2 ≠ 0) →
      evaluateFunction (evaluateExpression env) (callText name a0 (rest.map Prod.fst)) op
        = .ok (List.foldl (foldStep op) v0 (rest.map Prod.snd)) ∧
      (env.lookup (callText name a0 (rest.map Prod.fst)) = none →
        evaluateExpression env (callText name a0 (rest.map Prod.fst))
          = .ok (List.foldl (foldStep op) v0 (rest.map Prod.snd)))) ∧
    (∀ env : Env, (∀ s ∈ ["sub(10,3,2)".toList, "10".toList, "3".toList, "2".toList],
        env.lookup s = none) →
      interpret env "sub(10,3,2)".toList = .ok ("5.00".toList, env)) := by
  have main : ∀ (env : Env) (name : List Char) (op : Char) (a0 : List Char) (v0 : Double)
        (rest : List (List Char × Double)),
      (name, op) ∈ [("add".toList, '+'), ("sub".toList, '-'), ("mul".toList, '*'),
        ("div".toList, '/'), ("mod".toList, '%')] →
      isLiteral a0 = true → stod a0 = some v0 → env.lookup a0 = none →
      (∀ p ∈ rest, isLiteral p.1 = true ∧ stod p.1 = some p.2 ∧ env.lookup p.1 = none) →
      (op = '/' ∨ op = '%' → ∀ p ∈ rest, p.2 ≠ 0) →
      evaluateFunction (evaluateExpression env) (callText name a0 (rest.map Prod.fst)) op
        = .ok (List.foldl (foldStep op) v0 (rest.map Prod.snd)) ∧
      (env.lookup (callText name a0 (rest.map Prod.fst)) = none →
        evaluateExpression env (callText name a0 (rest.map Prod.fst))
          = .ok (List.foldl (foldStep op) v0 (rest.map Prod.snd))) := by
    intro env name op a0 v0 rest hmem h0 hv0 hun0 hrest hz
    have hname : (∀ c ∈ name, c ≠ '(' ∧ c ≠ ')') ∧ op ∈ ['+', '-', '*', '/', '%'] := by
      simp only [List.mem_cons, Prod.mk.injEq, List.mem_singleton, List.not_mem_nil,
        or_false] at hmem
      rcases hmem with ⟨rfl, rfl⟩ | ⟨rfl, rfl⟩ | ⟨rfl, rfl⟩ | ⟨rfl, rfl⟩ | ⟨rfl, rfl⟩ <;> decide
    constructor
    · exact evaluateFunction_callText _ name op a0 v0 rest hname.1 hname.2 h0
        (fun p hp => (hrest p hp).1)
        (evaluateExpressionFuel_literal env h0 hv0 hun0 _)
        (fun p hp => evaluateExpressionFuel_literal env (hrest p hp).1 (hrest p hp).2.1
          (hrest p hp).2.2 _) hz
    · intro hun
      obtain ⟨n, hn⟩ : ∃ n, (callText name a0 (rest.map Prod.fst)).length = n + 1 := by
        refine ⟨(name ++ '(' :: (a0 ++ (rest.map Prod.fst).flatMap (fun a => ',' :: a))).length,
          ?_⟩
        simp only [callText, List.length_append, List.length_cons, List.length_nil]
      have hfn := evaluateFunction_callText (evaluateExpressionFuel env (n + 1)) name op a0 v0
        rest hname.1 hname.2 h0 (fun p hp => (hrest p hp).1)
        (evaluateExpressionFuel_literal env h0 hv0 hun0 _)
        (fun p hp => evaluateExpressionFuel_literal env (hrest p hp).1 (hrest p hp).2.1
          (hrest p hp).2.2 _) hz
      rw [← hfn]
      unfold evaluateExpression
      rw [hn, evaluateExpressionFuel]
      simp only [hun]
      simp only [List.mem_cons, Prod.mk.injEq, List.mem_singleton, List.not_mem_nil,
        or_false] at hmem
      rcases hmem with ⟨rfl, rfl⟩ | ⟨rfl, rfl⟩ | ⟨rfl, rfl⟩ | ⟨rfl, rfl⟩ | ⟨rfl, rfl⟩ <;>
        simp [callText, startsWith]
  refine ⟨main, ?_⟩
  intro env henv
  have h5 : fixed2 5 = "5.00".toList := by decide!
  rw [← h5]
  apply interpret_expression env _ _ (by decide)
  have ht : trim "sub(10,3,2)".toList = "sub(10,3,2)".toList := by decide
  rw [ht]
  have := (main env "sub".toList '-' "10".toList 10 [("3".toList, 3), ("2".toList, 2)]
    (by decide) (by decide) (by decide!) (henv _ (by decide))
    (by
      intro p hp
      simp only [List.mem_cons, List.mem_singleton, List.not_mem_nil, or_false] at hp
      rcases hp with rfl | rfl
      · exact ⟨by decide, by decide!, henv _ (by decide)⟩
      · exact ⟨by decide, by decide!, henv _ (by decide)⟩)
    (by intro h; rcases h with h | h <;> exact absurd h (by decide))).2 (henv _ (by decide))
  rw [show callText "sub".toList "10".toList
    (List.map Prod.fst [("3".toList, (3 : Double)), ("2".toList, 2)]) = "sub(10,3,2)".toList
    by decide] at this
  rw [this]
  have hfold : List.foldl (foldStep '-') (10 : Double)
      (List.map Prod.snd [("3".toList, (3 : Double)), ("2".toList, 2)]) = 5 := by decide!
  rw [hfold]

/-- Witness for C7: `div(9,-2)` and the single-argument call `mul(7)`. -/
theorem function_call_left_fold_witness :
    evaluateExpression [] "div(9,-2)".toList = .ok (9 / -2) ∧
    evaluateExpression [] "mul(7)".toList = .ok 7 :=
  ⟨(function_call_left_fold.1 [] "div".toList '/' "9".toList 9 [("-2".toList, -2)]
      (by decide) (by decide) (by decide!) (by decide)
      (by
        intro p hp
        simp only [List.mem_singleton] at hp
        subst hp
        exact ⟨by decide, by decide!, by decide⟩)
      (by
        intro _ p hp
        simp only [List.mem_singleton] at hp
        subst hp
        norm_num)).2 (by decide),
    (function_call_left_fold.1 [] "mul".toList '*' "7".toList 7 []
      (by decide) (by decide) (by decide!) (by decide)
      (by intro p hp; simp at hp)
      (by intro h; rcases h with h | h <;> exact absurd h (by decide))).2 (by decide)⟩


/-! ## The argument list of a call -/

theorem evaluateFunction_no_rparen (evalArg : List Char → Outcome Double) (t : List Char)
    (op : Char) (h : ∀ c ∈ t, c ≠ ')') :
    evaluateFunction evalArg t op = .error "Invalid function syntax".toList := by
  have hf := find_eq_none ')' t h
  unfold evaluateFunction
  rw [hf]
  cases find '(' t <;> rfl

theorem evaluateFunction_first_rparen (evalArg : List Char → Outcome Double)
    (name args tail : List Char) (op : Char) (hname : ∀ c ∈ name, c ≠ '(' ∧ c ≠ ')')
    (hargs : ∀ c ∈ args, c ≠ ')') :
    evaluateFunction evalArg (name ++ '(' :: args ++ ')' :: tail) op =
      match split args ',' with
      | [] => .undefined
      | t0 :: ts =>
        match evalArg t0 with
        | .ok result => foldArgs evalArg op result ts
        | .error msg => .error msg
        | .undefined => .undefined
        | .nofuel => .nofuel := by
  have hs : find '(' (name ++ '(' :: args ++ ')' :: tail) = some name.length := by
    rw [List.append_assoc]
    exact find_append_self '(' name _ (fun c hc => (hname c hc).1)
  have he : find ')' (name ++ '(' :: args ++ ')' :: tail)
      = some (name ++ '(' :: args).length := by
    apply find_append_self
    intro c hc
    rcases List.mem_append.1 hc with hc | hc
    · exact (hname c hc).2
    · rcases List.mem_cons.1 hc with rfl | hc
      · decide
      · exact hargs c hc
  have hsub : ((name ++ '(' :: args ++ ')' :: tail).drop (name.length + 1)).take
      ((name ++ '(' :: args).length - name.length - 1) = args := by
    have h1 : name ++ '(' :: args ++ ')' :: tail = name ++ '(' :: (args ++ ')' :: tail) := by
      simp
    rw [h1, drop_length_succ_append]
    have hlen : (name ++ '(' :: args).length - name.length - 1 = args.length := by
      simp only [List.length_append, List.length_cons]
      omega
    rw [hlen, List.take_left']
    rfl
  have hlt : ¬ name.length ≥ (name ++ '(' :: args).length := by simp
  simp only [evaluateFunction, hs, he, if_neg hlt, hsub]

/-- C6 as stated fails: the nested call `mul(add(1,2),3)` is rejected. -/
theorem nested_call_rejected :
    interpret [] "mul(add(1,2),3)".toList
      = .ok ("Error: Invalid function syntax".toList, []) ∧
    interpret [] "mul(add(1,2),3)".toList ≠ .ok ("9.00".toList, []) := by
  constructor <;> decide!

/-- C6, amended: the argument list of a function call runs to the first `)`
of the input, whatever follows it, and is split on every comma; an argument
that itself starts a function call has therefore lost its `)` and is rejected
with "Invalid function syntax", so `interpret("mul(add(1,2),3)")` is
`"Error: Invalid function syntax"`, while `interpret("mul(1+2,3)")` is
`"9.00"`. -/
theorem call_arguments_to_first_rparen :
    (∀ (evalArg : List Char → Outcome Double) (name args tail : List Char) (op : Char),
      (∀ c ∈ name, c ≠ '(' ∧ c ≠ ')') → (∀ c ∈ args, c ≠ ')') →
      evaluateFunction evalArg (name ++ '(' :: args ++ ')' :: tail) op =
        match split args ',' with
        | [] => .undefined
        | t0 :: ts =>
          match evalArg t0 with
          | .ok result => foldArgs evalArg op result ts
          | .error msg => .error msg
          | .undefined => .undefined
          | .nofuel => .nofuel) ∧
    (∀ (env : Env) (fuel : Nat) (t : List Char), isCall t = true → (∀ c ∈ t, c ≠ ')') →
      env.lookup t = none →
      evaluateExpressionFuel env (fuel + 1) t = .error "Invalid function syntax".toList) ∧
    split "add(1,2".toList ',' = ["add(1".toList, "2".toList] ∧
    interpret [] "mul(add(1,2),3)".toList
      = .ok ("Error: Invalid function syntax".toList, []) ∧
    interpret [] "mul(1+2,3)".toList = .ok ("9.00".toList, []) := by
  refine ⟨evaluateFunction_first_rparen, ?_, by decide, by decide!, by decide!⟩
  intro env fuel t hcall hno hun
  have key := fun op => evaluateFunction_no_rparen (evaluateExpressionFuel env fuel) t op hno
  rw [evaluateExpressionFuel]
  simp only [hun]
  split_ifs with h1 h2 h3 h4 h5
  · exact key _
  · exact key _
  · exact key _
  · exact key _
  · exact key _
  · exfalso
    simp only [isCall, Bool.or_eq_true] at hcall
    rcases hcall with (((h | h) | h) | h) | h
    · exact h1 h
    · exact h2 h
    · exact h3 h
    · exact h4 h
    · exact h5 h

/-- Witness for C6, amended: the call `mul(add(1,2),3)` and its first
argument `add(1`. -/
theorem call_arguments_to_first_rparen_witness :
    evaluateFunction (evaluateExpression []) "mul(add(1,2),3)".toList '*'
      = evaluateFunction (evaluateExpression []) "mul(add(1,2)".toList '*' ∧
    evaluateExpressionFuel [] (0 + 1) "add(1".toList
      = .error "Invalid function syntax".toList :=
  ⟨(call_arguments_to_first_rparen.1 (evaluateExpression []) "mul".toList "add(1,2".toList
      ",3)".toList '*' (by decide) (by decide)).trans
    (call_arguments_to_first_rparen.1 (evaluateExpression []) "mul".toList "add(1,2".toList
      [] '*' (by decide) (by decide)).symm,
   call_arguments_to_first_rparen.2.1 [] 0 "add(1".toList (by decide) (by decide) (by decide)⟩

/-- C10: on the empty token stream and on `+`, `2+` and `- 5` the loop of
`evaluateMathExpression` reads or pops an empty value stack, which is
undefined behaviour; no error is reported. -/
theorem missing_operand_reads_empty_stack :
    (∀ env : Env, evaluateMathExpression env [] = .undefined) ∧
    tokenize [] = [] ∧ interpret [] [] = .undefined ∧
    tokenize "+".toList = [['+']] ∧
    applyOperator '+' [] = .undefined ∧
    evaluateMathExpression [] [['+']] = .undefined ∧
    interpret [] "+".toList = .undefined ∧
    tokenize "2+".toList = [['2'], ['+']] ∧
    applyOperator '+' [2] = .undefined ∧
    interpret [] "2+".toList = .undefined ∧
    tokenize "- 5".toList = [['-'], ['5']] ∧
    interpret [] "- 5".toList = .undefined := by
  refine ⟨fun env => rfl, by decide, by decide, by decide, by decide, by decide, by decide,
    by decide, by decide!, by decide!, by decide, by decide!⟩


/-- C9: on `(1+2` the final loop applies `(` as an operator and reads the top
of an empty value stack, and on `1+2)` the operator stack is popped while
empty, in `letstry.cpp` and in `hopefully.cpp` alike: undefined behaviour, no
syntax error; `1 2 3 (` even yields the value `1`. -/
theorem unbalanced_parentheses_not_rejected :
    tokenize "(1+2".toList = [['('], ['1'], ['+'], ['2']] ∧
    evaluateMathExpression [] [['('], ['1'], ['+'], ['2']] = .undefined ∧
    interpret [] "(1+2".toList = .undefined ∧
    tokenize "1+2)".toList = [['1'], ['+'], ['2'], [')']] ∧
    reduceWhile (fun _ => true) [2, 1] ['+'] = .ok ([3], []) ∧
    evaluateMathExpression [] [['1'], ['+'], ['2'], [')']] = .undefined ∧
    interpret [] "1+2)".toList = .undefined ∧
    interpret [] "1 2 3 (".toList = .ok ("1.00".toList, []) ∧
    Hopefully.tokenize "(1+2".toList = [['('], ['1'], ['+'], ['2']] ∧
    Hopefully.buildExpressionTree [['('], ['1'], ['+'], ['2']] = .undefined ∧
    Hopefully.tokenize "1+2)".toList = [['1'], ['+'], ['2'], [')']] ∧
    Hopefully.buildExpressionTree [['1'], ['+'], ['2'], [')']] = .undefined := by
  refine ⟨by decide, by decide!, by decide!, by decide, by decide!, by decide!, by decide!,
    by decide!, by decide, by decide!, by decide, by decide!⟩

/-! ## Termination: the recursion through `evaluateFunction` -/

theorem applyOperator_ne_nofuel (op : Char) (values : List Double) :
    applyOperator op values ≠ .nofuel := by
  unfold applyOperator
  split
  · split_ifs <;> simp
  · simp

theorem reduceWhile_ne_nofuel (cond : Char → Bool) (values : List Double)
    (operators : List Char) : reduceWhile cond values operators ≠ .nofuel := by
  induction operators generalizing values with
  | nil => simp [reduceWhile]
  | cons op operators ih =>
    rw [reduceWhile]
    split_ifs
    · cases h : applyOperator op values with
      | ok values1 => simpa using ih values1
      | error msg => simp
      | undefined => simp
      | nofuel => exact absurd h (applyOperator_ne_nofuel op values)
    · simp

theorem finish_ne_nofuel (values : List Double) (operators : List Char) :
    finish values operators ≠ .nofuel := by
  induction operators generalizing values with
  | nil => cases values <;> simp [finish]
  | cons op operators ih =>
    rw [finish]
    cases h : applyOperator op values with
    | ok values1 => simpa using ih values1
    | error msg => simp
    | undefined => simp
    | nofuel => exact absurd h (applyOperator_ne_nofuel op values)

theorem evalTokens_ne_nofuel (env : Env) (tokens : List (List Char)) (values : List Double)
    (operators : List Char) : evalTokens env tokens values operators ≠ .nofuel := by
  induction tokens generalizing values operators with
  | nil => simpa [evalTokens] using finish_ne_nofuel values operators
  | cons token rest ih =>
    rw [evalTokens]
    by_cases h1 : isNumberToken token = true
    · rw [if_pos h1]
      cases stod token with
      | some v => exact ih _ _
      | none => simp
    · rw [if_neg h1]
      cases env.lookup token with
      | some v => exact ih _ _
      | none =>
        simp only []
        by_cases h2 : token = ['(']
        · rw [if_pos h2]
          exact ih _ _
        · rw [if_neg h2]
          by_cases h3 : token = [')']
          · rw [if_pos h3]
            cases h : reduceWhile (fun _ => true) values operators with
            | ok p =>
              obtain ⟨values1, operators1⟩ := p
              cases operators1 with
              | nil => simp
              | cons o operators1 => exact ih _ _
            | error msg => simp
            | undefined => simp
            | nofuel => exact absurd h (reduceWhile_ne_nofuel _ _ _)
          · rw [if_neg h3]
            by_cases h4 : (precedence (firstChar token)).isSome = true
            · rw [if_pos h4]
              cases h : reduceWhile
                  (fun o => decide (precedenceAt o ≥ precedenceAt (firstChar token)))
                  values operators with
              | ok p => exact ih _ _
              | error msg => simp
              | undefined => simp
              | nofuel => exact absurd h (reduceWhile_ne_nofuel _ _ _)
            · rw [if_neg h4]
              simp

theorem splitRaw_length_le (d : Char) (s : List Char) :
    ∀ t ∈ splitRaw d s, t.length ≤ s.length := by
  induction s with
  | nil => simp [splitRaw]
  | cons c s ih =>
    intro t ht
    rw [splitRaw] at ht
    split_ifs at ht with hc
    · rcases List.mem_cons.1 ht with rfl | ht
      · simp
      · exact Nat.le_succ_of_le (ih t ht)
    · cases hs : splitRaw d s with
      | nil =>
        rw [hs] at ht
        simp only [List.mem_singleton] at ht
        subst ht
        simp
      | cons u us =>
        rw [hs] at ht
        rcases List.mem_cons.1 ht with rfl | ht
        · have := ih u (by rw [hs]; exact List.mem_cons_self _ _)
          simpa using this
        · exact Nat.le_succ_of_le (ih t (by rw [hs]; exact List.mem_cons_of_mem _ ht))

theorem trim_length_le (s : List Char) : (trim s).length ≤ s.length := by
  unfold trim eraseTrailingSpaces eraseLeadingSpaces
  rw [List.length_reverse]
  calc (List.dropWhile (fun x => decide (x = ' '))
          (List.dropWhile (fun x => decide (x = ' ')) s).reverse).length
      ≤ (List.dropWhile (fun x => decide (x = ' ')) s).reverse.length :=
        (List.dropWhile_sublist _).length_le
    _ = (List.dropWhile (fun x => decide (x = ' ')) s).length := List.length_reverse _
    _ ≤ s.length := (List.dropWhile_sublist _).length_le

theorem split_length_le (s : List Char) (d : Char) : ∀ t ∈ split s d, t.length ≤ s.length := by
  intro t ht
  obtain ⟨u, hu, rfl⟩ := List.mem_map.1 ht
  exact le_trans (trim_length_le u) (splitRaw_length_le d s u hu)

theorem find_lt_length (c : Char) (s : List Char) (i : Nat) (h : find c s = some i) :
    i < s.length := by
  induction s generalizing i with
  | nil => simp [find] at h
  | cons x xs ih =>
    rw [find] at h
    split_ifs at h
    · simp only [Option.some.injEq] at h
      subst h
      simp
    · cases hf : find c xs with
      | none => simp [hf] at h
      | some j =>
        simp only [hf, Option.map_some', Option.some.injEq] at h
        subst h
        simpa using ih j hf

/-- Every argument string handed to the recursive call is strictly shorter
than the input of `evaluateFunction`. -/
theorem argument_shorter (input : List Char) (start stop : Nat)
    (hs : find '(' input = some start) :
    ∀ t ∈ split ((input.drop (start + 1)).take (stop - start - 1)) ',',
      t.length < input.length := by
  intro t ht
  have h1 := split_length_le _ _ t ht
  have h2 := find_lt_length _ _ _ hs
  have h3 : ((input.drop (start + 1)).take (stop - start - 1)).length
      ≤ input.length - (start + 1) := by
    rw [List.length_take, List.length_drop]
    exact Nat.min_le_right _ _
  omega

theorem foldArgs_congr (f g : List Char → Outcome Double) (op : Char) (ts : List (List Char))
    (h : ∀ t ∈ ts, f t = g t) (r : Double) : foldArgs f op r ts = foldArgs g op r ts := by
  induction ts generalizing r with
  | nil => rfl
  | cons t ts ih =>
    have ih' := fun r' => ih (fun u hu => h u (List.mem_cons_of_mem _ hu)) r'
    rw [foldArgs, foldArgs, h t (List.mem_cons_self _ _)]
    cases g t with
    | ok value =>
      simp only []
      split_ifs <;> first | exact ih' _ | rfl
    | error msg => rfl
    | undefined => rfl
    | nofuel => rfl

theorem foldArgs_ne_nofuel (f : List Char → Outcome Double) (op : Char) (ts : List (List Char))
    (h : ∀ t ∈ ts, f t ≠ .nofuel) (r : Double) : foldArgs f op r ts ≠ .nofuel := by
  induction ts generalizing r with
  | nil => simp [foldArgs]
  | cons t ts ih =>
    have ih' := fun r' => ih (fun u hu => h u (List.mem_cons_of_mem _ hu)) r'
    rw [foldArgs]
    cases hft : f t with
    | ok value =>
      simp only []
      split_ifs <;> first | exact ih' _ | simp
    | error msg => simp
    | undefined => simp
    | nofuel => exact absurd hft (h t (List.mem_cons_self _ _))

theorem evaluateFunction_congr (f g : List Char → Outcome Double) (input : List Char)
    (op : Char) (h : ∀ t : List Char, t.length < input.length → f t = g t) :
    evaluateFunction f input op = evaluateFunction g input op := by
  unfold evaluateFunction
  cases hs : find '(' input with
  | none => rfl
  | some start =>
    cases he : find ')' input with
    | none => rfl
    | some stop =>
      simp only []
      split_ifs
      · rfl
      · have hlen := argument_shorter input start stop hs
        cases hsp : split ((input.drop (start + 1)).take (stop - start - 1)) ',' with
        | nil => rfl
        | cons t0 ts =>
          rw [hsp] at hlen
          simp only []
          rw [h t0 (hlen t0 (List.mem_cons_self _ _))]
          cases g t0 with
          | ok result =>
            exact foldArgs_congr f g op ts
              (fun t ht => h t (hlen t (List.mem_cons_of_mem _ ht))) result
          | error msg => rfl
          | undefined => rfl
          | nofuel => rfl

theorem evaluateFunction_ne_nofuel (f : List Char → Outcome Double) (input : List Char)
    (op : Char) (h : ∀ t : List Char, t.length < input.length → f t ≠ .nofuel) :
    evaluateFunction f input op ≠ .nofuel := by
  unfold evaluateFunction
  cases hs : find '(' input with
  | none => simp
  | some start =>
    cases he : find ')' input with
    | none => simp
    | some stop =>
      simp only []
      split_ifs
      · simp
      · have hlen := argument_shorter input start stop hs
        cases hsp : split ((input.drop (start + 1)).take (stop - start - 1)) ',' with
        | nil => simp
        | cons t0 ts =>
          rw [hsp] at hlen
          simp only []
          cases h0 : f t0 with
          | ok result =>
            exact foldArgs_ne_nofuel f op ts
              (fun t ht => h t (hlen t (List.mem_cons_of_mem _ ht))) result
          | error msg => simp
          | undefined => simp
          | nofuel => exact absurd h0 (h t0 (hlen t0 (List.mem_cons_self _ _)))


theorem evaluateExpressionFuel_ne_nofuel (env : Env) :
    ∀ (fuel : Nat) (input : List Char), input.length < fuel →
      evaluateExpressionFuel env fuel input ≠ .nofuel := by
  intro fuel
  induction fuel with
  | zero => intro input h; omega
  | succ n ih =>
    intro input hlen
    have key : ∀ op, evaluateFunction (evaluateExpressionFuel env n) input op ≠ .nofuel :=
      fun op => evaluateFunction_ne_nofuel _ input op (fun t ht => ih t (by omega))
    rw [evaluateExpressionFuel]
    cases env.lookup input with
    | some v => simp
    | none =>
      simp only []
      split_ifs
      · exact key _
      · exact key _
      · exact key _
      · exact key _
      · exact key _
      · exact evalTokens_ne_nofuel env _ [] []

theorem evaluateExpressionFuel_stable (env : Env) :
    ∀ (fuel fuel' : Nat) (input : List Char), input.length < fuel → input.length < fuel' →
      evaluateExpressionFuel env fuel input = evaluateExpressionFuel env fuel' input := by
  intro fuel
  induction fuel with
  | zero => intro fuel' input h; omega
  | succ n ih =>
    intro fuel' input hlen hlen'
    cases fuel' with
    | zero => omega
    | succ m =>
      have key : ∀ op, evaluateFunction (evaluateExpressionFuel env n) input op
          = evaluateFunction (evaluateExpressionFuel env m) input op :=
        fun op => evaluateFunction_congr _ _ input op
          (fun t ht => ih m t (by omega) (by omega))
      rw [evaluateExpressionFuel, evaluateExpressionFuel]
      cases env.lookup input with
      | some v => rfl
      | none =>
        simp only []
        split_ifs
        · exact key _
        · exact key _
        · exact key _
        · exact key _
        · exact key _
        · rfl

theorem mem_of_mem_trim (s : List Char) : ∀ c ∈ trim s, c ∈ s := by
  intro c hc
  unfold trim eraseTrailingSpaces eraseLeadingSpaces at hc
  rw [List.mem_reverse] at hc
  have h1 := (List.dropWhile_sublist (fun x => decide (x = ' '))).subset hc
  rw [List.mem_reverse] at h1
  exact (List.dropWhile_sublist (fun x => decide (x = ' '))).subset h1

/-- An input that contains no `=` is evaluated without a write to the
environment: unless the evaluation has undefined behaviour, `interpret`
returns the formatted value or the error text together with the environment
it was called with, and a second call on the same input returns the same. -/
theorem non_assignment_keeps_environment :
    ∀ (env : Env) (input : List Char), (∀ c ∈ input, c ≠ '=') →
      (interpret env input = .undefined ∨
        ∃ s, interpret env input = .ok (s, env) ∧
          ((∃ v, evaluateExpression env (trim input) = .ok v ∧ s = fixed2 v) ∨
            (∃ msg, evaluateExpression env (trim input) = .error msg ∧
              s = "Error: ".toList ++ msg))) ∧
      (∀ (s : List Char) (env1 : Env), interpret env input = .ok (s, env1) →
        env1 = env ∧ interpret env1 input = .ok (s, env)) := by
  intro env input hno
  have hfind : find '=' (trim input) = none :=
    find_eq_none '=' _ (fun c hc => hno c (mem_of_mem_trim input c hc))
  have hshape : interpret env input = .undefined ∨
      ∃ s, interpret env input = .ok (s, env) ∧
        ((∃ v, evaluateExpression env (trim input) = .ok v ∧ s = fixed2 v) ∨
          (∃ msg, evaluateExpression env (trim input) = .error msg ∧
            s = "Error: ".toList ++ msg)) := by
    cases h : evaluateExpression env (trim input) with
    | ok v =>
      exact Or.inr ⟨fixed2 v, by simp [interpret, hfind, h], Or.inl ⟨v, rfl, rfl⟩⟩
    | error msg =>
      exact Or.inr ⟨"Error: ".toList ++ msg, by simp [interpret, hfind, h],
        Or.inr ⟨msg, rfl, rfl⟩⟩
    | undefined => exact Or.inl (by simp [interpret, hfind, h])
    | nofuel =>
      exact absurd h (evaluateExpressionFuel_ne_nofuel env _ _ (Nat.lt_succ_self _))
  refine ⟨hshape, ?_⟩
  intro s env1 h
  rcases hshape with h' | ⟨s', h', -⟩
  · rw [h'] at h
    exact absurd h (by simp)
  · rw [h'] at h
    simp only [Outcome.ok.injEq, Prod.mk.injEq] at h
    obtain ⟨rfl, rfl⟩ := h
    exact ⟨rfl, h'⟩

/-- The inputs `x+1` (a value) and `y+1` (an error) in an environment that
binds `x`. -/
theorem non_assignment_keeps_environment_witness :
    interpret [("x".toList, 1)] "x+1".toList = .ok ("2.00".toList, [("x".toList, 1)]) ∧
    interpret [("x".toList, 1)] "y+1".toList
      = .ok ("Error: Undefined variable or invalid input: y".toList, [("x".toList, 1)]) ∧
    ([("x".toList, (1 : Double))] = [("x".toList, 1)] ∧
      interpret [("x".toList, 1)] "x+1".toList
        = .ok ("2.00".toList, [("x".toList, 1)])) ∧
    ([("x".toList, (1 : Double))] = [("x".toList, 1)] ∧
      interpret [("x".toList, 1)] "y+1".toList
        = .ok ("Error: Undefined variable or invalid input: y".toList,
            [("x".toList, 1)])) :=
  ⟨by decide!, by decide!,
    (non_assignment_keeps_environment [("x".toList, 1)] "x+1".toList (by decide)).2
      "2.00".toList [("x".toList, 1)] (by decide!),
    (non_assignment_keeps_environment [("x".toList, 1)] "y+1".toList (by decide)).2
      "Error: Undefined variable or invalid input: y".toList [("x".toList, 1)] (by decide!)⟩

/-- C12: the empty input contains no `=`, and `interpret` returns no string
on it: `tokenize` yields no token, the loop of `evaluateMathExpression` pushes
nothing and `return values.top()` reads an empty stack, which is undefined
behaviour, in the initial environment and in every environment that does not
bind the empty name. The same holds for `(1+2`, `2+` and `add()`. Two
consecutive calls on these inputs have no defined result to be equal, whereas
on `1+2` the call returns `3.00` and leaves the environment as it was. -/
theorem non_assignment_undefined_result :
    find '=' (trim []) = none ∧ tokenize (trim []) = [] ∧
    (∀ env : Env, evaluateMathExpression env [] = .undefined) ∧
    (∀ env : Env, interpret env [] =
      match env.lookup [] with
      | some v => .ok (fixed2 v, env)
      | none => .undefined) ∧
    interpret [] [] = .undefined ∧
    interpret [("x".toList, 1)] [] = .undefined ∧
    find '=' (trim "(1+2".toList) = none ∧ interpret [] "(1+2".toList = .undefined ∧
    find '=' (trim "2+".toList) = none ∧ interpret [] "2+".toList = .undefined ∧
    find '=' (trim "add()".toList) = none ∧ interpret [] "add()".toList = .undefined ∧
    interpret [] "1+2".toList = .ok ("3.00".toList, []) := by
  refine ⟨by decide, by decide, fun env => rfl, ?_, by decide, by decide!, by decide,
    by decide!, by decide, by decide!, by decide, by decide, by decide!⟩
  intro env
  have h1 : trim ([] : List Char) = [] := by decide
  have h2 : find '=' ([] : List Char) = none := by decide
  have h3 : tokenize ([] : List Char) = [] := by decide
  unfold interpret evaluateExpression
  simp only [h1, h2]
  cases h : env.lookup [] with
  | some v => simp [evaluateExpressionFuel, h]
  | none => simp [evaluateExpressionFuel, h, startsWith, h3, evaluateMathExpression, evalTokens,
      finish]

/-! ## Identifiers -/

theorem letter_facts {y : Char} (h : y.isAlpha = true) :
    isdigit y = false ∧ y ≠ '.' ∧ y ≠ '-' ∧ y ≠ ' ' ∧ y ≠ '=' ∧ y ≠ '(' ∧ y ≠ ')' ∧
      precedence y = none := by
  have hd : isdigit y = false := by
    simp only [Char.isAlpha, Char.isUpper, Char.isLower, Bool.or_eq_true, Bool.and_eq_true,
      decide_eq_true_eq] at h
    simp only [isdigit, Char.isDigit, Bool.and_eq_false_iff, decide_eq_false_iff_not]
    simp only [UInt32.le_def, ge_iff_le, BitVec.le_def] at h ⊢
    have e48 : (UInt32.toBitVec 48).toNat = 48 := rfl
    have e57 : (UInt32.toBitVec 57).toNat = 57 := rfl
    have e65 : (UInt32.toBitVec 65).toNat = 65 := rfl
    have e90 : (UInt32.toBitVec 90).toNat = 90 := rfl
    have e97 : (UInt32.toBitVec 97).toNat = 97 := rfl
    have e122 : (UInt32.toBitVec 122).toNat = 122 := rfl
    omega
  have h1 : y ≠ '+' := by rintro rfl; exact absurd h (by decide)
  have h2 : y ≠ '-' := by rintro rfl; exact absurd h (by decide)
  have h3 : y ≠ '*' := by rintro rfl; exact absurd h (by decide)
  have h4 : y ≠ '/' := by rintro rfl; exact absurd h (by decide)
  have h5 : y ≠ '%' := by rintro rfl; exact absurd h (by decide)
  refine ⟨hd, ?_, h2, ?_, ?_, ?_, ?_, by simp [precedence, h1, h2, h3, h4, h5]⟩ <;>
    (rintro rfl; exact absurd h (by decide))

theorem evalTokens_undefined_letter (env : Env) {y : Char} (hy : y.isAlpha = true)
    (hun : env.lookup [y] = none) (post : List (List Char)) (vs : List Double)
    (os : List Char) :
    evalTokens env ([y] :: post) vs os
      = .error ("Undefined variable or invalid input: ".toList ++ [y]) := by
  obtain ⟨hd, hdot, -, -, -, hl, hr, hp⟩ := letter_facts hy
  have hn : isNumberToken [y] = false := by
    simp [isNumberToken, firstChar, hd, Ne.symm hdot]
  have h1 : ([y] : List Char) ≠ ['('] := by simpa using hl
  have h2 : ([y] : List Char) ≠ [')'] := by simpa using hr
  have h3 : (precedence (firstChar [y])).isSome = false := by
    simp [firstChar, hp]
  rw [evalTokens]
  simp only [hn, hun, if_neg h1, if_neg h2, h3, Bool.false_eq_true, if_false]

theorem tokenizeLoop_append (cs : List Char) (tokens : List (List Char)) (token : List Char)
    (l : Bool) : tokenizeLoop cs tokens token l = tokens ++ tokenizeLoop cs [] token l := by
  induction cs generalizing tokens token l with
  | nil =>
    rw [tokenizeLoop, tokenizeLoop]
    split_ifs <;> simp
  | cons c cs ih =>
    rw [tokenizeLoop, tokenizeLoop]
    by_cases h1 : (isdigit c || decide (c = '.') || (decide (c = '-') && l)) = true
    · rw [if_pos h1, if_pos h1]
      exact ih tokens _ _
    · rw [if_neg h1, if_neg h1]
      by_cases h2 : c ≠ ' ' <;> by_cases h3 : token ≠ []
      · rw [if_pos h2, if_pos h2, if_pos h3, if_pos h3, ih (tokens ++ [token] ++ [[c]]),
          ih ([] ++ [token] ++ [[c]])]
        simp
      · rw [if_pos h2, if_pos h2, if_neg h3, if_neg h3, ih (tokens ++ [[c]]),
          ih ([] ++ [[c]])]
        simp
      · rw [if_neg h2, if_neg h2, if_pos h3, if_pos h3, ih (tokens ++ [token]),
          ih ([] ++ [token])]
        simp
      · rw [if_neg h2, if_neg h2, if_neg h3, if_neg h3]
        exact ih tokens _ _

theorem tokenize_letter_cons {y : Char} (hy : y.isAlpha = true) (rest : List Char) :
    tokenize (y :: rest) = [y] :: tokenizeLoop rest [] [] true := by
  obtain ⟨hd, hdot, hm, hsp, -⟩ := letter_facts hy
  unfold tokenize
  rw [tokenizeLoop]
  simp only [hd, hdot, hm, hsp, decide_False, Bool.false_and, Bool.or_self, Bool.false_eq_true,
    if_false, ne_eq, not_true_eq_false, not_false_eq_true, if_true, List.nil_append]
  rw [tokenizeLoop_append]
  rfl


theorem evaluateExpression_undefined_letter (env : Env) {y : Char} (hy : y.isAlpha = true)
    (rest : List Char) (hun : env.lookup [y] = none) (hin : env.lookup (y :: rest) = none)
    (hcall : isCall (y :: rest) = false) :
    evaluateExpression env (y :: rest)
      = .error ("Undefined variable or invalid input: ".toList ++ [y]) := by
  rw [evaluateExpression_math env _ hin hcall, tokenize_letter_cons hy, evaluateMathExpression]
  exact evalTokens_undefined_letter env hy hun _ _ _

theorem evalTokens_append (env : Env) (pre rest : List (List Char)) :
    ∀ (values : List Double) (operators : List Char),
      evalTokens env (pre ++ rest) values operators =
        match loopTokens env pre values operators with
        | .ok (values1, operators1) => evalTokens env rest values1 operators1
        | .error msg => .error msg
        | .undefined => .undefined
        | .nofuel => .nofuel := by
  induction pre with
  | nil => intro values operators; rfl
  | cons token pre ih =>
    intro values operators
    rw [List.cons_append, evalTokens, loopTokens]
    by_cases h1 : isNumberToken token = true
    · rw [if_pos h1, if_pos h1]
      cases stod token with
      | some v => exact ih _ _
      | none => rfl
    · rw [if_neg h1, if_neg h1]
      cases env.lookup token with
      | some v => exact ih _ _
      | none =>
        simp only []
        by_cases h2 : token = ['(']
        · rw [if_pos h2, if_pos h2]
          exact ih _ _
        · rw [if_neg h2, if_neg h2]
          by_cases h3 : token = [')']
          · rw [if_pos h3, if_pos h3]
            cases reduceWhile (fun _ => true) values operators with
            | ok p =>
              obtain ⟨values1, operators1⟩ := p
              cases operators1 with
              | nil => rfl
              | cons o operators1 => exact ih _ _
            | error msg => rfl
            | undefined => rfl
            | nofuel => rfl
          · rw [if_neg h3, if_neg h3]
            by_cases h4 : (precedence (firstChar token)).isSome = true
            · rw [if_pos h4, if_pos h4]
              cases reduceWhile
                  (fun o => decide (precedenceAt o ≥ precedenceAt (firstChar token)))
                  values operators with
              | ok p => exact ih _ _
              | error msg => rfl
              | undefined => rfl
              | nofuel => rfl
            · rw [if_neg h4, if_neg h4]

theorem evaluateMathExpression_at_undefined_letter (env : Env) (pre : List (List Char))
    {y : Char} (post : List (List Char)) (vs : List Double) (os : List Char)
    (hpre : loopTokens env pre [] [] = .ok (vs, os))
    (hy : y.isAlpha = true) (hun : env.lookup [y] = none) :
    evaluateMathExpression env (pre ++ [y] :: post)
      = .error ("Undefined variable or invalid input: ".toList ++ [y]) := by
  rw [evaluateMathExpression, evalTokens_append, hpre]
  exact evalTokens_undefined_letter env hy hun post vs os

theorem evaluateMathExpression_prefix_error (env : Env) (pre rest : List (List Char))
    (msg : List Char) (hpre : loopTokens env pre [] [] = .error msg) :
    evaluateMathExpression env (pre ++ rest) = .error msg := by
  rw [evaluateMathExpression, evalTokens_append, hpre]

theorem find_trim_eq_none (input : List Char) (hno : ∀ c ∈ input, c ≠ '=') :
    find '=' (trim input) = none :=
  find_eq_none '=' _ (fun c hc => hno c (mem_of_mem_trim input c hc))

/-- C11 as stated fails. In the initial environment, where `y` is not bound,
`1/0+y` reports the division by zero that is reduced before the token `y` is
read, `x+y` names `x`, and `add(1,2)+y` is `3.00` because the text after the
first `)` of a call is not read; after `y+1=3` the text `y+1` is the name of a
variable, `y` still is not, and `y+1` evaluates to `3.00`. -/
theorem undefined_variable_not_always_named :
    tokenize "1/0+y".toList = [['1'], ['/'], ['0'], ['+'], ['y']] ∧
    interpret [] "1/0+y".toList = .ok ("Error: Division by zero".toList, []) ∧
    tokenize "x+y".toList = [['x'], ['+'], ['y']] ∧
    interpret [] "x+y".toList
      = .ok ("Error: Undefined variable or invalid input: x".toList, []) ∧
    interpret [] "add(1,2)+y".toList = .ok ("3.00".toList, []) ∧
    interpret [] "y+1=3".toList = .ok ([], [("y+1".toList, 3)]) ∧
    List.lookup "y".toList [("y+1".toList, (3 : Double))] = none ∧
    interpret [("y+1".toList, 3)] "y+1".toList
      = .ok ("3.00".toList, [("y+1".toList, 3)]) := by
  refine ⟨by decide, by decide!, by decide, by decide!, by decide!, by decide!, by decide,
    by decide!⟩

/-- C11 (amended): referencing an undefined variable fails with an error that
names it when the loop of `evaluateMathExpression` reaches it. For every
environment and every letter `y` not bound in it: the loop raises
"Undefined variable or invalid input: y" at the token `y`, whatever the
stacks and the tokens after it; so does `evaluateMathExpression` on every
token sequence in which the tokens before `y` are processed without a
failure, and `interpret` on every input without `=` that is not itself the
name of a variable, does not begin with `add(`, `sub(`, `mul(`, `div(` or
`mod(`, and whose tokens before `y` are processed without a failure; when
those tokens raise an error, that error is reported instead. The tokens of a
well-formed expression followed by an operator that does not bind more
strongly are processed without a failure, and `interpret("y+1")` reports `y`.
In `hopefully.cpp` `VariableExpression(y).interpret` raises
"Undefined variable: y"; a variable that is bound evaluates to its stored
value. -/
theorem undefined_variable_named_when_reached :
    (∀ (env : Env) (y : Char) (post : List (List Char)) (vs : List Double) (os : List Char),
      y.isAlpha = true → env.lookup [y] = none →
      evalTokens env ([y] :: post) vs os
        = .error ("Undefined variable or invalid input: ".toList ++ [y])) ∧
    (∀ (env : Env) (pre : List (List Char)) (y : Char) (post : List (List Char))
        (vs : List Double) (os : List Char),
      loopTokens env pre [] [] = .ok (vs, os) →
      y.isAlpha = true → env.lookup [y] = none →
      evaluateMathExpression env (pre ++ [y] :: post)
        = .error ("Undefined variable or invalid input: ".toList ++ [y])) ∧
    (∀ (env : Env) (input : List Char) (pre : List (List Char)) (y : Char)
        (post : List (List Char)) (vs : List Double) (os : List Char),
      (∀ c ∈ input, c ≠ '=') → env.lookup (trim input) = none →
      isCall (trim input) = false →
      tokenize (trim input) = pre ++ [y] :: post →
      loopTokens env pre [] [] = .ok (vs, os) →
      y.isAlpha = true → env.lookup [y] = none →
      interpret env input
        = .ok ("Error: Undefined variable or invalid input: ".toList ++ [y], env)) ∧
    (∀ (env : Env) (input : List Char) (pre rest : List (List Char)) (msg : List Char),
      (∀ c ∈ input, c ≠ '=') → env.lookup (trim input) = none →
      isCall (trim input) = false →
      tokenize (trim input) = pre ++ rest →
      loopTokens env pre [] [] = .error msg →
      interpret env input = .ok ("Error: ".toList ++ msg, env)) ∧
    (∀ (env : Env) (e : Expr) (v : Double) (op y : Char) (post : List (List Char)),
      operatorsUnbound env → e.wellFormed = true → e.value = some v →
      (precedence op).isSome = true → precedenceAt op ≤ e.level →
      y.isAlpha = true → env.lookup [y] = none →
      evaluateMathExpression env (e.toTokens ++ [op] :: [y] :: post)
        = .error ("Undefined variable or invalid input: ".toList ++ [y])) ∧
    (∀ (env : Env) (y : Char), y.isAlpha = true → env.lookup [y] = none →
      env.lookup [y, '+', '1'] = none →
      interpret env [y, '+', '1']
        = .ok ("Error: Undefined variable or invalid input: ".toList ++ [y], env)) ∧
    interpret [] "y+1".toList
      = .ok ("Error: Undefined variable or invalid input: y".toList, []) ∧
    (∀ (leftFirst : Bool) (context : Env) (y : List Char), context.lookup y = none →
      (Hopefully.Expression.VariableExpression y).interpret leftFirst context
        = .error ("Undefined variable: ".toList ++ y)) ∧
    (∀ (env : Env) (y : Char) (v : Double) (post : List (List Char)) (vs : List Double)
        (os : List Char), y.isAlpha = true → env.lookup [y] = some v →
      evaluateExpression env [y] = .ok v ∧
      evalTokens env ([y] :: post) vs os = evalTokens env post (v :: vs) os) ∧
    (∀ (leftFirst : Bool) (context : Env) (y : List Char) (v : Double),
      context.lookup y = some v →
      (Hopefully.Expression.VariableExpression y).interpret leftFirst context = .ok v) := by
  refine ⟨?_, ?_, ?_, ?_, ?_, ?_, by decide!, ?_, ?_, ?_⟩
  · intro env y post vs os hy hun
    exact evalTokens_undefined_letter env hy hun post vs os
  · intro env pre y post vs os hpre hy hun
    exact evaluateMathExpression_at_undefined_letter env pre post vs os hpre hy hun
  · intro env input pre y post vs os hno hin hcall htok hpre hy hun
    apply interpret_expression_error env _ _ (find_trim_eq_none input hno)
    rw [evaluateExpression_math env _ hin hcall, htok]
    exact evaluateMathExpression_at_undefined_letter env pre post vs os hpre hy hun
  · intro env input pre rest msg hno hin hcall htok hpre
    apply interpret_expression_error env _ _ (find_trim_eq_none input hno)
    rw [evaluateExpression_math env _ hin hcall, htok]
    exact evaluateMathExpression_prefix_error env pre rest msg hpre
  · intro env e v op y post henv hwf hv hop hlev hy hun
    obtain ⟨vs1, os1, h1, h2, -⟩ :=
      evalTokens_expr env henv e v hwf hv ([op] :: [y] :: post) [] [] trivial
    have hred : reduceWhile (fun o => decide (precedenceAt o ≥ precedenceAt op)) vs1 os1
        = .ok ([v], []) := by
      rw [h2 _ (fun o _ ho => by simp; omega)]
      rfl
    rw [evaluateMathExpression, h1, evalTokens_operator env henv hop, hred]
    exact evalTokens_undefined_letter env hy hun post _ _
  · intro env y hy hun hin
    obtain ⟨-, -, -, hsp, heq, -⟩ := letter_facts hy
    have htrim : trim [y, '+', '1'] = [y, '+', '1'] := by
      apply trim_eq_self
      · intro c hc
        simp only [List.head?_cons, Option.some.injEq] at hc
        subst hc; exact hsp
      · intro c hc
        have : c = '1' := by simpa [List.getLast?] using hc.symm
        subst this; decide
    have hfind : find '=' (trim [y, '+', '1']) = none := by
      rw [htrim]
      apply find_eq_none
      intro c hc
      simp only [List.mem_cons, List.mem_singleton, List.not_mem_nil, or_false] at hc
      rcases hc with rfl | rfl | rfl
      · exact heq
      · decide
      · decide
    have hcall : isCall [y, '+', '1'] = false := by
      simp [isCall, startsWith]
    apply interpret_expression_error env _ _ hfind
    rw [htrim]
    exact evaluateExpression_undefined_letter env hy _ hun hin hcall
  · intro leftFirst context y hy
    simp [Hopefully.Expression.interpret, hy]
  · intro env y v post vs os hy hv
    obtain ⟨hd, hdot, -⟩ := letter_facts hy
    have hn : isNumberToken [y] = false := by
      simp [isNumberToken, firstChar, hd, Ne.symm hdot]
    refine ⟨?_, evalTokens_variable env post vs os hn hv⟩
    simp [evaluateExpression, evaluateExpressionFuel, hv]
  · intro leftFirst context y v hv
    simp [Hopefully.Expression.interpret, hv]

/-- Witness for C11 (amended): ` x*(2+3) - y/0 ` with `x = 4` names `y` (the
division by zero after `y` is not reached), `1/0+y` reports the earlier
error, `2*3+y` names `y`, and `y` bound to `4` evaluates to `4`. -/
theorem undefined_variable_named_when_reached_witness :
    evalTokens [] ([['y'], ['+'], ['1']]) [7] ['*']
      = .error ("Undefined variable or invalid input: ".toList ++ ['y']) ∧
    evaluateMathExpression [] ([['1'], ['+']] ++ [['y']])
      = .error ("Undefined variable or invalid input: ".toList ++ ['y']) ∧
    interpret [("x".toList, 4)] " x*(2+3) - y/0 ".toList
      = .ok ("Error: Undefined variable or invalid input: ".toList ++ ['y'],
          [("x".toList, 4)]) ∧
    interpret [] "1/0+y".toList = .ok ("Error: ".toList ++ "Division by zero".toList, []) ∧
    evaluateMathExpression []
        ((Expr.bin '*' (.num ['2']) (.num ['3'])).toTokens ++ ['+'] :: ['y'] :: [])
      = .error ("Undefined variable or invalid input: ".toList ++ ['y']) ∧
    interpret [] ['z', '+', '1']
      = .ok ("Error: Undefined variable or invalid input: ".toList ++ ['z'], []) ∧
    (Hopefully.Expression.VariableExpression ['y']).interpret true []
      = .error ("Undefined variable: ".toList ++ ['y']) ∧
    evaluateExpression [(['y'], 4)] ['y'] = .ok 4 ∧
    (Hopefully.Expression.VariableExpression ['y']).interpret true [(['y'], 4)] = .ok 4 :=
  ⟨undefined_variable_named_when_reached.1 [] 'y' [['+'], ['1']] [7] ['*']
      (by decide) (by decide),
    undefined_variable_named_when_reached.2.1 [] [['1'], ['+']] 'y' [] [1] ['+']
      (by decide!) (by decide) (by decide),
    undefined_variable_named_when_reached.2.2.1 [("x".toList, 4)] " x*(2+3) - y/0 ".toList
      [['x'], ['*'], ['('], ['2'], ['+'], ['3'], [')'], ['-']] 'y' [['/'], ['0']]
      [20] ['-'] (by decide) (by decide) (by decide) (by decide) (by decide!) (by decide)
      (by decide),
    undefined_variable_named_when_reached.2.2.2.1 [] "1/0+y".toList
      [['1'], ['/'], ['0'], ['+']] [['y']] "Division by zero".toList
      (by decide) (by decide) (by decide) (by decide) (by decide!),
    undefined_variable_named_when_reached.2.2.2.2.1 [] (Expr.bin '*' (.num ['2']) (.num ['3']))
      6 '+' 'y' [] (by decide) (by decide) (by decide!) (by decide) (by decide) (by decide)
      (by decide),
    undefined_variable_named_when_reached.2.2.2.2.2.1 [] 'z' (by decide) (by decide)
      (by decide),
    undefined_variable_named_when_reached.2.2.2.2.2.2.2.1 true [] ['y'] (by decide),
    (undefined_variable_named_when_reached.2.2.2.2.2.2.2.2.1 [(['y'], 4)] 'y' 4 [] [] []
      (by decide) (by decide!)).1,
    undefined_variable_named_when_reached.2.2.2.2.2.2.2.2.2 true [(['y'], 4)] ['y'] 4
      (by decide!)⟩


/-- C13: `tokenize` emits every letter as a token of its own, so a variable
with a name of several letters is found only when it is the whole input:
after `ab=3`, `interpret("ab")` is `"3.00"` but `interpret("ab*2")` is
`"Error: Undefined variable or invalid input: a"`, not `"6.00"`; the
tokenizer of `hopefully.cpp` keeps `ab` in one token. -/
theorem multi_letter_name_split :
    interpret [] "ab=3".toList = .ok ([], [("ab".toList, 3)]) ∧
    interpret [("ab".toList, 3)] "ab".toList = .ok ("3.00".toList, [("ab".toList, 3)]) ∧
    tokenize "ab*2".toList = [['a'], ['b'], ['*'], ['2']] ∧
    interpret [("ab".toList, 3)] "ab*2".toList
      = .ok ("Error: Undefined variable or invalid input: a".toList, [("ab".toList, 3)]) ∧
    Hopefully.tokenize "ab*2".toList = [['a', 'b'], ['*'], ['2']] := by
  refine ⟨by decide!, by decide!, by decide, by decide!, by decide⟩

/-- C14 as stated fails: with `f` bound to `2`, `f(1)` is not rejected. -/
theorem bound_name_call_not_rejected :
    interpret [] "f=2".toList = .ok ([], [("f".toList, 2)]) ∧
    interpret [("f".toList, 2)] "f(1)".toList = .ok ("1.00".toList, [("f".toList, 2)]) := by
  constructor <;> decide!

/-- C14, amended: an input that starts with a letter that is not bound as a
variable, and that is neither a bound name itself nor a call of one of the
five recognised functions, is rejected with "Undefined variable or invalid
input: " followed by that letter, so `name(args)` with an unrecognised name
whose first letter is unbound is an error (`f(1)` in the initial
environment); when `f` is bound as a variable `f(1)` is not rejected and
evaluates to the parenthesised argument, `"1.00"`. -/
theorem unrecognised_call_rejected_when_unbound :
    (∀ (env : Env) (f : Char) (rest : List Char), f.isAlpha = true →
      env.lookup [f] = none → env.lookup (f :: rest) = none → isCall (f :: rest) = false →
      evaluateExpression env (f :: rest)
        = .error ("Undefined variable or invalid input: ".toList ++ [f])) ∧
    interpret [] "f(1)".toList
      = .ok ("Error: Undefined variable or invalid input: f".toList, []) ∧
    (∀ (env : Env) (v : Double), operatorsUnbound env → env.lookup ['f'] = some v →
      env.lookup "f(1)".toList = none →
      interpret env "f(1)".toList = .ok ("1.00".toList, env)) := by
  refine ⟨fun env f rest hf hun hin hcall =>
    evaluateExpression_undefined_letter env hf rest hun hin hcall, by decide!, ?_⟩
  intro env v henv hf hin
  have h1 : fixed2 1 = "1.00".toList := by decide!
  rw [← h1]
  apply interpret_expression env _ _ (by decide)
  have ht : trim "f(1)".toList = "f(1)".toList := by decide
  rw [ht, evaluateExpression_math env _ hin (by decide)]
  have htok : tokenize "f(1)".toList = [['f'], ['('], ['1'], [')']] := by decide
  rw [htok, evaluateMathExpression, evalTokens_variable env _ _ _ (by decide) hf,
    evalTokens_lparen env henv,
    evalTokens_number env _ _ _ (by decide) (by decide! : stod ['1'] = some 1),
    evalTokens_rparen env henv]
  simp [reduceWhile, evalTokens, finish]

/-- Witness for C14, amended: `g(2,3)` in an environment that binds `f`, and
`f(1)` with `f` bound. -/
theorem unrecognised_call_rejected_when_unbound_witness :
    evaluateExpression [("f".toList, 2)] "g(2,3)".toList
      = .error "Undefined variable or invalid input: g".toList ∧
    interpret [("f".toList, 2)] "f(1)".toList = .ok ("1.00".toList, [("f".toList, 2)]) :=
  ⟨unrecognised_call_rejected_when_unbound.1 [("f".toList, 2)] 'g' "(2,3)".toList
      (by decide) (by decide) (by decide) (by decide),
    unrecognised_call_rejected_when_unbound.2.2 [("f".toList, 2)] 2 (by decide) (by decide!)
      (by decide)⟩

/-- C15 as stated fails: after the line `2=5` the input `2` evaluates to `5`. -/
theorem literal_shadowed_by_variable :
    interpret [] "2=5".toList = .ok ([], [("2".toList, 5)]) ∧
    evaluateExpression [("2".toList, 5)] "2".toList = .ok 5 ∧
    evaluateExpression [("2".toList, 5)] "2".toList ≠ .ok 2 ∧
    interpret [("2".toList, 5)] "2".toList = .ok ("5.00".toList, [("2".toList, 5)]) := by
  refine ⟨by decide!, by decide!, by decide!, by decide!⟩

/-- C15, amended: an input that is a single numeric literal `n` evaluates to
the number denoted by `n` in every environment that does not bind the text
`n` as a variable name; `interpret` accepts any text before `=` as a name,
and when `n` is bound `evaluateExpression(n)` returns the stored value (after
`2=5`, `2` evaluates to `5`), while a literal inside a larger expression keeps
its own value. -/
theorem literal_value_unless_bound :
    (∀ (env : Env) (n : List Char) (v : Double), isLiteral n = true → stod n = some v →
      env.lookup n = none → evaluateExpression env n = .ok v) ∧
    (∀ (env : Env) (n : List Char) (x : Double), env.lookup n = some x →
      evaluateExpression env n = .ok x) ∧
    evaluateExpression [("2".toList, 5)] "2".toList = .ok 5 ∧
    evaluateExpression [("2".toList, 5)] "2+0".toList = .ok 2 := by
  refine ⟨fun env n v hn hv hun => evaluateExpressionFuel_literal env hn hv hun _, ?_,
    by decide!, by decide!⟩
  intro env n x hx
  simp [evaluateExpression, evaluateExpressionFuel, hx]

/-- Witness for C15, amended: `2` and `-1.5` where they are not bound, `2`
where it is bound to `5`. -/
theorem literal_value_unless_bound_witness :
    evaluateExpression [("x".toList, 5)] "2".toList = .ok 2 ∧
    evaluateExpression [] "-1.5".toList = .ok (-3 / 2) ∧
    evaluateExpression [("2".toList, 5)] "2".toList = .ok 5 :=
  ⟨literal_value_unless_bound.1 [("x".toList, 5)] "2".toList 2 (by decide) (by decide!)
      (by decide),
    literal_value_unless_bound.1 [] "-1.5".toList (-3 / 2) (by decide) (by decide!)
      (by decide),
    literal_value_unless_bound.2.1 [("2".toList, 5)] "2".toList 5 (by decide!)⟩

/-- C20: on an empty argument list `split` returns no token and
`evaluateFunction` reads `tokens[0]` of an empty vector, which is undefined
behaviour: `add()`, and likewise `sub()`, `mul()`, `div()`, `mod()`, raise no
error; with a blank argument list the single token is empty and the value
stack is read while empty. -/
theorem empty_argument_list_out_of_bounds :
    find '(' "add()".toList = some 3 ∧ find ')' "add()".toList = some 4 ∧
    split [] ',' = [] ∧
    (∀ (evalArg : List Char → Outcome Double) (op : Char),
      evaluateFunction evalArg "add()".toList op = .undefined) ∧
    interpret [] "add()".toList = .undefined ∧
    interpret [] "sub()".toList = .undefined ∧
    interpret [] "mul()".toList = .undefined ∧
    interpret [] "div()".toList = .undefined ∧
    interpret [] "mod()".toList = .undefined ∧
    split [' '] ',' = [[]] ∧
    interpret [] "add( )".toList = .undefined := by
  refine ⟨by decide, by decide, by decide, ?_, by decide, by decide, by decide, by decide,
    by decide, by decide, by decide⟩
  intro evalArg op
  rfl


/-! ## Shape of the tokens -/

theorem tokenizeLoop_tokens (cs : List Char) :
    ∀ (tokens : List (List Char)) (token : List Char) (l : Bool),
      (∀ t ∈ tokens, t ≠ [] ∧ ∀ c ∈ t, c ≠ ' ') → (∀ c ∈ token, c ≠ ' ') →
      ∀ t ∈ tokenizeLoop cs tokens token l, t ≠ [] ∧ ∀ c ∈ t, c ≠ ' ' := by
  induction cs with
  | nil =>
    intro tokens token l htok hcur t ht
    rw [tokenizeLoop] at ht
    split_ifs at ht with h
    · rcases List.mem_append.1 ht with ht | ht
      · exact htok t ht
      · simp only [List.mem_singleton] at ht
        subst ht
        exact ⟨h, hcur⟩
    · exact htok t ht
  | cons c cs ih =>
    intro tokens token l htok hcur t ht
    have hflush : ∀ u ∈ (if token ≠ [] then tokens ++ [token] else tokens),
        u ≠ [] ∧ ∀ x ∈ u, x ≠ ' ' := by
      intro u hu
      split_ifs at hu with h
      · rcases List.mem_append.1 hu with hu | hu
        · exact htok u hu
        · simp only [List.mem_singleton] at hu
          subst hu
          exact ⟨h, hcur⟩
      · exact htok u hu
    rw [tokenizeLoop] at ht
    by_cases h1 : (isdigit c || decide (c = '.') || (decide (c = '-') && l)) = true
    · rw [if_pos h1] at ht
      have hc : c ≠ ' ' := by
        rintro rfl
        cases l <;> exact absurd h1 (by decide)
      refine ih tokens (token ++ [c]) false htok ?_ t ht
      intro x hx
      rcases List.mem_append.1 hx with hx | hx
      · exact hcur x hx
      · simp only [List.mem_singleton] at hx
        subst hx
        exact hc
    · rw [if_neg h1] at ht
      by_cases h2 : c ≠ ' '
      · simp only [if_pos h2] at ht
        refine ih _ [] true ?_ (by simp) t ht
        intro u hu
        rcases List.mem_append.1 hu with hu | hu
        · exact hflush u hu
        · simp only [List.mem_singleton] at hu
          subst hu
          exact ⟨by simp, by simpa using h2⟩
      · simp only [if_neg h2] at ht
        exact ih _ [] l hflush (by simp) t ht

/-- C24: for every input string, every token returned by `tokenize` is a
non-empty string and no token is a single space (no token contains a space at
all), so the first-character access `token[0]` made for each token in
`evaluateMathExpression` is in bounds: it reads the first character of the
token. -/
theorem tokenize_tokens_nonempty :
    ∀ (input : List Char), ∀ t ∈ tokenize input,
      t ≠ [] ∧ t ≠ [' '] ∧ (∀ c ∈ t, c ≠ ' ') ∧ 0 < t.length ∧
        t.head? = some (firstChar t) := by
  intro input t ht
  obtain ⟨hne, hsp⟩ := tokenizeLoop_tokens input [] [] true (by simp) (by simp) t ht
  refine ⟨hne, ?_, hsp, List.length_pos.2 hne, ?_⟩
  · rintro rfl
    exact hsp ' ' (by simp) rfl
  · cases t with
    | nil => exact absurd rfl hne
    | cons c cs => rfl

/-- Witness for C24: the token `-4` of the input ` (2 + 3)  -4 `. -/
theorem tokenize_tokens_nonempty_witness :
    ['-', '4'] ∈ tokenize " (2 + 3)  -4 ".toList ∧
    (['-', '4'] ≠ [] ∧ ['-', '4'] ≠ [' '] ∧ (∀ c ∈ ['-', '4'], c ≠ ' ') ∧
      0 < ['-', '4'].length ∧ ['-', '4'].head? = some (firstChar ['-', '4'])) :=
  ⟨by decide, tokenize_tokens_nonempty " (2 + 3)  -4 ".toList ['-', '4'] (by decide)⟩

/-! ## Adjacent operands -/

theorem evalTokens_numbers (env : Env) (ps : List (List Char × Double))
    (h : ∀ p ∈ ps, isNumberToken p.1 = true ∧ stod p.1 = some p.2) (vs : List Double)
    (os : List Char) :
    evalTokens env (ps.map Prod.fst) vs os = finish ((ps.map Prod.snd).reverse ++ vs) os := by
  induction ps generalizing vs with
  | nil => simp [evalTokens]
  | cons p ps ih =>
    obtain ⟨hn, hv⟩ := h p (List.mem_cons_self _ _)
    rw [List.map_cons, evalTokens_number env _ _ _ hn hv,
      ih (fun q hq => h q (List.mem_cons_of_mem _ hq))]
    simp

/-- C23: adjacent operands with no operator between them are not rejected:
for every environment and every non-empty token sequence consisting solely of
numeric literals, `evaluateMathExpression` succeeds and returns the value of
the last literal, the values of the earlier ones staying unused on the value
stack; `interpret("2 3")` is `"3.00"`. -/
theorem adjacent_operands_last_value :
    (∀ (env : Env) (ps : List (List Char × Double)) (p : List Char × Double),
      (∀ q ∈ ps ++ [p], isNumberToken q.1 = true ∧ stod q.1 = some q.2) →
      evaluateMathExpression env ((ps ++ [p]).map Prod.fst) = .ok p.2 ∧
      evalTokens env ((ps ++ [p]).map Prod.fst) [] []
        = finish (p.2 :: (ps.map Prod.snd).reverse) []) ∧
    (∀ env : Env, env.lookup "2 3".toList = none →
      interpret env "2 3".toList = .ok ("3.00".toList, env)) := by
  have main : ∀ (env : Env) (ps : List (List Char × Double)) (p : List Char × Double),
      (∀ q ∈ ps ++ [p], isNumberToken q.1 = true ∧ stod q.1 = some q.2) →
      evaluateMathExpression env ((ps ++ [p]).map Prod.fst) = .ok p.2 ∧
      evalTokens env ((ps ++ [p]).map Prod.fst) [] []
        = finish (p.2 :: (ps.map Prod.snd).reverse) [] := by
    intro env ps p h
    have := evalTokens_numbers env (ps ++ [p]) h [] []
    simp only [List.map_append, List.map_cons, List.map_nil, List.reverse_append,
      List.reverse_cons, List.reverse_nil, List.nil_append, List.singleton_append,
      List.append_nil] at this
    refine ⟨?_, by simpa using this⟩
    rw [evaluateMathExpression]
    simp only [List.map_append, List.map_cons, List.map_nil]
    rw [this]
    rfl
  refine ⟨main, ?_⟩
  intro env hun
  have h3 : fixed2 3 = "3.00".toList := by decide!
  rw [← h3]
  apply interpret_expression env _ _ (by decide)
  have ht : trim "2 3".toList = "2 3".toList := by decide
  rw [ht, evaluateExpression_math env _ hun (by decide)]
  have htok : tokenize "2 3".toList = ([(['2'], (2 : Double))] ++ [(['3'], 3)]).map Prod.fst := by
    decide
  rw [htok]
  exact (main env [(['2'], 2)] (['3'], 3) (by
    intro q hq
    simp only [List.singleton_append, List.mem_cons, List.mem_singleton, List.not_mem_nil,
      or_false] at hq
    rcases hq with rfl | rfl
    · exact ⟨by decide, by decide!⟩
    · exact ⟨by decide, by decide!⟩)).1

/-- Witness for C23: the tokens `1.5`, `-2`, `7` in an environment that binds
`x`, and `interpret("2 3")` in the initial environment. -/
theorem adjacent_operands_last_value_witness :
    evaluateMathExpression [("x".toList, 1)] ["1.5".toList, "-2".toList, "7".toList] = .ok 7 ∧
    interpret [] "2 3".toList = .ok ("3.00".toList, []) :=
  ⟨(adjacent_operands_last_value.1 [("x".toList, 1)]
      [("1.5".toList, 3 / 2), ("-2".toList, -2)] ("7".toList, 7) (by
        intro q hq
        simp only [List.cons_append, List.nil_append, List.mem_cons, List.mem_singleton,
          List.not_mem_nil, or_false] at hq
        rcases hq with rfl | rfl | rfl
        · exact ⟨by decide, by decide!⟩
        · exact ⟨by decide, by decide!⟩
        · exact ⟨by decide, by decide!⟩)).1,
    adjacent_operands_last_value.2 [] (by decide)⟩

/-! ## Text after the first `)` of a call -/

theorem evaluateExpressionFuel_call (env : Env) (fuel : Nat) (name : List Char) (op : Char)
    (rest : List Char)
    (hmem : (name, op) ∈ [("add".toList, '+'), ("sub".toList, '-'), ("mul".toList, '*'),
      ("div".toList, '/'), ("mod".toList, '%')])
    (hun : env.lookup (name ++ '(' :: rest) = none) :
    evaluateExpressionFuel env (fuel + 1) (name ++ '(' :: rest)
      = evaluateFunction (evaluateExpressionFuel env fuel) (name ++ '(' :: rest) op := by
  rw [evaluateExpressionFuel]
  simp only [hun]
  simp only [List.mem_cons, Prod.mk.injEq, List.mem_singleton, List.not_mem_nil,
    or_false] at hmem
  rcases hmem with ⟨rfl, rfl⟩ | ⟨rfl, rfl⟩ | ⟨rfl, rfl⟩ | ⟨rfl, rfl⟩ | ⟨rfl, rfl⟩ <;>
    simp [startsWith]

theorem evaluateExpression_call_tail (env : Env) (name : List Char) (op : Char)
    (args tail : List Char)
    (hmem : (name, op) ∈ [("add".toList, '+'), ("sub".toList, '-'), ("mul".toList, '*'),
      ("div".toList, '/'), ("mod".toList, '%')])
    (hargs : ∀ c ∈ args, c ≠ ')')
    (h1 : env.lookup (name ++ '(' :: args ++ ')' :: tail) = none)
    (h2 : env.lookup (name ++ '(' :: args ++ [')']) = none) :
    evaluateExpression env (name ++ '(' :: args ++ ')' :: tail)
      = evaluateExpression env (name ++ '(' :: args ++ [')']) := by
  have hname : ∀ c ∈ name, c ≠ '(' ∧ c ≠ ')' := by
    simp only [List.mem_cons, Prod.mk.injEq, List.mem_singleton, List.not_mem_nil,
      or_false] at hmem
    rcases hmem with ⟨rfl, rfl⟩ | ⟨rfl, rfl⟩ | ⟨rfl, rfl⟩ | ⟨rfl, rfl⟩ | ⟨rfl, rfl⟩ <;> decide
  have e1 : name ++ '(' :: args ++ ')' :: tail = name ++ '(' :: (args ++ ')' :: tail) := by
    simp
  have e2 : name ++ '(' :: args ++ [')'] = name ++ '(' :: (args ++ [')']) := by simp
  unfold evaluateExpression
  have s1 := evaluateExpressionFuel_call env (name ++ '(' :: args ++ ')' :: tail).length
    name op (args ++ ')' :: tail) hmem (by rw [← e1]; exact h1)
  have s2 := evaluateExpressionFuel_call env (name ++ '(' :: args ++ [')']).length
    name op (args ++ [')']) hmem (by rw [← e2]; exact h2)
  rw [← e1] at s1
  rw [← e2] at s2
  rw [s1, s2, evaluateFunction_first_rparen _ name args tail op hname hargs,
    ← evaluateFunction_first_rparen _ name args [] op hname hargs]
  apply evaluateFunction_congr
  intro t ht
  simp only [List.length_append, List.length_cons, List.length_nil] at ht
  apply evaluateExpressionFuel_stable
  · simp only [List.length_append, List.length_cons]
    omega
  · simp only [List.length_append, List.length_cons, List.length_nil]
    omega

/-- C22 as stated fails: when the call text up to its first `)` is itself
bound as a variable name, it evaluates to the stored value and the longer
input to the value of the call. -/
theorem call_text_bound_as_variable :
    interpret [] "add(1,2)=7".toList = .ok ([], [("add(1,2)".toList, 7)]) ∧
    List.lookup "add(1,2)*3".toList [("add(1,2)".toList, (7 : Double))] = none ∧
    evaluateExpression [("add(1,2)".toList, 7)] "add(1,2)*3".toList = .ok 3 ∧
    evaluateExpression [("add(1,2)".toList, 7)] "add(1,2)".toList = .ok 7 ∧
    evaluateExpression [("add(1,2)".toList, 7)] "add(1,2)*3".toList
      ≠ evaluateExpression [("add(1,2)".toList, 7)] "add(1,2)".toList := by
  refine ⟨by decide!, by decide, by decide!, by decide!, by decide!⟩

/-- C22, amended: an aggregate function call at the start of an input
consumes only the text up to the first `)`: for every environment, every call
text `name(args)` with `name` among `add sub mul div mod` and no `)` in
`args`, and every suffix `t` such that neither `name(args)` followed by `t`
nor `name(args)` alone is a variable name in the environment,
`evaluateExpression` of `name(args)` followed by `t` returns the same result
as `evaluateExpression` of `name(args)`; `add(1,2)*3` evaluates to `3`, the
same as `add(1,2)`. -/
theorem call_ignores_text_after_first_rparen :
    (∀ (env : Env) (name : List Char) (op : Char) (args t : List Char),
      (name, op) ∈ [("add".toList, '+'), ("sub".toList, '-'), ("mul".toList, '*'),
        ("div".toList, '/'), ("mod".toList, '%')] →
      (∀ c ∈ args, c ≠ ')') →
      env.lookup (name ++ '(' :: args ++ ')' :: t) = none →
      env.lookup (name ++ '(' :: args ++ [')']) = none →
      evaluateExpression env (name ++ '(' :: args ++ ')' :: t)
        = evaluateExpression env (name ++ '(' :: args ++ [')'])) ∧
    evaluateExpression [] "add(1,2)*3".toList = .ok 3 ∧
    evaluateExpression [] "add(1,2)".toList = .ok 3 ∧
    interpret [] "add(1,2)*3".toList = .ok ("3.00".toList, []) := by
  refine ⟨fun env name op args t hmem hargs h1 h2 =>
    evaluateExpression_call_tail env name op args t hmem hargs h1 h2,
    by decide!, by decide!, by decide!⟩

/-- Witness for C22, amended: `sub(9,4)` followed by `)+x(` in an environment
that binds `x`. -/
theorem call_ignores_text_after_first_rparen_witness :
    evaluateExpression [("x".toList, 1)] "sub(9,4))+x(".toList
      = evaluateExpression [("x".toList, 1)] "sub(9,4)".toList ∧
    evaluateExpression [("x".toList, 1)] "sub(9,4)".toList = .ok 5 :=
  ⟨call_ignores_text_after_first_rparen.1 [("x".toList, 1)] "sub".toList '-' "9,4".toList
      ")+x(".toList (by decide) (by decide) (by decide) (by decide),
    by decide!⟩

end Letstry

namespace Trig

open Letstry (Outcome Double Env find trim fixed2)

theorem evaluateTrigFunction_value {α : Type} [DivisionRing α] (sin cos tan : α → α) (pi : α)
    (evalArg : List Char → Outcome α) (input func : List Char) (start stop : Nat) (v : α)
    (hs : find '(' input = some start) (he : find ')' input = some stop) (hlt : start < stop)
    (hv : evalArg ((input.drop (start + 1)).take (stop - start - 1)) = .ok v) :
    evaluateTrigFunction sin cos tan pi evalArg input func =
      if func = "sin".toList then .ok (sin (v * pi / 180))
      else if func = "cos".toList then .ok (cos (v * pi / 180))
      else if func = "tan".toList then .ok (tan (v * pi / 180))
      else .error ("Unknown function: ".toList ++ func) := by
  simp only [evaluateTrigFunction, hs, he, ge_iff_le, if_neg (Nat.not_le.2 hlt), hv]

theorem evaluateExpressionFuel_plain (m : Cmath)
    (mathExpression : Env → List Char → Outcome Double) (env : Env) (fuel : Nat)
    (input : List Char) (hun : env.lookup input = none)
    (h1 : Letstry.isCall input = false)
    (h2 : Letstry.startsWith "sin(".toList input = false)
    (h3 : Letstry.startsWith "cos(".toList input = false)
    (h4 : Letstry.startsWith "tan(".toList input = false) :
    evaluateExpressionFuel m mathExpression env (fuel + 1) input = mathExpression env input := by
  simp only [Letstry.isCall, Bool.or_eq_false_iff] at h1
  obtain ⟨⟨⟨⟨a1, a2⟩, a3⟩, a4⟩, a5⟩ := h1
  simp only [evaluateExpressionFuel, hun, a1, a2, a3, a4, a5, h2, h3, h4, Bool.false_eq_true,
    if_false]

/-- C16: the trigonometric functions take their argument in degrees: for
every argument expression evaluating to `v`, `evaluateTrigFunction` returns
`sin`, `cos` or `tan` of `v * pi / 180` according to the function name (in
every number type, with the functions and the constant of `<cmath>` passed
in); over the reals this gives `sin(90) = 1` and `cos(0) = 1`; and
`interpret("sin(90)")` and `interpret("cos(0)")` are `"1.00"` when `std::sin`
and `std::cos` return `1` at these arguments. -/
theorem trig_functions_in_degrees :
    (∀ (α : Type) [DivisionRing α] (sin cos tan : α → α) (pi : α)
        (evalArg : List Char → Outcome α) (input : List Char) (start stop : Nat) (v : α),
      find '(' input = some start → find ')' input = some stop → start < stop →
      evalArg ((input.drop (start + 1)).take (stop - start - 1)) = .ok v →
      evaluateTrigFunction sin cos tan pi evalArg input "sin".toList
        = .ok (sin (v * pi / 180)) ∧
      evaluateTrigFunction sin cos tan pi evalArg input "cos".toList
        = .ok (cos (v * pi / 180)) ∧
      evaluateTrigFunction sin cos tan pi evalArg input "tan".toList
        = .ok (tan (v * pi / 180))) ∧
    evaluateTrigFunction Real.sin Real.cos Real.tan Real.pi (fun _ => .ok 90)
      "sin(90)".toList "sin".toList = .ok 1 ∧
    evaluateTrigFunction Real.sin Real.cos Real.tan Real.pi (fun _ => .ok 0)
      "cos(0)".toList "cos".toList = .ok 1 ∧
    (∀ (m : Cmath) (mathExpression : Env → List Char → Outcome Double) (env : Env),
      env.lookup "sin(90)".toList = none → env.lookup "90".toList = none →
      mathExpression env "90".toList = .ok 90 → m.sin (90 * m.pi / 180) = 1 →
      interpret m mathExpression env "sin(90)".toList = .ok ("1.00".toList, env)) ∧
    (∀ (m : Cmath) (mathExpression : Env → List Char → Outcome Double) (env : Env),
      env.lookup "cos(0)".toList = none → env.lookup "0".toList = none →
      mathExpression env "0".toList = .ok 0 → m.cos 0 = 1 →
      interpret m mathExpression env "cos(0)".toList = .ok ("1.00".toList, env)) := by
  have h1 : fixed2 1 = "1.00".toList := by decide!
  refine ⟨?_, ?_, ?_, ?_, ?_⟩
  · intro α _ sin cos tan pi evalArg input start stop v hs he hlt hv
    refine ⟨?_, ?_, ?_⟩
    · rw [evaluateTrigFunction_value sin cos tan pi evalArg input _ start stop v hs he hlt hv]
      rfl
    · rw [evaluateTrigFunction_value sin cos tan pi evalArg input _ start stop v hs he hlt hv]
      rfl
    · rw [evaluateTrigFunction_value sin cos tan pi evalArg input _ start stop v hs he hlt hv]
      rfl
  · rw [evaluateTrigFunction_value Real.sin Real.cos Real.tan Real.pi (fun _ => .ok 90)
      "sin(90)".toList "sin".toList 3 6 90 (by decide) (by decide) (by decide) rfl]
    have : (90 : ℝ) * Real.pi / 180 = Real.pi / 2 := by ring
    rw [if_pos rfl, this, Real.sin_pi_div_two]
  · rw [evaluateTrigFunction_value Real.sin Real.cos Real.tan Real.pi (fun _ => .ok 0)
      "cos(0)".toList "cos".toList 3 5 0 (by decide) (by decide) (by decide) rfl]
    have : (0 : ℝ) * Real.pi / 180 = 0 := by ring
    rw [if_neg (by decide), if_pos rfl, this, Real.cos_zero]
  · intro m mathExpression env hin harg hval hsin
    have ht : trim "sin(90)".toList = "sin(90)".toList := by decide
    have hf : find '=' "sin(90)".toList = none := by decide
    have harg' : evaluateExpressionFuel m mathExpression env 7
        (("sin(90)".toList.drop (3 + 1)).take (6 - 3 - 1)) = .ok 90 := by
      have : ("sin(90)".toList.drop (3 + 1)).take (6 - 3 - 1) = "90".toList := by decide
      rw [this, evaluateExpressionFuel_plain m mathExpression env 6 _ harg (by decide)
        (by decide) (by decide) (by decide)]
      exact hval
    have hev : evaluateExpression m mathExpression env "sin(90)".toList = .ok 1 := by
      have hstep : evaluateExpression m mathExpression env "sin(90)".toList
          = evaluateTrigFunction m.sin m.cos m.tan m.pi
              (evaluateExpressionFuel m mathExpression env 7) "sin(90)".toList
              "sin".toList := by
        have hl : "sin(90)".toList.length + 1 = 7 + 1 := by decide
        unfold evaluateExpression
        rw [hl, evaluateExpressionFuel]
        simp only [hin]
        simp [Letstry.startsWith]
      rw [hstep, evaluateTrigFunction_value m.sin m.cos m.tan m.pi _ "sin(90)".toList
        "sin".toList 3 6 90 (by decide) (by decide) (by decide) harg', if_pos rfl, hsin]
    simp only [interpret, ht, hf, hev, h1]
  · intro m mathExpression env hin harg hval hcos
    have ht : trim "cos(0)".toList = "cos(0)".toList := by decide
    have hf : find '=' "cos(0)".toList = none := by decide
    have harg' : evaluateExpressionFuel m mathExpression env 6
        (("cos(0)".toList.drop (3 + 1)).take (5 - 3 - 1)) = .ok 0 := by
      have : ("cos(0)".toList.drop (3 + 1)).take (5 - 3 - 1) = "0".toList := by decide
      rw [this, evaluateExpressionFuel_plain m mathExpression env 5 _ harg (by decide)
        (by decide) (by decide) (by decide)]
      exact hval
    have hev : evaluateExpression m mathExpression env "cos(0)".toList = .ok 1 := by
      have hstep : evaluateExpression m mathExpression env "cos(0)".toList
          = evaluateTrigFunction m.sin m.cos m.tan m.pi
              (evaluateExpressionFuel m mathExpression env 6) "cos(0)".toList
              "cos".toList := by
        have hl : "cos(0)".toList.length + 1 = 6 + 1 := by decide
        unfold evaluateExpression
        rw [hl, evaluateExpressionFuel]
        simp only [hin]
        simp [Letstry.startsWith]
      have hz : (0 : Double) * m.pi / 180 = 0 := by ring
      rw [hstep, evaluateTrigFunction_value m.sin m.cos m.tan m.pi _ "cos(0)".toList
        "cos".toList 3 5 0 (by decide) (by decide) (by decide) harg',
        if_neg (by decide), if_pos rfl, hz, hcos]
    simp only [interpret, ht, hf, hev, h1]

/-- Witness for C16: `tan(45)` with the argument evaluating to `45`, and the
two examples with the table `tableCmath` and the evaluator of `letstry.cpp`
for the expressions without a function call. -/
theorem trig_functions_in_degrees_witness :
    evaluateTrigFunction tableCmath.sin tableCmath.cos tableCmath.tan tableCmath.pi
      (fun _ => .ok 45) "tan(45)".toList "tan".toList
      = .ok (tableCmath.tan (45 * tableCmath.pi / 180)) ∧
    tableCmath.sin (90 * tableCmath.pi / 180) = 1 ∧ tableCmath.cos 0 = 1 ∧
    interpret tableCmath
      (fun env s => Letstry.evaluateMathExpression env (Letstry.tokenize s)) []
      "sin(90)".toList = .ok ("1.00".toList, []) ∧
    interpret tableCmath
      (fun env s => Letstry.evaluateMathExpression env (Letstry.tokenize s)) []
      "cos(0)".toList = .ok ("1.00".toList, []) :=
  ⟨(trig_functions_in_degrees.1 Double tableCmath.sin tableCmath.cos tableCmath.tan
      tableCmath.pi (fun _ => .ok 45) "tan(45)".toList 3 6 45 (by decide) (by decide)
      (by decide) rfl).2.2,
    by decide!, by decide!,
    trig_functions_in_degrees.2.2.2.1 tableCmath _ [] (by decide) (by decide) (by decide!)
      (by decide!),
    trig_functions_in_degrees.2.2.2.2 tableCmath _ [] (by decide) (by decide) (by decide!)
      (by decide!)⟩

end Trig

namespace Hopefully

open Letstry (Outcome Double Env)

/-! ## Order of evaluation in the expression tree -/

theorem binaryOperands_left_error (leftFirst : Bool) (msg : List Char) (right : Outcome Double)
    (f : Double → Double → Double)
    (h : leftFirst = true ∨ ∃ b, right = .ok b) :
    binaryOperands leftFirst (.error msg) right f = .error msg := by
  rcases h with h | ⟨b, rfl⟩
  · subst h
    rfl
  · cases leftFirst <;> rfl

/-- C18 as stated fails: the division node reports the zero denominator, not
the undefined variable of its left child. -/
theorem division_reports_denominator_first :
    (Expression.DivisionExpression (.VariableExpression "y".toList)
        (.NumberExpression 0)).interpret true []
      = .error "Division by zero error".toList ∧
    (Expression.DivisionExpression (.VariableExpression "y".toList)
        (.NumberExpression 0)).interpret false []
      = .error "Division by zero error".toList ∧
    (Expression.VariableExpression "y".toList).interpret true []
      = .error "Undefined variable: y".toList := by
  refine ⟨by decide!, by decide!, by decide!⟩

/-- C18, amended: a `DivisionExpression` evaluates its right child, the
denominator, before its left child: an error of the right subtree, or a zero
denominator, is the error raised by the node whatever the left subtree does,
and the left subtree's error is raised only when the denominator evaluates to
a non-zero value; so `DivisionExpression(VariableExpression("y"),
NumberExpression(0))` without `y` reports "Division by zero error". For
`AdditionExpression`, `SubtractionExpression` and `MultiplicationExpression`
the error of a failing left subtree is the one raised when the operands are
evaluated left to right, and in either order when the right subtree evaluates
to a value. -/
theorem binary_node_error_order :
    (∀ (leftFirst : Bool) (context : Env) (left right : Expression) (msg : List Char),
      right.interpret leftFirst context = .error msg →
      (Expression.DivisionExpression left right).interpret leftFirst context = .error msg) ∧
    (∀ (leftFirst : Bool) (context : Env) (left right : Expression),
      right.interpret leftFirst context = .ok 0 →
      (Expression.DivisionExpression left right).interpret leftFirst context
        = .error "Division by zero error".toList) ∧
    (∀ (leftFirst : Bool) (context : Env) (left right : Expression) (d : Double)
        (msg : List Char),
      right.interpret leftFirst context = .ok d → d ≠ 0 →
      left.interpret leftFirst context = .error msg →
      (Expression.DivisionExpression left right).interpret leftFirst context = .error msg) ∧
    (∀ (leftFirst : Bool) (context : Env) (left right : Expression) (msg : List Char),
      left.interpret leftFirst context = .error msg →
      (leftFirst = true ∨ ∃ b, right.interpret leftFirst context = .ok b) →
      (Expression.AdditionExpression left right).interpret leftFirst context = .error msg ∧
      (Expression.SubtractionExpression left right).interpret leftFirst context
        = .error msg ∧
      (Expression.MultiplicationExpression left right).interpret leftFirst context
        = .error msg) := by
  refine ⟨?_, ?_, ?_, ?_⟩
  · intro leftFirst context left right msg hr
    simp [Expression.interpret, hr]
  · intro leftFirst context left right hr
    simp [Expression.interpret, hr]
  · intro leftFirst context left right d msg hr hd hl
    simp [Expression.interpret, hr, hd, hl]
  · intro leftFirst context left right msg hl h
    simp only [Expression.interpret, hl]
    exact ⟨binaryOperands_left_error _ _ _ _ h, binaryOperands_left_error _ _ _ _ h,
      binaryOperands_left_error _ _ _ _ h⟩

/-- Witness for C18, amended: `y / (1 - 1)`, `y / 2` and `y + 1` without `y`. -/
theorem binary_node_error_order_witness :
    (Expression.DivisionExpression (.VariableExpression "y".toList)
        (.SubtractionExpression (.NumberExpression 1) (.NumberExpression 1))).interpret
        true [] = .error "Division by zero error".toList ∧
    (Expression.DivisionExpression (.VariableExpression "y".toList)
        (.VariableExpression "z".toList)).interpret true []
      = .error "Undefined variable: z".toList ∧
    (Expression.DivisionExpression (.VariableExpression "y".toList)
        (.NumberExpression 2)).interpret false []
      = .error "Undefined variable: y".toList ∧
    (Expression.AdditionExpression (.VariableExpression "y".toList)
        (.NumberExpression 1)).interpret false []
      = .error "Undefined variable: y".toList :=
  ⟨binary_node_error_order.2.1 true [] _ _ (by decide!),
    binary_node_error_order.1 true [] _ _ _ (by decide!),
    binary_node_error_order.2.2.1 false [] _ _ 2 _ (by decide!) (by norm_num) (by decide!),
    (binary_node_error_order.2.2.2 false [] (.VariableExpression "y".toList)
      (.NumberExpression 1) "Undefined variable: y".toList (by decide!)
      (Or.inr ⟨1, by decide!⟩)).1⟩

/-! ## Comma-separated segments -/

/-- C19 as stated fails: after the failing line `x=1,y=q` the assignment of
the first segment is in the environment. -/
theorem earlier_assignment_stays_committed :
    interpret true [] "x=1,y=q".toList
      = (.error "Undefined variable: q".toList, [("x".toList, 1)]) ∧
    (interpret true [] "x=1,y=q".toList).2 ≠ [] := by
  constructor <;> decide!

/-- C19, amended: a segment that fails commits nothing of its own, and the
assignments of the segments before it stay committed: when a segment raises
an error, `context.variables` is the environment reached after the earlier
segments of the line, each successful assignment segment having stored its
value before the next segment is read; for an input without a comma the
environment after a failing call equals the environment before it; after
`x=1,y=q` (`q` undefined) `x` is bound to `1`. -/
theorem failing_segment_keeps_earlier_assignments :
    (∀ (leftFirst : Bool) (context : Env) (token : List Char) (rest : List (List Char))
        (msg : List Char),
      (interpretSegments leftFirst context [token]).1 = .error msg →
      interpretSegments leftFirst context (token :: rest) = (.error msg, context)) ∧
    (∀ (leftFirst : Bool) (context : Env) (token : List Char) (rest : List (List Char))
        (eq_pos : Nat) (expressionTree : Expression) (value : Double),
      Letstry.find '=' token = some eq_pos →
      buildExpressionTree (tokenize (Letstry.trim (token.drop (eq_pos + 1))))
        = .ok expressionTree →
      expressionTree.interpret leftFirst context = .ok value →
      interpretSegments leftFirst context (token :: rest)
        = interpretSegments leftFirst
            (context.assign (Letstry.trim (token.take eq_pos)) value) rest) ∧
    (∀ (leftFirst : Bool) (context : Env) (input msg : List Char),
      (∀ c ∈ input, c ≠ ',') → (interpret leftFirst context input).1 = .error msg →
      (interpret leftFirst context input).2 = context) ∧
    interpret true [] "x=1,y=q".toList
      = (.error "Undefined variable: q".toList, [("x".toList, 1)]) := by
  have step : ∀ (leftFirst : Bool) (context : Env) (token : List Char)
      (rest : List (List Char)) (msg : List Char),
      (interpretSegments leftFirst context [token]).1 = .error msg →
      interpretSegments leftFirst context (token :: rest) = (.error msg, context) := by
    intro leftFirst context token rest msg h
    rw [interpretSegments] at h ⊢
    cases hf : Letstry.find '=' token with
    | some eq_pos =>
      simp only [hf] at h ⊢
      cases hb : buildExpressionTree
          (tokenize (Letstry.trim (List.drop (eq_pos + 1) token))) with
      | ok tree =>
        simp only [hb] at h ⊢
        cases hi : tree.interpret leftFirst context with
        | ok value =>
          simp only [hi, interpretSegments] at h
          exact absurd h (by simp)
        | error m => simp_all
        | undefined => simp_all
        | nofuel => simp_all
      | error m => simp_all
      | undefined => simp_all
      | nofuel => simp_all
    | none =>
      simp only [hf] at h ⊢
      cases hb : buildExpressionTree (tokenize token) with
      | ok tree =>
        simp only [hb] at h ⊢
        rw [h]
      | error m => simp_all
      | undefined => simp_all
      | nofuel => simp_all
  refine ⟨step, ?_, ?_, by decide!⟩
  · intro leftFirst context token rest eq_pos tree value hf hb hi
    rw [interpretSegments]
    simp only [hf, hb, hi]
  · intro leftFirst context input msg hno h
    unfold interpret at h ⊢
    cases input with
    | nil =>
      simp [Letstry.splitRaw, interpretSegments] at h
    | cons c cs =>
      have hs : Letstry.splitRaw ',' (c :: cs) = [c :: cs] :=
        Letstry.splitRaw_single ',' _ hno (by simp)
      rw [hs] at h ⊢
      rw [step leftFirst context (c :: cs) [] msg h]

/-- Witness for C19, amended: the segments `y=q`, `x=1` and the input `y=q`. -/
theorem failing_segment_keeps_earlier_assignments_witness :
    interpretSegments true [("x".toList, 1)] ["y=q".toList, "z=2".toList]
      = (.error "Undefined variable: q".toList, [("x".toList, 1)]) ∧
    interpretSegments true [] ["x=1".toList, "y=q".toList]
      = interpretSegments true
          (Letstry.Env.assign [] (Letstry.trim ("x=1".toList.take 1)) 1) ["y=q".toList] ∧
    (interpret true [("x".toList, 1)] "y=q".toList).2 = [("x".toList, 1)] :=
  ⟨failing_segment_keeps_earlier_assignments.1 true [("x".toList, 1)] "y=q".toList
      ["z=2".toList] "Undefined variable: q".toList (by decide!),
    failing_segment_keeps_earlier_assignments.2.1 true [] "x=1".toList ["y=q".toList] 1
      (.NumberExpression 1) 1 (by decide) (by decide!) (by decide!),
    failing_segment_keeps_earlier_assignments.2.2.1 true [("x".toList, 1)] "y=q".toList
      "Undefined variable: q".toList (by decide) (by decide!)⟩

end Hopefully

namespace Letstry

/-! ## Token steps under a lookup hypothesis on the token itself -/

theorem evalTokens_lparen_of (env : Env) (h : env.lookup ['('] = none)
    (rest : List (List Char)) (vs : List Double) (os : List Char) :
    evalTokens env (['('] :: rest) vs os = evalTokens env rest vs ('(' :: os) := by
  have h1 : isNumberToken ['('] = false := by decide
  simp [evalTokens, h1, h]

theorem evalTokens_rparen_of (env : Env) (h : env.lookup [')'] = none)
    (rest : List (List Char)) (vs : List Double) (os : List Char) :
    evalTokens env ([')'] :: rest) vs os =
      match reduceWhile (fun _ => true) vs os with
      | .ok (values1, _ :: operators1) => evalTokens env rest values1 operators1
      | .ok (_, []) => .undefined
      | .error msg => .error msg
      | .undefined => .undefined
      | .nofuel => .nofuel := by
  have h1 : isNumberToken [')'] = false := by decide
  have h3 : ([')'] : List Char) ≠ ['('] := by decide
  simp [evalTokens, h1, h, h3]

theorem evalTokens_operator_of (env : Env) {op : Char}
    (hop : (precedence op).isSome = true) (h : env.lookup [op] = none)
    (rest : List (List Char)) (vs : List Double) (os : List Char) :
    evalTokens env ([op] :: rest) vs os =
      match reduceWhile (fun o => decide (precedenceAt o ≥ precedenceAt op)) vs os with
      | .ok (values1, operators1) => evalTokens env rest values1 (op :: operators1)
      | .error msg => .error msg
      | .undefined => .undefined
      | .nofuel => .nofuel := by
  obtain ⟨h1, h2, h3, -, -, -, -⟩ := operator_token_facts hop
  have h6 : firstChar [op] = op := rfl
  simp only [evalTokens, h1, h, h6, hop, if_true, if_neg h2, if_neg h3]
  simp

theorem applyOperator_division_by_zero {op : Char} {a b : Double} (vs : List Double)
    (hop : op = '+' ∨ op = '-' ∨ op = '*' ∨ op = '/') (h : binaryValue op a b = none) :
    applyOperator op (b :: a :: vs) = .error "Division by zero".toList := by
  rcases hop with rfl | rfl | rfl | rfl
  · simp [binaryValue] at h
  · simp [binaryValue] at h
  · simp [binaryValue] at h
  · have hb : b = 0 := by
      by_contra hb
      simp [binaryValue, hb] at h
    simp [applyOperator, hb]

end Letstry


namespace Hopefully

open Letstry (Outcome Double Env stod firstChar isdigit)

/-! ## Agreement of the tree builder with the stack evaluator -/

theorem binary_operator_facts {op : Char} (h : (precedence op).isSome = true) :
    (op = '+' ∨ op = '-' ∨ op = '*' ∨ op = '/') ∧
      (Letstry.precedence op).isSome = true ∧ Letstry.precedenceAt op = precedenceAt op ∧
      op ≠ '(' ∧ 1 ≤ precedenceAt op := by
  unfold precedence at h
  split_ifs at h with h1 h2 h3 h4
  · subst h1; exact ⟨by simp, by decide, by decide, by decide, by decide⟩
  · subst h2; exact ⟨by simp, by decide, by decide, by decide, by decide⟩
  · subst h3; exact ⟨by simp, by decide, by decide, by decide, by decide⟩
  · subst h4; exact ⟨by simp, by decide, by decide, by decide, by decide⟩
  · simp at h

theorem numberTest_literal {t : List Char} (h : Letstry.isUnsignedLiteral t = true) :
    (isdigit (firstChar t) || t.contains '.') = true := by
  obtain ⟨c, cs, rfl, hc, -⟩ := Letstry.unsignedLiteral_cons h
  simp only [Bool.or_eq_true, decide_eq_true_eq] at hc
  rcases hc with hc | hc
  · simp [Letstry.firstChar, hc]
  · simp [Letstry.firstChar, hc]

theorem binaryOperands_values (leftFirst : Bool) (a b : Double)
    (f : Double → Double → Double) :
    binaryOperands leftFirst (.ok a) (.ok b) f = .ok (f a b) := by
  cases leftFirst <;> rfl

theorem binaryOperands_error (leftFirst : Bool) (l r : Outcome Double) (msg : List Char)
    (f : Double → Double → Double)
    (hl : l = .error msg ∨ ∃ a, l = .ok a) (hr : r = .error msg ∨ ∃ b, r = .ok b)
    (h : l = .error msg ∨ r = .error msg) :
    binaryOperands leftFirst l r f = .error msg := by
  rcases hl with rfl | ⟨a, rfl⟩ <;> rcases hr with rfl | ⟨b, rfl⟩ <;>
    cases leftFirst <;> simp_all [binaryOperands]

/-- Evaluation of the tree of a well-formed expression with all variables
bound: its value, or "Division by zero error". -/
theorem tree_interpret (leftFirst : Bool) (env : Env) (e : Infix)
    (hwf : e.wellFormed = true) (hb : e.bound env = true) :
    e.tree.interpret leftFirst env =
      match e.value env with
      | some v => .ok v
      | none => .error "Division by zero error".toList := by
  induction e with
  | lit token =>
    simp only [Infix.wellFormed, Bool.and_eq_true] at hwf
    obtain ⟨v, hv⟩ := Option.isSome_iff_exists.1 hwf.2
    simp [Infix.tree, Infix.value, Expression.interpret, hv]
  | var name =>
    simp only [Infix.bound] at hb
    obtain ⟨v, hv⟩ := Option.isSome_iff_exists.1 hb
    simp [Infix.tree, Infix.value, Expression.interpret, hv]
  | paren e ih =>
    simp only [Infix.wellFormed] at hwf
    simp only [Infix.bound] at hb
    simpa [Infix.tree, Infix.value] using ih hwf hb
  | bin op l r ihl ihr =>
    simp only [Infix.wellFormed, Bool.and_eq_true, decide_eq_true_eq] at hwf
    obtain ⟨⟨⟨⟨hop, hwl⟩, hwr⟩, -⟩, -⟩ := hwf
    simp only [Infix.bound, Bool.and_eq_true] at hb
    have hl := ihl hwl hb.1
    have hr := ihr hwr hb.2
    obtain ⟨hcases, -⟩ := binary_operator_facts hop
    have hlshape : ∀ x, l.tree.interpret leftFirst env = x →
        x = .error "Division by zero error".toList ∨ ∃ a, x = .ok a := by
      intro x hx
      rw [← hx, hl]
      cases l.value env with
      | some a => exact Or.inr ⟨a, rfl⟩
      | none => exact Or.inl rfl
    have hrshape : ∀ x, r.tree.interpret leftFirst env = x →
        x = .error "Division by zero error".toList ∨ ∃ a, x = .ok a := by
      intro x hx
      rw [← hx, hr]
      cases r.value env with
      | some a => exact Or.inr ⟨a, rfl⟩
      | none => exact Or.inl rfl
    have key : ∀ (f : Double → Double → Double),
        (∀ a b, Letstry.binaryValue op a b = some (f a b)) →
        binaryOperands leftFirst (l.tree.interpret leftFirst env)
            (r.tree.interpret leftFirst env) f =
          match (Infix.bin op l r).value env with
          | some v => .ok v
          | none => .error "Division by zero error".toList := by
      intro f hf
      simp only [Infix.value]
      cases hlv : l.value env with
      | none =>
        simp only [hlv] at hl
        exact binaryOperands_error _ _ _ _ _ (Or.inl hl) (hrshape _ rfl) (Or.inl hl)
      | some a =>
        simp only [hlv] at hl
        cases hrv : r.value env with
        | none =>
          simp only [hrv] at hr
          exact binaryOperands_error _ _ _ _ _ (hlshape _ rfl) (Or.inl hr) (Or.inr hr)
        | some b =>
          simp only [hrv] at hr
          rw [hl, hr, binaryOperands_values]
          simp [hf]
    rcases hcases with rfl | rfl | rfl | rfl
    · simpa [Infix.tree, Expression.interpret] using
        key (fun a b => a + b) (fun a b => by simp [Letstry.binaryValue])
    · simpa [Infix.tree, Expression.interpret] using
        key (fun a b => a - b) (fun a b => by simp [Letstry.binaryValue])
    · simpa [Infix.tree, Expression.interpret] using
        key (fun a b => a * b) (fun a b => by simp [Letstry.binaryValue])
    · simp only [Infix.tree, Expression.interpret, Infix.value]
      cases hrv : r.value env with
      | none =>
        simp only [hrv] at hr
        rw [hr]
        cases l.value env <;> rfl
      | some d =>
        simp only [hrv] at hr
        rw [hr]
        by_cases hd : d = 0
        · subst hd
          cases l.value env <;> simp [Letstry.binaryValue]
        · cases hlv : l.value env with
          | none =>
            simp only [hlv] at hl
            rw [hl]
            simp [hd]
          | some a =>
            simp only [hlv] at hl
            rw [hl]
            simp [Letstry.binaryValue, hd]


/-! ### The tree builder on a well-formed expression -/

theorem buildTokens_number {t : List Char} {v : Double} (rest : List (List Char))
    (ts : List Expression) (os : List Char)
    (hn : (isdigit (firstChar t) || t.contains '.') = true) (hv : stod t = some v) :
    buildTokens (t :: rest) ts os = buildTokens rest (.NumberExpression v :: ts) os := by
  rw [buildTokens]
  simp only [hn, if_true, hv]

theorem buildTokens_variable {name : Char} (hname : name.isAlpha = true)
    (rest : List (List Char)) (ts : List Expression) (os : List Char) :
    buildTokens ([name] :: rest) ts os
      = buildTokens rest (.VariableExpression [name] :: ts) os := by
  obtain ⟨hd, hdot, -⟩ := Letstry.letter_facts hname
  have hn : (isdigit (firstChar [name]) || [name].contains '.') = false := by
    simp [Letstry.firstChar, hd, Ne.symm hdot]
  have ha : isalpha (firstChar [name]) = true := hname
  rw [buildTokens]
  simp only [hn, Bool.false_eq_true, if_false, ha, if_true]

theorem buildTokens_lparen (rest : List (List Char)) (ts : List Expression) (os : List Char) :
    buildTokens (['('] :: rest) ts os = buildTokens rest ts ('(' :: os) := by
  have hn : (isdigit (firstChar ['(']) || ['('].contains '.') = false := by decide
  have ha : isalpha (firstChar ['(']) = false := by decide
  rw [buildTokens]
  simp only [hn, ha, Bool.false_eq_true, if_false, if_true]

theorem buildTokens_rparen (rest : List (List Char)) (ts : List Expression) (os : List Char) :
    buildTokens ([')'] :: rest) ts os =
      match reduceWhile (fun _ => true) ts os with
      | .ok (values1, _ :: operators1) => buildTokens rest values1 operators1
      | .ok (_, []) => .undefined
      | .error msg => .error msg
      | .undefined => .undefined
      | .nofuel => .nofuel := by
  have hn : (isdigit (firstChar [')']) || [')'].contains '.') = false := by decide
  have ha : isalpha (firstChar [')']) = false := by decide
  have h3 : ([')'] : List Char) ≠ ['('] := by decide
  rw [buildTokens]
  simp only [hn, ha, Bool.false_eq_true, if_false, if_neg h3, if_true]

theorem buildTokens_operator {op : Char} (hop : (precedence op).isSome = true)
    (rest : List (List Char)) (ts : List Expression) (os : List Char) :
    buildTokens ([op] :: rest) ts os =
      match reduceWhile (fun o => decide (precedenceAt o ≥ precedenceAt op)) ts os with
      | .ok (values1, operators1) => buildTokens rest values1 (op :: operators1)
      | .error msg => .error msg
      | .undefined => .undefined
      | .nofuel => .nofuel := by
  obtain ⟨hcases, -⟩ := binary_operator_facts hop
  rw [buildTokens]
  rcases hcases with rfl | rfl | rfl | rfl <;> simp [Letstry.firstChar, isalpha, isdigit]

theorem applyOperator_tree {op : Char} (hop : (precedence op).isSome = true)
    (l r : Infix) (ts : List Expression) :
    applyOperator op (r.tree :: l.tree :: ts) = .ok ((Infix.bin op l r).tree :: ts) := by
  obtain ⟨hcases, -⟩ := binary_operator_facts hop
  rcases hcases with rfl | rfl | rfl | rfl <;> simp [applyOperator, Infix.tree]

theorem reduceWhile_tree_stop {cond : Char → Bool} {k : Nat} (ts : List Expression)
    (os : List Char) (hs : stackBelow k os) (hc : ∀ o, cond o = true → k ≤ precedenceAt o) :
    reduceWhile cond ts os = .ok (ts, os) := by
  cases os with
  | nil => rfl
  | cons o os =>
    rcases hs with h | h
    · simp [reduceWhile, h]
    · have : cond o ≠ true := fun hc' => absurd (hc o hc') (by omega)
      simp [reduceWhile, this]

/-- Invariant of `buildExpressionTree`: reading the tokens of a well-formed
expression leaves stacks from which every later reduction continues as from
the stacks with the tree of the expression pushed. -/
theorem buildTokens_wellFormed :
    ∀ (e : Infix), e.wellFormed = true →
    ∀ (rest : List (List Char)) (ts : List Expression) (os : List Char),
      stackBelow e.level os →
      ∃ ts1 os1,
        buildTokens (e.toTokens ++ rest) ts os = buildTokens rest ts1 os1 ∧
        (∀ cond : Char → Bool,
          (∀ o, (precedence o).isSome = true → e.level ≤ precedenceAt o → cond o = true) →
            reduceWhile cond ts1 os1 = reduceWhile cond (e.tree :: ts) os) ∧
        finish ts1 os1 = finish (e.tree :: ts) os := by
  intro e
  induction e with
  | lit token =>
    intro hwf rest ts os _
    simp only [Infix.wellFormed, Bool.and_eq_true] at hwf
    obtain ⟨v, hv⟩ := Option.isSome_iff_exists.1 hwf.2
    refine ⟨(Infix.lit token).tree :: ts, os, ?_, fun _ _ => rfl, rfl⟩
    have := buildTokens_number rest ts os (numberTest_literal hwf.1) hv
    simpa [Infix.toTokens, Infix.tree, hv] using this
  | var name =>
    intro hwf rest ts os _
    simp only [Infix.wellFormed] at hwf
    refine ⟨(Infix.var name).tree :: ts, os, ?_, fun _ _ => rfl, rfl⟩
    simpa [Infix.toTokens, Infix.tree] using buildTokens_variable hwf rest ts os
  | paren e ih =>
    intro hwf rest ts os _
    simp only [Infix.wellFormed] at hwf
    obtain ⟨ts1, os1, h1, h2, -⟩ := ih hwf ([')'] :: rest) ts ('(' :: os) (Or.inl rfl)
    refine ⟨e.tree :: ts, os, ?_, fun _ _ => rfl, rfl⟩
    have hred : reduceWhile (fun _ => true) ts1 os1 = .ok (e.tree :: ts, '(' :: os) := by
      rw [h2 _ (fun _ _ _ => rfl)]
      simp [reduceWhile]
    have htok : (Infix.paren e).toTokens ++ rest = ['('] :: (e.toTokens ++ [')'] :: rest) := by
      simp [Infix.toTokens]
    rw [htok, buildTokens_lparen, h1, buildTokens_rparen, hred]
  | bin op l r ihl ihr =>
    intro hwf rest ts os hbelow
    simp only [Infix.wellFormed, Bool.and_eq_true, decide_eq_true_eq] at hwf
    obtain ⟨⟨⟨⟨hop, hwl⟩, hwr⟩, hll⟩, hlr⟩ := hwf
    obtain ⟨-, -, -, hne, -⟩ := binary_operator_facts hop
    have hbl : stackBelow l.level os := by
      cases os with
      | nil => trivial
      | cons o os =>
        rcases hbelow with h | h
        · exact Or.inl h
        · exact Or.inr (by simp only [Infix.level] at h; omega)
    obtain ⟨ts1, os1, hl1, hl2, -⟩ := ihl hwl ([op] :: (r.toTokens ++ rest)) ts os hbl
    have hredl : reduceWhile (fun o => decide (precedenceAt o ≥ precedenceAt op)) ts1 os1
        = .ok (l.tree :: ts, os) := by
      rw [hl2 _ (fun o _ ho => by simp; omega)]
      exact reduceWhile_tree_stop (l.tree :: ts) os hbelow
        (fun o ho => by simpa [Infix.level] using ho)
    obtain ⟨ts2, os2, hr1, hr2, hr3⟩ := ihr hwr rest (l.tree :: ts) (op :: os) (Or.inr hlr)
    have happ := applyOperator_tree hop l r ts
    refine ⟨ts2, os2, ?_, ?_, ?_⟩
    · have htok : (Infix.bin op l r).toTokens ++ rest
          = l.toTokens ++ [op] :: (r.toTokens ++ rest) := by
        simp [Infix.toTokens]
      rw [htok, hl1, buildTokens_operator hop, hredl]
      exact hr1
    · intro cond hcond
      rw [hr2 cond (fun o ho hlev => hcond o ho (by simp only [Infix.level]; omega))]
      have hc : cond op = true := hcond op hop (by simp [Infix.level])
      simp [reduceWhile, hne, hc, happ]
    · rw [hr3]
      simp [finish, happ]

theorem buildExpressionTree_wellFormed (e : Infix) (hwf : e.wellFormed = true) :
    buildExpressionTree e.toTokens = .ok e.tree := by
  obtain ⟨ts1, os1, h1, -, h3⟩ := buildTokens_wellFormed e hwf [] [] [] trivial
  unfold buildExpressionTree
  rw [List.append_nil] at h1
  rw [h1]
  simp only [buildTokens]
  rw [h3]
  rfl


/-! ### The stack evaluator on a well-formed expression -/

/-- Invariant of the loop of `evaluateMathExpression` on the tokens of a
well-formed expression with bound variables: with a value, later reductions
continue as from the stacks with the value pushed; with a division by zero,
the error has been raised or is raised by the next reduction. -/
theorem evalTokens_wellFormed (env : Env) (henv : infixUnbound env) :
    ∀ (e : Infix), e.wellFormed = true → e.bound env = true →
    ∀ (rest : List (List Char)) (vs : List Double) (os : List Char),
      Letstry.stackBelow e.level os →
      (∀ v, e.value env = some v →
        ∃ vs1 os1,
          Letstry.evalTokens env (e.toTokens ++ rest) vs os
            = Letstry.evalTokens env rest vs1 os1 ∧
          (∀ cond : Char → Bool,
            (∀ o, (Letstry.precedence o).isSome = true → e.level ≤ Letstry.precedenceAt o →
              cond o = true) →
              Letstry.reduceWhile cond vs1 os1 = Letstry.reduceWhile cond (v :: vs) os) ∧
          Letstry.finish vs1 os1 = Letstry.finish (v :: vs) os) ∧
      (e.value env = none →
        Letstry.evalTokens env (e.toTokens ++ rest) vs os
            = .error "Division by zero".toList ∨
        ∃ vs1 os1,
          Letstry.evalTokens env (e.toTokens ++ rest) vs os
            = Letstry.evalTokens env rest vs1 os1 ∧
          (∀ cond : Char → Bool,
            (∀ o, (Letstry.precedence o).isSome = true → e.level ≤ Letstry.precedenceAt o →
              cond o = true) →
              Letstry.reduceWhile cond vs1 os1 = .error "Division by zero".toList) ∧
          Letstry.finish vs1 os1 = .error "Division by zero".toList) := by
  intro e
  induction e with
  | lit token =>
    intro hwf _ rest vs os _
    simp only [Infix.wellFormed, Bool.and_eq_true] at hwf
    obtain ⟨w, hw⟩ := Option.isSome_iff_exists.1 hwf.2
    constructor
    · intro v hv
      simp only [Infix.value] at hv
      refine ⟨v :: vs, os, ?_, fun _ _ => rfl, rfl⟩
      simpa [Infix.toTokens] using
        Letstry.evalTokens_number env rest vs os (Letstry.isNumberToken_literal hwf.1) hv
    · intro hv
      simp [Infix.value, hw] at hv
  | var name =>
    intro hwf hb rest vs os _
    simp only [Infix.wellFormed] at hwf
    simp only [Infix.bound] at hb
    obtain ⟨w, hw⟩ := Option.isSome_iff_exists.1 hb
    obtain ⟨hd, hdot, -⟩ := Letstry.letter_facts hwf
    have hn : Letstry.isNumberToken [name] = false := by
      simp [Letstry.isNumberToken, Letstry.firstChar, hd, Ne.symm hdot]
    constructor
    · intro v hv
      simp only [Infix.value] at hv
      refine ⟨v :: vs, os, ?_, fun _ _ => rfl, rfl⟩
      simpa [Infix.toTokens] using Letstry.evalTokens_variable env rest vs os hn hv
    · intro hv
      simp [Infix.value, hw] at hv
  | paren e ih =>
    intro hwf hb rest vs os _
    simp only [Infix.wellFormed] at hwf
    simp only [Infix.bound] at hb
    have hlp : env.lookup ['('] = none := henv '(' (by decide)
    have hrp : env.lookup [')'] = none := henv ')' (by decide)
    have htok : (Infix.paren e).toTokens ++ rest = ['('] :: (e.toTokens ++ [')'] :: rest) := by
      simp [Infix.toTokens]
    have IH := ih hwf hb ([')'] :: rest) vs ('(' :: os) (Or.inl rfl)
    constructor
    · intro v hv
      simp only [Infix.value] at hv
      obtain ⟨vs1, os1, h1, h2, -⟩ := IH.1 v hv
      refine ⟨v :: vs, os, ?_, fun _ _ => rfl, rfl⟩
      have hred : Letstry.reduceWhile (fun _ => true) vs1 os1 = .ok (v :: vs, '(' :: os) := by
        rw [h2 _ (fun _ _ _ => rfl)]
        simp [Letstry.reduceWhile]
      rw [htok, Letstry.evalTokens_lparen_of env hlp, h1,
        Letstry.evalTokens_rparen_of env hrp, hred]
    · intro hv
      simp only [Infix.value] at hv
      left
      rcases IH.2 hv with herr | ⟨vs1, os1, h1, h2, -⟩
      · rw [htok, Letstry.evalTokens_lparen_of env hlp, herr]
      · rw [htok, Letstry.evalTokens_lparen_of env hlp, h1,
          Letstry.evalTokens_rparen_of env hrp, h2 _ (fun _ _ _ => rfl)]
  | bin op l r ihl ihr =>
    intro hwf hb rest vs os hbelow
    simp only [Infix.wellFormed, Bool.and_eq_true, decide_eq_true_eq] at hwf
    obtain ⟨⟨⟨⟨hop, hwl⟩, hwr⟩, hll⟩, hlr⟩ := hwf
    simp only [Infix.bound, Bool.and_eq_true] at hb
    obtain ⟨hcases, hLop, hEq, hne, -⟩ := binary_operator_facts hop
    have hunop : env.lookup [op] = none := by
      apply henv
      rcases hcases with rfl | rfl | rfl | rfl <;> decide
    have hbl : Letstry.stackBelow l.level os := by
      cases os with
      | nil => trivial
      | cons o os =>
        rcases hbelow with h | h
        · exact Or.inl h
        · exact Or.inr (by simp only [Infix.level] at h; omega)
    have htok : (Infix.bin op l r).toTokens ++ rest
        = l.toTokens ++ [op] :: (r.toTokens ++ rest) := by
      simp [Infix.toTokens]
    have IHl := ihl hwl hb.1 ([op] :: (r.toTokens ++ rest)) vs os hbl
    cases hlv : l.value env with
    | none =>
      constructor
      · intro v hv
        simp [Infix.value, hlv] at hv
      · intro _
        left
        rcases IHl.2 hlv with herr | ⟨vs1, os1, h1, h2, -⟩
        · rw [htok, herr]
        · rw [htok, h1, Letstry.evalTokens_operator_of env hLop hunop,
            h2 _ (fun o _ ho => by simp; omega)]
    | some a =>
      obtain ⟨vs1, os1, hl1, hl2, -⟩ := IHl.1 a hlv
      have hredl : Letstry.reduceWhile
          (fun o => decide (Letstry.precedenceAt o ≥ Letstry.precedenceAt op)) vs1 os1
          = .ok (a :: vs, os) := by
        rw [hl2 _ (fun o _ ho => by simp; omega)]
        exact Letstry.reduceWhile_stop (a :: vs) os hbelow
          (fun o ho => by simp only [Infix.level]; simp at ho; omega)
      have hrun : Letstry.evalTokens env ((Infix.bin op l r).toTokens ++ rest) vs os
          = Letstry.evalTokens env (r.toTokens ++ rest) (a :: vs) (op :: os) := by
        rw [htok, hl1, Letstry.evalTokens_operator_of env hLop hunop, hredl]
      have IHr := ihr hwr hb.2 rest (a :: vs) (op :: os) (Or.inr (by omega))
      cases hrv : r.value env with
      | none =>
        constructor
        · intro v hv
          simp [Infix.value, hlv, hrv] at hv
        · intro _
          rcases IHr.2 hrv with herr | ⟨vs2, os2, h1, h2, h3⟩
          · left
            rw [hrun, herr]
          · right
            exact ⟨vs2, os2, by rw [hrun, h1],
              fun cond hcond =>
                h2 cond (fun o ho hlev => hcond o ho (by simp only [Infix.level]; omega)),
              h3⟩
      | some b =>
        obtain ⟨vs2, os2, hr1, hr2, hr3⟩ := IHr.1 b hrv
        have hcover : ∀ cond : Char → Bool,
            (∀ o, (Letstry.precedence o).isSome = true →
              (Infix.bin op l r).level ≤ Letstry.precedenceAt o → cond o = true) →
            Letstry.reduceWhile cond vs2 os2
              = Letstry.reduceWhile cond (b :: a :: vs) (op :: os) ∧ cond op = true := by
          intro cond hcond
          exact ⟨hr2 cond (fun o ho hlev => hcond o ho (by simp only [Infix.level]; omega)),
            hcond op hLop (by simp only [Infix.level]; omega)⟩
        cases hbv : Letstry.binaryValue op a b with
        | some w =>
          have happ := Letstry.applyOperator_of_binaryValue vs hbv
          constructor
          · intro v hv
            simp only [Infix.value, hlv, hrv, hbv, Option.some.injEq] at hv
            subst hv
            refine ⟨vs2, os2, by rw [hrun, hr1], ?_, ?_⟩
            · intro cond hcond
              obtain ⟨h1, hc⟩ := hcover cond hcond
              rw [h1]
              simp [Letstry.reduceWhile, hne, hc, happ]
            · rw [hr3]
              simp [Letstry.finish, happ]
          · intro hv
            simp [Infix.value, hlv, hrv, hbv] at hv
        | none =>
          have happ := Letstry.applyOperator_division_by_zero vs hcases hbv
          constructor
          · intro v hv
            simp [Infix.value, hlv, hrv, hbv] at hv
          · intro _
            right
            refine ⟨vs2, os2, by rw [hrun, hr1], ?_, ?_⟩
            · intro cond hcond
              obtain ⟨h1, hc⟩ := hcover cond hcond
              rw [h1]
              simp [Letstry.reduceWhile, hne, hc, happ]
            · rw [hr3]
              simp [Letstry.finish, happ]

theorem evaluateMathExpression_wellFormed (env : Env) (henv : infixUnbound env) (e : Infix)
    (hwf : e.wellFormed = true) (hb : e.bound env = true) :
    Letstry.evaluateMathExpression env e.toTokens =
      match e.value env with
      | some v => .ok v
      | none => .error "Division by zero".toList := by
  have key := evalTokens_wellFormed env henv e hwf hb [] [] [] trivial
  unfold Letstry.evaluateMathExpression
  cases hv : e.value env with
  | some v =>
    obtain ⟨vs1, os1, h1, -, h3⟩ := key.1 v hv
    rw [List.append_nil] at h1
    rw [h1]
    simp only [Letstry.evalTokens]
    rw [h3]
    rfl
  | none =>
    rcases key.2 hv with herr | ⟨vs1, os1, h1, -, h3⟩
    · rw [List.append_nil] at herr
      rw [herr]
    · rw [List.append_nil] at h1
      rw [h1]
      simp only [Letstry.evalTokens]
      rw [h3]

end Hopefully

namespace Hopefully

open Letstry (Outcome Double Env)

/-- C21 (counterexample): in the environment that binds the name `+` (reached
in letstry.cpp by the input `+=5`), on the tokens `2 + 3` the stack evaluator
of letstry.cpp pushes the value of the variable `+` as an operand and returns
`3`, while the tree built by hopefully.cpp is the addition of `2` and `3` and
evaluates to `5` in either operand order. -/
theorem bound_operator_token_separates_evaluators :
    (Infix.bin '+' (.lit ['2']) (.lit ['3'])).wellFormed = true ∧
    (Infix.bin '+' (.lit ['2']) (.lit ['3'])).toTokens = [['2'], ['+'], ['3']] ∧
    Letstry.interpret [] "+=5".toList = .ok ([], [("+".toList, 5)]) ∧
    Letstry.evaluateMathExpression [("+".toList, 5)] [['2'], ['+'], ['3']] = .ok 3 ∧
    buildExpressionTree [['2'], ['+'], ['3']]
      = .ok (.AdditionExpression (.NumberExpression 2) (.NumberExpression 3)) ∧
    (Expression.AdditionExpression (.NumberExpression 2) (.NumberExpression 3)).interpret
      true [("+".toList, 5)] = .ok 5 ∧
    (Expression.AdditionExpression (.NumberExpression 2) (.NumberExpression 3)).interpret
      false [("+".toList, 5)] = .ok 5 := by
  refine ⟨?_, ?_, ?_, ?_, ?_, ?_, ?_⟩ <;> decide!

/-- C21 (amended): the tree-building evaluator of hopefully.cpp and the stack
evaluator of letstry.cpp agree in every environment in which none of the
tokens `( ) + - * /` is the name of a variable. For every well-formed infix
expression over unsigned numeric literals, bound single-letter variables, the
operators `+ - * /` and parentheses, `buildExpressionTree` returns a tree on
its token sequence, and either interpreting that tree (in either operand
order) and `evaluateMathExpression` return the same number, or the tree raises
`Division by zero error` and `evaluateMathExpression` raises
`Division by zero`. -/
theorem tree_evaluator_agrees_with_stack_evaluator (leftFirst : Bool) (env : Env) (e : Infix)
    (hwf : e.wellFormed = true) (hb : e.bound env = true) (henv : infixUnbound env) :
    ∃ tree, buildExpressionTree e.toTokens = .ok tree ∧
      ((∃ v, tree.interpret leftFirst env = .ok v ∧
          Letstry.evaluateMathExpression env e.toTokens = .ok v) ∨
       (tree.interpret leftFirst env = .error "Division by zero error".toList ∧
          Letstry.evaluateMathExpression env e.toTokens
            = .error "Division by zero".toList)) := by
  refine ⟨e.tree, buildExpressionTree_wellFormed e hwf, ?_⟩
  rw [tree_interpret leftFirst env e hwf hb, evaluateMathExpression_wellFormed env henv e hwf hb]
  cases e.value env with
  | some v => exact Or.inl ⟨v, rfl, rfl⟩
  | none => exact Or.inr ⟨rfl, rfl⟩

/-- C21 (witness): the agreement at `x * (2 + 3) / 4` with `x = 10`, and at
`1 / (x - x)`, whose division by zero both evaluators report. -/
theorem tree_evaluator_agrees_with_stack_evaluator_witness :
    ((Infix.bin '/' (.bin '*' (.var 'x') (.paren (.bin '+' (.lit ['2']) (.lit ['3']))))
        (.lit ['4'])).wellFormed = true ∧
      (Infix.bin '/' (.bin '*' (.var 'x') (.paren (.bin '+' (.lit ['2']) (.lit ['3']))))
        (.lit ['4'])).bound [(['x'], 10)] = true ∧
      infixUnbound [(['x'], 10)] ∧
      ∃ tree,
        buildExpressionTree
          (Infix.bin '/' (.bin '*' (.var 'x') (.paren (.bin '+' (.lit ['2']) (.lit ['3']))))
            (.lit ['4'])).toTokens = .ok tree ∧
        ((∃ v, tree.interpret true [(['x'], 10)] = .ok v ∧
            Letstry.evaluateMathExpression [(['x'], 10)]
              (Infix.bin '/' (.bin '*' (.var 'x') (.paren (.bin '+' (.lit ['2']) (.lit ['3']))))
                (.lit ['4'])).toTokens = .ok v) ∨
         (tree.interpret true [(['x'], 10)] = .error "Division by zero error".toList ∧
            Letstry.evaluateMathExpression [(['x'], 10)]
              (Infix.bin '/' (.bin '*' (.var 'x') (.paren (.bin '+' (.lit ['2']) (.lit ['3']))))
                (.lit ['4'])).toTokens = .error "Division by zero".toList))) ∧
    ((Infix.bin '/' (.lit ['1']) (.paren (.bin '-' (.var 'x') (.var 'x')))).wellFormed = true ∧
      (Infix.bin '/' (.lit ['1']) (.paren (.bin '-' (.var 'x') (.var 'x')))).bound
        [(['x'], 10)] = true ∧
      ∃ tree,
        buildExpressionTree
          (Infix.bin '/' (.lit ['1']) (.paren (.bin '-' (.var 'x') (.var 'x')))).toTokens
            = .ok tree ∧
        ((∃ v, tree.interpret false [(['x'], 10)] = .ok v ∧
            Letstry.evaluateMathExpression [(['x'], 10)]
              (Infix.bin '/' (.lit ['1']) (.paren (.bin '-' (.var 'x') (.var 'x')))).toTokens
                = .ok v) ∨
         (tree.interpret false [(['x'], 10)] = .error "Division by zero error".toList ∧
            Letstry.evaluateMathExpression [(['x'], 10)]
              (Infix.bin '/' (.lit ['1']) (.paren (.bin '-' (.var 'x') (.var 'x')))).toTokens
                = .error "Division by zero".toList))) :=
  ⟨⟨by decide!, by decide!, by decide!,
      tree_evaluator_agrees_with_stack_evaluator true [(['x'], 10)] _
        (by decide!) (by decide!) (by decide!)⟩,
    ⟨by decide!, by decide!,
      tree_evaluator_agrees_with_stack_evaluator false [(['x'], 10)] _
        (by decide!) (by decide!) (by decide!)⟩⟩

end Hopefully
